import Mathlib

/-!
# BadgerDB buffer manager (`BufMgr`), clock replacement

Shallow embedding of `Lab/Lab2/…-buffer.cpp`.  The manager object is a record; every
member function becomes a function from the state before the call to the outcome of the
call (a value or the exception thrown) paired with the state after it, so the state left
behind by a call that throws can be inspected as well.

Code the source only uses through headers (`BufDesc::Set`, `BufDesc::Clear`, the
`BufHashTbl` page index, the `File` and `Page` collaborators) is modelled from the
specification; each such definition says so.
-/

namespace badgerdb

abbrev PageId := Nat
abbrev FrameId := Nat
/-- Identity of a file object (what a non-null `File*` points to). -/
abbrev FileId := Nat
/-- A `File*`; `none` is the null pointer. -/
abbrev FilePtr := Option FileId

/-- Modelled from the spec: the `Page` collaborator, "a fixed-size buffer of page-size
bytes; exposes `page_number()`; assignable/copyable as a value". -/
structure Page where
  page_number : PageId
  data : List Nat
deriving DecidableEq

/-- Modelled from the spec: the `File` collaborator, as a mock that stores page contents
by page number.  The head-most entry for a page number is the current content. -/
structure File where
  pages : List (PageId × List Nat)
deriving DecidableEq

/-- Modelled from the spec: `File::readPage(pageId) → page bytes`. The spec gives the call
no failure outcome; a number with no stored content reads as a blank page. -/
def File.readPage (f : File) (p : PageId) : Page :=
  ⟨p, (f.pages.lookup p).getD []⟩

/-- Modelled from the spec: `File::writePage(page)`, stores the page under its own number. -/
def File.writePage (f : File) (pg : Page) : File :=
  ⟨(pg.page_number, pg.data) :: f.pages⟩

/-- Modelled from the spec: `File::allocatePage() → new page (with assigned id)`; the id is
one past the largest page number the file stores. -/
def File.allocatePage (f : File) : Page × File :=
  let n := (f.pages.map Prod.fst).foldr max 0 + 1
  (⟨n, []⟩, ⟨(n, []) :: f.pages⟩)

/-- Modelled from the spec: `File::deletePage(pageId)`. -/
def File.deletePage (f : File) (p : PageId) : File :=
  ⟨f.pages.filter (fun e => e.1 != p)⟩

/-- Calls made on `File` objects, recorded in order (ghost state of the embedding). -/
inductive FileCall where
  | readPage (file : FileId) (pageNo : PageId)
  | writePage (file : FileId) (page : Page)
  | allocatePage (file : FileId)
  | deletePage (file : FileId) (pageNo : PageId)
deriving DecidableEq

/-- Exceptions that can leave a member function.  `Diverged` is not a C++ exception: it is
the outcome of the embedding when the `while (true)` loop of `allocBuf` is cut off. -/
inductive Exn where
  | BufferExceeded
  | PageNotPinned
  | PagePinned
  | BadBuffer
  | HashNotFound
  | HashAlreadyPresent
  | Diverged
deriving DecidableEq

instance instDecidableEqExcept {ε α : Type} [DecidableEq ε] [DecidableEq α] :
    DecidableEq (Except ε α)
  | .ok a, .ok b =>
    if h : a = b then isTrue (by rw [h]) else isFalse (by intro h1; cases h1; exact h rfl)
  | .error a, .error b =>
    if h : a = b then isTrue (by rw [h]) else isFalse (by intro h1; cases h1; exact h rfl)
  | .ok _, .error _ => isFalse (by intro h1; cases h1)
  | .error _, .ok _ => isFalse (by intro h1; cases h1)

/-- Frame descriptor (`class BufDesc`, fields as used by `buffer.cpp`).  `pinCnt` is a
count that the code never takes below zero, so it is a natural number. -/
structure BufDesc where
  file : FilePtr
  pageNo : PageId
  frameNo : FrameId
  pinCnt : Nat
  dirty : Bool
  valid : Bool
  refbit : Bool
deriving DecidableEq

/-- Modelled from the spec: `BufDesc::Clear` (declared in `buffer.h`), "resets to the unused
state": no owning file, no pins, clean, unreferenced, invalid. -/
def BufDesc.Clear (d : BufDesc) : BufDesc :=
  { d with pinCnt := 0, file := none, pageNo := 0, dirty := false, refbit := false, valid := false }

/-- Modelled from the spec: `BufDesc::Set` (declared in `buffer.h`), "marks valid, resets
pin/dirty/referenced appropriately": the page is handed to the caller of `readPage`, which
"pins", so the count starts at one, the frame is clean and counts as just accessed. -/
def BufDesc.Set (d : BufDesc) (file : FilePtr) (pageNo : PageId) : BufDesc :=
  { d with file := file, pageNo := pageNo, pinCnt := 1, dirty := false, valid := true, refbit := true }

/-- Modelled from the spec: the Page Index (`BufHashTbl`), a map from
(file identity, page identifier) to frame index with unique keys. -/
abbrev BufHashTbl := FilePtr × PageId → Option FrameId

/-- Modelled from the spec: `lookup(file, pageId) → frameId | NotFound`; `none` stands for
`HashNotFoundException`. -/
def BufHashTbl.lookup (h : BufHashTbl) (file : FilePtr) (pageNo : PageId) : Option FrameId :=
  h (file, pageNo)

/-- Modelled from the spec: `insert(file, pageId, frameId)`, an error if the key already
exists. -/
def BufHashTbl.insert (h : BufHashTbl) (file : FilePtr) (pageNo : PageId) (frameNo : FrameId) :
    Except Exn BufHashTbl :=
  match h (file, pageNo) with
  | some _ => .error .HashAlreadyPresent
  | none => .ok (fun k => if k = (file, pageNo) then some frameNo else h k)

/-- Modelled from the spec: `remove(file, pageId)`, with a `NotFound` outcome on an absent
key. -/
def BufHashTbl.remove (h : BufHashTbl) (file : FilePtr) (pageNo : PageId) : Except Exn BufHashTbl :=
  match h (file, pageNo) with
  | none => .error .HashNotFound
  | some _ => .ok (fun k => if k = (file, pageNo) then none else h k)

/-- The buffer manager object together with the world it acts on: `disk` holds the `File`
objects its `File*` arguments point to and `trace` records the calls made on them. -/
structure BufMgr where
  numBufs : Nat
  clockHand : FrameId
  bufDescTable : FrameId → BufDesc
  bufPool : FrameId → Page
  hashTable : BufHashTbl
  disk : FileId → File
  trace : List FileCall

namespace BufMgr

/-- Assignment to `bufDescTable[i]`. -/
def setDesc (s : BufMgr) (i : FrameId) (d : BufDesc) : BufMgr :=
  { s with bufDescTable := fun j => if j = i then d else s.bufDescTable j }

/-- Assignment to `bufPool[i]`. -/
def setPool (s : BufMgr) (i : FrameId) (pg : Page) : BufMgr :=
  { s with bufPool := fun j => if j = i then pg else s.bufPool j }

/-- The call `file->writePage(pg)`; through a null pointer it has no defined behaviour and
the embedding leaves the world alone. -/
def fileWritePage (s : BufMgr) (file : FilePtr) (pg : Page) : BufMgr :=
  match file with
  | none => s
  | some fid =>
    { s with disk := fun g => if g = fid then (s.disk g).writePage pg else s.disk g,
             trace := s.trace ++ [FileCall.writePage fid pg] }

/-- The call `file->readPage(pageNo)`. -/
def fileReadPage (s : BufMgr) (fid : FileId) (pageNo : PageId) : Page × BufMgr :=
  ((s.disk fid).readPage pageNo, { s with trace := s.trace ++ [FileCall.readPage fid pageNo] })

/-- The call `file->allocatePage()`. -/
def fileAllocatePage (s : BufMgr) (fid : FileId) : Page × BufMgr :=
  (((s.disk fid).allocatePage).1,
   { s with disk := fun g => if g = fid then ((s.disk g).allocatePage).2 else s.disk g,
            trace := s.trace ++ [FileCall.allocatePage fid] })

/-- The call `file->deletePage(pageNo)`. -/
def fileDeletePage (s : BufMgr) (fid : FileId) (pageNo : PageId) : BufMgr :=
  { s with disk := fun g => if g = fid then (s.disk g).deletePage pageNo else s.disk g,
           trace := s.trace ++ [FileCall.deletePage fid pageNo] }

/-- `BufMgr::BufMgr(bufs)`: every descriptor gets its `frameNo` and `valid = false`, the
page index is empty, the clock hand is `bufs - 1` (32-bit unsigned).  The fields the
constructor body does not assign are those of a fresh `BufDesc`, modelled from the spec as
the unused state of `Clear`.  The world (`disk`) is whatever exists. -/
def construct (bufs : Nat) (disk : FileId → File) : BufMgr :=
  { numBufs := bufs
    clockHand := (bufs + 2 ^ 32 - 1) % 2 ^ 32
    bufDescTable := fun i =>
      { file := none, pageNo := 0, frameNo := i, pinCnt := 0, dirty := false, valid := false,
        refbit := false }
    bufPool := fun _ => ⟨0, []⟩
    hashTable := fun _ => none
    disk := disk
    trace := [] }

/-- `BufMgr::advanceClock`: `clockHand++` on a 32-bit unsigned, then reduction modulo
`numBufs` when it ran past the end. -/
def advanceClock (s : BufMgr) : BufMgr :=
  let h := (s.clockHand + 1) % 2 ^ 32
  { s with clockHand := if h ≥ s.numBufs then h % s.numBufs else h }

/-- The statement `try { hashTable->remove(file, pageNo); } catch (HashNotFoundException &) {}`. -/
def removeQuiet (s : BufMgr) (file : FilePtr) (pageNo : PageId) : BufMgr :=
  match s.hashTable.remove file pageNo with
  | .ok h => { s with hashTable := h }
  | .error _ => s

/-- The part of `allocBuf` after a victim was found (source lines 96-114): write back a
dirty page (flag cleared first), then drop the page-index entry of a valid frame,
swallowing `HashNotFoundException`. -/
def evict (s : BufMgr) : BufMgr :=
  let d := s.bufDescTable s.clockHand
  let s1 :=
    if d.dirty then
      (s.setDesc s.clockHand { d with dirty := false }).fileWritePage d.file (s.bufPool s.clockHand)
    else s
  if d.valid then s1.removeQuiet d.file d.pageNo else s1

/-- The `while (true)` loop of `BufMgr::allocBuf`, one iteration per unit of `fuel`, with
the local counter `num`. -/
def allocBufLoop : Nat → Nat → BufMgr → Except Exn FrameId × BufMgr
  | 0, _, s => (.error .Diverged, s)
  | fuel + 1, num, s =>
    let s1 := s.advanceClock
    let d := s1.bufDescTable s1.clockHand
    if d.valid = false then (.ok s1.clockHand, s1)
    else if d.refbit = true then
      allocBufLoop fuel num (s1.setDesc s1.clockHand { d with refbit := false })
    else if d.pinCnt ≠ 0 then
      if num + 1 = s1.numBufs then (.error .BufferExceeded, s1)
      else allocBufLoop fuel (num + 1) s1
    else (.ok s1.clockHand, s1.evict)

/-- `BufMgr::allocBuf`.  The loop is run with `2 * numBufs + 1` iterations available, which
it never uses up (`allocBufLoop_not_diverged`). -/
def allocBuf (s : BufMgr) : Except Exn FrameId × BufMgr :=
  allocBufLoop (2 * s.numBufs + 1) 0 s

/-- `BufMgr::readPage`; the returned `Page*` is represented by the index of the frame it
points to. -/
def readPage (s : BufMgr) (file : FileId) (pageNo : PageId) : Except Exn FrameId × BufMgr :=
  match s.hashTable.lookup (some file) pageNo with
  | some frame_num =>
    let d := s.bufDescTable frame_num
    (.ok frame_num, s.setDesc frame_num { d with refbit := true, pinCnt := d.pinCnt + 1 })
  | none =>
    match s.allocBuf with
    | (.error e, s1) => (.error e, s1)
    | (.ok frame_num, s1) =>
      let r := s1.fileReadPage file pageNo
      let s2 := r.2.setPool frame_num r.1
      match s2.hashTable.insert (some file) pageNo frame_num with
      | .error e => (.error e, s2)
      | .ok h =>
        (.ok frame_num,
          ({ s2 with hashTable := h }).setDesc frame_num
            ((s2.bufDescTable frame_num).Set (some file) pageNo))

/-- `BufMgr::unPinPage`. -/
def unPinPage (s : BufMgr) (file : FileId) (pageNo : PageId) (dirty : Bool) :
    Except Exn Unit × BufMgr :=
  match s.hashTable.lookup (some file) pageNo with
  | none => (.ok (), s)
  | some frame_num =>
    let d := s.bufDescTable frame_num
    if d.pinCnt > 0 then
      let s1 := s.setDesc frame_num { d with pinCnt := d.pinCnt - 1 }
      if dirty then
        (.ok (), s1.setDesc frame_num { s1.bufDescTable frame_num with dirty := true })
      else (.ok (), s1)
    else (.error .PageNotPinned, s)

/-- The `for` loop of `BufMgr::flushFile`: `n` frames left to scan, starting at frame `i`. -/
def flushFileLoop (file : FilePtr) : Nat → FrameId → BufMgr → Except Exn Unit × BufMgr
  | 0, _, s => (.ok (), s)
  | n + 1, i, s =>
    let d := s.bufDescTable i
    if d.file = file then
      if d.valid = false then (.error .BadBuffer, s)
      else if d.pinCnt > 0 then (.error .PagePinned, s)
      else
        let s1 :=
          if d.dirty then
            (s.fileWritePage d.file (s.bufPool i)).setDesc i { d with dirty := false }
          else s
        match s1.hashTable.remove file (s1.bufDescTable i).pageNo with
        | .error e => (.error e, s1)
        | .ok h =>
          flushFileLoop file n (i + 1)
            (({ s1 with hashTable := h }).setDesc i (s1.bufDescTable i).Clear)
    else flushFileLoop file n (i + 1) s

/-- `BufMgr::flushFile`. -/
def flushFile (s : BufMgr) (file : FilePtr) : Except Exn Unit × BufMgr :=
  flushFileLoop file s.numBufs 0 s

/-- `BufMgr::allocPage`; returns the new page number and the frame of the page. -/
def allocPage (s : BufMgr) (file : FileId) : Except Exn (PageId × FrameId) × BufMgr :=
  let r := s.fileAllocatePage file
  match r.2.allocBuf with
  | (.error e, s1) => (.error e, s1)
  | (.ok frame_num, s1) =>
    let s2 := s1.setPool frame_num r.1
    let pageNo := r.1.page_number
    match s2.hashTable.insert (some file) pageNo frame_num with
    | .error e => (.error e, s2)
    | .ok h =>
      (.ok (pageNo, frame_num),
        ({ s2 with hashTable := h }).setDesc frame_num
          ((s2.bufDescTable frame_num).Set (some file) pageNo))

/-- `BufMgr::disposePage`. -/
def disposePage (s : BufMgr) (file : FileId) (pageNo : PageId) : Except Exn Unit × BufMgr :=
  let s1 :=
    match s.hashTable.lookup (some file) pageNo with
    | none => s
    | some frame_num =>
      match s.hashTable.remove (some file) pageNo with
      | .error _ => s
      | .ok h => ({ s with hashTable := h }).setDesc frame_num (s.bufDescTable frame_num).Clear
  (.ok (), s1.fileDeletePage file pageNo)


/-- What a clock sweep may change: `t` is `s` with the hand moved and some reference bits
altered; everything else, the world included, is the same. -/
def SweptFrom (s t : BufMgr) : Prop :=
  t.numBufs = s.numBufs ∧ t.bufPool = s.bufPool ∧ t.hashTable = s.hashTable ∧
  t.disk = s.disk ∧ t.trace = s.trace ∧
  ∀ i, t.bufDescTable i = { s.bufDescTable i with refbit := (t.bufDescTable i).refbit }

/-- Number of frames of the pool whose reference bit is set. -/
def refCount (s : BufMgr) : Nat :=
  ((Finset.range s.numBufs).filter (fun i => (s.bufDescTable i).refbit = true)).card

/-- A world with empty files, for the concrete scenarios. -/
def emptyDisk : FileId → File := fun _ => ⟨[]⟩

/-- Scenario: pool of one frame holding page 1 of file 0, read once and unpinned (dirty). -/
def oneFrameUnpinned : BufMgr :=
  (((construct 1 emptyDisk).readPage 0 1).2.unPinPage 0 1 true).2

/-- Scenario: pool of two frames, pages 1 and 2 of file 0 read once each and still pinned. -/
def twoFramesPinned : BufMgr :=
  (((construct 2 emptyDisk).readPage 0 1).2.readPage 0 2).2

/-- Scenario: pool of two frames after `allocPage` on file 0. -/
def twoFramesAllocated : BufMgr :=
  ((construct 2 emptyDisk).allocPage 0).2

/-- Scenario behind the premature `BufferExceededException`: pool of two frames; pages 1
and 2 of file 0 are read, a read of page 3 fails (both frames pinned) and clears both
reference bits, then page 2 is unpinned, read again and unpinned again.  Frame 0 is left
pinned and unreferenced, frame 1 unpinned and referenced, the hand on frame 1. -/
def pinnedThenReferenced : BufMgr :=
  (((((twoFramesPinned.readPage 0 3).2.unPinPage 0 2 false).2.readPage 0 2).2).unPinPage 0 2
    false).2

/-- Scenario behind the stale descriptor: pool of two frames; `allocPage` on file 0 gives
page 1 in frame 0, page 2 (not allocated yet) is read into frame 1, both are unpinned. -/
def beforeDuplicateAlloc : BufMgr :=
  (((((construct 2 emptyDisk).allocPage 0).2.readPage 0 2).2.unPinPage 0 1 false).2.unPinPage 0 2
    false).2

/-- Scenario for the write-back round trip: pool of two frames; pages 1 and 5 of file 0
are read into frames 0 and 1, page 5 is unpinned, and the holder of page 1 has written the
data `[42]` into its frame. -/
def pageOneModified : BufMgr :=
  ((((construct 2 emptyDisk).readPage 0 1).2.readPage 0 5).2.unPinPage 0 5 false).2.setPool 0
    ⟨1, [42]⟩

/-- A call of one of the five public operations of the manager. -/
inductive Call where
  | readPage (file : FileId) (pageNo : PageId)
  | unPinPage (file : FileId) (pageNo : PageId) (dirty : Bool)
  | allocPage (file : FileId)
  | disposePage (file : FileId) (pageNo : PageId)
  | flushFile (file : FilePtr)
deriving DecidableEq

/-- The exception a call ended with, `none` when it returned. -/
def thrown {α : Type} (r : Except Exn α × BufMgr) : Option Exn :=
  match r.1 with
  | .ok _ => none
  | .error e => some e

/-- Performs a call: the exception thrown, if any, and the state after the call. -/
def perform (s : BufMgr) : Call → Option Exn × BufMgr
  | .readPage file pageNo => (thrown (s.readPage file pageNo), (s.readPage file pageNo).2)
  | .unPinPage file pageNo dirty =>
    (thrown (s.unPinPage file pageNo dirty), (s.unPinPage file pageNo dirty).2)
  | .allocPage file => (thrown (s.allocPage file), (s.allocPage file).2)
  | .disposePage file pageNo =>
    (thrown (s.disposePage file pageNo), (s.disposePage file pageNo).2)
  | .flushFile file => (thrown (s.flushFile file), (s.flushFile file).2)

/-- Any way a call can end. -/
def anyOutcome : Option Exn → Bool := fun _ => true

/-- The call returned or threw one of the four exceptions of the manager itself. -/
def managerOutcome : Option Exn → Bool
  | none => true
  | some .BufferExceeded => true
  | some .PageNotPinned => true
  | some .PagePinned => true
  | some .BadBuffer => true
  | some _ => false

/-- States reachable from the construction of a manager with at least one frame through
public calls that each end in a way `allowed` admits. -/
inductive ReachableVia (allowed : Option Exn → Bool) : BufMgr → Prop where
  | construct (bufs : Nat) (disk : FileId → File) (hbufs : 1 ≤ bufs) :
      ReachableVia allowed (construct bufs disk)
  | call (s : BufMgr) (c : Call) (hs : ReachableVia allowed s)
      (hc : allowed (s.perform c).1 = true) : ReachableVia allowed (s.perform c).2

/-- Descriptor invariant of the spec: `valid == false ⇒ pinCount == 0 ∧ dirty == false`
and `dirty == true ⇒ valid == true`. -/
def DescOK (d : BufDesc) : Prop :=
  (d.valid = false → d.pinCnt = 0 ∧ d.dirty = false) ∧ (d.dirty = true → d.valid = true)

/-- Every entry of the page index points to a valid frame whose descriptor carries the key
of the entry. -/
def HashSound (h : BufHashTbl) (tbl : FrameId → BufDesc) : Prop :=
  ∀ k f, h k = some f → (tbl f).valid = true ∧ ((tbl f).file, (tbl f).pageNo) = k

/-- Every valid frame other than `skip` is found in the page index under the
(file, pageNo) of its descriptor. -/
def IndexedExcept (skip : Option FrameId) (h : BufHashTbl) (tbl : FrameId → BufDesc) : Prop :=
  ∀ i, some i ≠ skip → (tbl i).valid = true → h ((tbl i).file, (tbl i).pageNo) = some i

/-- The part of the invariant that survives every call, however it ends: the page index
is sound and every descriptor, in the pool or not, satisfies `DescOK`. -/
def Weak (s : BufMgr) : Prop :=
  HashSound s.hashTable s.bufDescTable ∧ ∀ i, DescOK (s.bufDescTable i)

/-- The page held by a valid frame carries the page number of its descriptor (pages come
from `File::readPage(pageNo)` or `File::allocatePage()`, and holders of a page change its
data only). -/
def PoolNumbered (s : BufMgr) : Prop :=
  ∀ i, (s.bufDescTable i).valid = true → (s.bufPool i).page_number = (s.bufDescTable i).pageNo

/-- Page-index consistency as the spec words it, for the frames of the pool: a frame is
valid exactly when the index maps the (file, pageNo) of its descriptor to it, and no two
valid frames carry the same (file, pageNo). -/
def IndexConsistent (s : BufMgr) : Prop :=
  (∀ i, i < s.numBufs →
    ((s.bufDescTable i).valid = true ↔
      s.hashTable.lookup (s.bufDescTable i).file (s.bufDescTable i).pageNo = some i)) ∧
  (∀ i j, i < s.numBufs → j < s.numBufs →
    (s.bufDescTable i).valid = true → (s.bufDescTable j).valid = true →
    (s.bufDescTable i).file = (s.bufDescTable j).file →
    (s.bufDescTable i).pageNo = (s.bufDescTable j).pageNo → i = j)

/-- The frames the clock hand lands on during the loop of `allocBuf`, one per call of
`advanceClock` and in order: a ghost function with the control flow of `allocBufLoop`. -/
def allocBufVisits : Nat → Nat → BufMgr → List FrameId
  | 0, _, _ => []
  | fuel + 1, num, s =>
    let s1 := s.advanceClock
    let d := s1.bufDescTable s1.clockHand
    if d.valid = false then [s1.clockHand]
    else if d.refbit = true then
      s1.clockHand ::
        allocBufVisits fuel num (s1.setDesc s1.clockHand { d with refbit := false })
    else if d.pinCnt ≠ 0 then
      if num + 1 = s1.numBufs then [s1.clockHand]
      else s1.clockHand :: allocBufVisits fuel (num + 1) s1
    else [s1.clockHand]

/-- Scenario for the sweep: `twoFramesPinned` with page 1 (frame 0) unpinned; both
reference bits are set and the hand is on frame 1. -/
def twoFramesOneUnpinned : BufMgr :=
  (twoFramesPinned.unPinPage 0 1 false).2

/-- The statements of `flushFile` for one valid, unpinned frame `i` of the file (source
lines 180-188) when `hashTable->remove` succeeds: write-back of a dirty page, removal of
the index entry, `Clear`. -/
def flushFrame (s : BufMgr) (i : FrameId) : BufMgr :=
  let d := s.bufDescTable i
  let s1 :=
    if d.dirty then (s.fileWritePage d.file (s.bufPool i)).setDesc i { d with dirty := false }
    else s
  ({ s1 with hashTable := fun k => if k = (d.file, d.pageNo) then none else s1.hashTable k
    }).setDesc i (s1.bufDescTable i).Clear

/-- The `writePage` calls a flush of file `fid` makes for the `n` frames from frame `i`
on: one for each dirty frame of the file, in frame order. -/
def flushWrites (s : BufMgr) (fid : FileId) : Nat → FrameId → List FileCall
  | 0, _ => []
  | n + 1, i =>
    (if (s.bufDescTable i).file = some fid ∧ (s.bufDescTable i).dirty = true then
      [FileCall.writePage fid (s.bufPool i)] else []) ++ flushWrites s fid n (i + 1)

/-- A descriptor that is not valid names no file ("file: reference to owning file, or
empty if unused"). -/
def Unowned (tbl : FrameId → BufDesc) : Prop :=
  ∀ i, (tbl i).valid = false → (tbl i).file = none

/-- Every entry of the page index points to a frame of the pool. -/
def InPool (s : BufMgr) : Prop :=
  ∀ k f, s.hashTable k = some f → f < s.numBufs

/-- The write-back statements of `flushFile` for frame `i` (source lines 180-184). -/
def flushWriteBack (s : BufMgr) (i : FrameId) : BufMgr :=
  let d := s.bufDescTable i
  if d.dirty then (s.fileWritePage d.file (s.bufPool i)).setDesc i { d with dirty := false }
  else s

/-- Further facts that survive every call, however it ends: the pool has `n ≥ 1` frames,
no unused descriptor names a file, and the page index points into the pool. -/
def Sane (n : Nat) (s : BufMgr) : Prop :=
  1 ≤ n ∧ s.numBufs = n ∧ Unowned s.bufDescTable ∧ InPool s

/-- Scenario for `flushFile`: `twoFramesPinned` with page 1 (frame 0) unpinned dirty and
page 2 (frame 1) still pinned. -/
def twoFramesDirtyAndPinned : BufMgr :=
  (twoFramesPinned.unPinPage 0 1 true).2

/-- Scenario of the recovery after exhaustion: pool of three frames, three pages
allocated in file 0 (pages 1, 2, 3 in frames 0, 1, 2), all still pinned. -/
def threeFramesPinned : BufMgr :=
  ((((construct 3 emptyDisk).allocPage 0).2.allocPage 0).2.allocPage 0).2

/-- A call of the pin protocol: `readPage(file, pageNo)` or
`unPinPage(file, pageNo, dirty)`. -/
inductive PinCall where
  | read (file : FileId) (pageNo : PageId)
  | unpin (file : FileId) (pageNo : PageId) (dirty : Bool)
deriving DecidableEq

/-- Performs a call of the pin protocol; `none` when the call throws. -/
def PinCall.run : PinCall → BufMgr → Option BufMgr
  | .read file pageNo, s =>
    match (s.readPage file pageNo).1 with
    | .ok _ => some (s.readPage file pageNo).2
    | .error _ => none
  | .unpin file pageNo dirty, s =>
    match (s.unPinPage file pageNo dirty).1 with
    | .ok _ => some (s.unPinPage file pageNo dirty).2
    | .error _ => none

/-- Performs a sequence of calls of the pin protocol, left to right; `none` when one of
them throws. -/
def runPins (calls : List PinCall) (s : BufMgr) : Option BufMgr :=
  calls.foldl (fun o c => o.bind c.run) (some s)

/-- Number of `readPage` calls for the page `k` in a sequence of calls. -/
def reads (calls : List PinCall) (k : FilePtr × PageId) : Nat :=
  calls.countP fun c =>
    match c with
    | .read file pageNo => decide ((some file, pageNo) = k)
    | .unpin _ _ _ => false

/-- Number of `unPinPage` calls for the page `k` in a sequence of calls. -/
def unpins (calls : List PinCall) (k : FilePtr × PageId) : Nat :=
  calls.countP fun c =>
    match c with
    | .read _ _ => false
    | .unpin file pageNo _ => decide ((some file, pageNo) = k)

/-- Every `unPinPage` follows a not-yet-matched `readPage` of the same page: in every
prefix of the sequence the unpins of a page do not exceed its reads. -/
def Matched (calls : List PinCall) : Prop :=
  ∀ n k, unpins (calls.take n) k ≤ reads (calls.take n) k

/-- The pin counts agree with the counts `c` of outstanding reads: a resident page is
pinned `c` times and a page that is not resident has no outstanding read. -/
def PinsMatch (s : BufMgr) (c : FilePtr × PageId → Nat) : Prop :=
  (∀ k f, s.hashTable k = some f → (s.bufDescTable f).pinCnt = c k) ∧
  ∀ k, s.hashTable k = none → c k = 0

/-- Scenario: page 1 of file 0 read twice, page 2 read once, every read matched by a later
unpin. -/
def balancedCalls : List PinCall :=
  [.read 0 1, .read 0 1, .unpin 0 1 false, .read 0 2, .unpin 0 1 true, .unpin 0 2 false]

/-- Scenario: pool of one frame holding page 1 of file 0, read once and still pinned; the
file itself has no page yet, so its next `allocatePage` hands out page 1. -/
def oneFramePinned : BufMgr :=
  ((construct 1 emptyDisk).readPage 0 1).2

end BufMgr

/-! ## The join executor (`executor.cpp`) -/

/-- Modelled from the spec: the attribute types `INT`, `CHAR`, `VARCHAR` of the storage
layer (declared in a header that is not among the sources; the spec leaves schema handling
to an external collaborator), as the `switch` statements of the executor use them. -/
inductive DataType where
  | INT
  | CHAR
  | VARCHAR
deriving DecidableEq

/-- Modelled from the spec: `Attribute` (declared in `schema.h`, not among the sources),
with the fields the executor passes to its constructor:
`Attribute(attrName, attrType, maxSize, isNotNull, isUnique)`. -/
structure Attribute where
  attrName : String
  attrType : DataType
  maxSize : Nat
  isNotNull : Bool
  isUnique : Bool
deriving DecidableEq

/-- Modelled from the spec: `TableSchema` (declared in `schema.h`, not among the sources),
built by the executor as `TableSchema(tableName, attrs, isTemp)` and read through
`getAttrCount`, `getAttrName`, `getAttrType`, `getAttrMaxSize`, `isAttrNotNull` and
`isAttrUnique`. -/
structure TableSchema where
  tableName : String
  attrs : List Attribute
  isTemp : Bool
deriving DecidableEq

/-- A `std::string` as the list of its `char` values; the character `'0'` is 48. -/
abbrev Str := List Int

/-- `std::string(str, pos, len)`: the characters of `str` from `pos` on, at most `len` of
them; `none` stands for `std::out_of_range` (`pos > str.size()`).  The `int` arguments are
converted to `size_t`: a negative `pos` is out of range and a negative `len` takes the
rest of the string. -/
def substr (str : Str) (pos len : Int) : Option Str :=
  if pos < 0 ∨ (str.length : Int) < pos then none
  else some ((str.drop pos.toNat).take (if len < 0 then str.length else len.toNat))

/-- `str[pos]`: the character at `pos`, `'\0'` at `pos == str.size()`; `none` where the
behaviour is undefined. -/
def charAt (str : Str) (pos : Int) : Option Int :=
  if pos < 0 ∨ (str.length : Int) < pos then none
  else some (str.getD pos.toNat 0)

namespace JoinOperator

/-- The inner `for` loop of `joinTuples` and of `createResultTableSchema`: `has_same`,
whether the left schema has an attribute of the same type and name. -/
def hasSame (leftTableSchema : TableSchema) (a : Attribute) : Bool :=
  leftTableSchema.attrs.any fun l =>
    decide (l.attrType = a.attrType) && decide (l.attrName = a.attrName)

/-- `JoinOperator::createResultTableSchema`: all attributes of the left schema, then the
attributes of the right schema for which `has_same` is false. -/
def createResultTableSchema (leftTableSchema rightTableSchema : TableSchema) : TableSchema :=
  { tableName := "TEMP_TABLE"
    attrs := leftTableSchema.attrs ++
      rightTableSchema.attrs.filter fun a => !hasSame leftTableSchema a
    isTemp := true }

/-- The outer `for` loop of `JoinOperator::joinTuples` over the attributes of the right
schema still to visit, with `cur_right_index` and `result_tuple`. -/
def joinTuplesLoop (rightTuple : Str) (leftTableSchema : TableSchema) :
    List Attribute → Int → Str → Option Str
  | [], _, result_tuple => some result_tuple
  | a :: rest, cur_right_index, result_tuple =>
    let has_same := hasSame leftTableSchema a
    match a.attrType with
    | .INT =>
      (if !has_same then (substr rightTuple cur_right_index 4).map (result_tuple ++ ·)
        else some result_tuple).bind fun r =>
      joinTuplesLoop rightTuple leftTableSchema rest (cur_right_index + 4) r
    | .CHAR =>
      let max_len := a.maxSize
      (if !has_same then (substr rightTuple cur_right_index max_len).map (result_tuple ++ ·)
        else some result_tuple).bind fun r =>
      let align_ := (4 - max_len % 4) % 4
      joinTuplesLoop rightTuple leftTableSchema rest (cur_right_index + max_len + align_)
        (r ++ List.replicate align_ 48)
    | .VARCHAR =>
      (charAt rightTuple cur_right_index).bind fun actual_len =>
      (substr rightTuple cur_right_index 1).bind fun lengthChar =>
      (if !has_same then
          (substr rightTuple (cur_right_index + 1) actual_len).map
            ((result_tuple ++ lengthChar) ++ ·)
        else some (result_tuple ++ lengthChar)).bind fun r =>
      let align_ := (Int.tmod (4 - Int.tmod (actual_len + 1) 4) 4).toNat
      joinTuplesLoop rightTuple leftTableSchema rest
        (cur_right_index + 1 + actual_len + align_) (r ++ List.replicate align_ 48)

/-- `JoinOperator::joinTuples`. -/
def joinTuples (leftTuple rightTuple : Str) (leftTableSchema rightTableSchema : TableSchema) :
    Option Str :=
  joinTuplesLoop rightTuple leftTableSchema rightTableSchema.attrs 0 leftTuple

/-- Scenario: a table with the single attribute `name VARCHAR(10)`. -/
def nameTable : TableSchema :=
  ⟨"L", [⟨"name", .VARCHAR, 10, false, false⟩], false⟩

/-- Scenario: a table with the attributes `name VARCHAR(10)` and `age INT`. -/
def nameAgeTable : TableSchema :=
  ⟨"R", [⟨"name", .VARCHAR, 10, false, false⟩, ⟨"age", .INT, 4, false, false⟩], false⟩

/-- Scenario: a table with the single attribute `code CHAR(3)`. -/
def codeTable : TableSchema :=
  ⟨"L", [⟨"code", .CHAR, 3, false, false⟩], false⟩

/-- Scenario: a table with the attributes `code CHAR(3)` and `age INT`. -/
def codeAgeTable : TableSchema :=
  ⟨"R", [⟨"code", .CHAR, 3, false, false⟩, ⟨"age", .INT, 4, false, false⟩], false⟩

/-- Scenario: a table with the single attribute `id INT`. -/
def idTable : TableSchema :=
  ⟨"L", [⟨"id", .INT, 4, false, false⟩], false⟩

/-- Scenario: a table with the attributes `id INT` and `age INT`. -/
def idAgeTable : TableSchema :=
  ⟨"R", [⟨"id", .INT, 4, false, false⟩, ⟨"age", .INT, 4, false, false⟩], false⟩

/-- `JoinOperator::getCommonAttributes`: for every attribute of the right schema, in
order, one copy for each attribute of the left schema with the same type and name. -/
def getCommonAttributes (leftTableSchema rightTableSchema : TableSchema) : List Attribute :=
  rightTableSchema.attrs.flatMap fun r =>
    (leftTableSchema.attrs.filter fun l =>
      decide (l.attrType = r.attrType) && decide (l.attrName = r.attrName)).map fun _ => r

/-- Scenario: a table with the attributes `a INT` and `b INT`. -/
def abTable : TableSchema :=
  ⟨"L", [⟨"a", .INT, 4, false, false⟩, ⟨"b", .INT, 4, false, false⟩], false⟩

/-- Scenario: a table with the attributes `b INT` and `a INT`, in that order. -/
def baTable : TableSchema :=
  ⟨"R", [⟨"b", .INT, 4, false, false⟩, ⟨"a", .INT, 4, false, false⟩], false⟩

/-- Scenario: a table with the attributes `x VARCHAR(8)` and `y VARCHAR(8)`. -/
def xyTable : TableSchema :=
  ⟨"T", [⟨"x", .VARCHAR, 8, false, false⟩, ⟨"y", .VARCHAR, 8, false, false⟩], false⟩

end JoinOperator

/-- The `for` loop of `construct_search_key` over the attributes of the schema still to
visit, with `current_index`, `current_attr_index` and `search_key`; `none` where
`common_attrs[current_attr_index]` is out of bounds or a string access is out of range. -/
def construct_search_key_loop (key : Str) (common_attrs : List Attribute) :
    List Attribute → Int → Nat → Str → Option Str
  | [], _, _, search_key => some search_key
  | a :: rest, current_index, current_attr_index, search_key =>
    match a.attrType with
    | .INT =>
      (common_attrs[current_attr_index]?).bind fun c =>
      (if a.attrName = c.attrName ∧ a.attrType = c.attrType then
          (substr key current_index 4).map fun field =>
            (search_key ++ field, current_attr_index + 1)
        else some (search_key, current_attr_index)).bind fun st =>
      if common_attrs.length ≤ st.2 then some st.1
      else construct_search_key_loop key common_attrs rest (current_index + 4) st.2 st.1
    | .CHAR =>
      let max_len := a.maxSize
      (common_attrs[current_attr_index]?).bind fun c =>
      (if a.attrName = c.attrName ∧ a.attrType = c.attrType then
          (substr key current_index max_len).map fun field =>
            (search_key ++ field, current_attr_index + 1)
        else some (search_key, current_attr_index)).bind fun st =>
      if common_attrs.length ≤ st.2 then some st.1
      else construct_search_key_loop key common_attrs rest
        (current_index + max_len + (4 - max_len % 4) % 4) st.2 st.1
    | .VARCHAR =>
      (charAt key current_index).bind fun actual_len =>
      (common_attrs[current_attr_index]?).bind fun c =>
      (if a.attrName = c.attrName ∧ a.attrType = c.attrType then
          (substr key (current_index + 1) actual_len).map fun field =>
            (search_key ++ field, current_attr_index + 1)
        else some (search_key, current_attr_index)).bind fun st =>
      if common_attrs.length ≤ st.2 then some st.1
      else construct_search_key_loop key common_attrs rest
        (current_index + 1 + actual_len + Int.tmod (4 - Int.tmod (actual_len + 1) 4) 4)
        st.2 st.1

/-- `construct_search_key`. -/
def construct_search_key (key : Str) (common_attrs : List Attribute)
    (tableSchema : TableSchema) : Option Str :=
  construct_search_key_loop key common_attrs tableSchema.attrs 0 0 []

/-! ## The clock sweep -/

namespace BufMgr

@[simp] theorem advanceClock_numBufs (s : BufMgr) : s.advanceClock.numBufs = s.numBufs := rfl
@[simp] theorem advanceClock_bufDescTable (s : BufMgr) :
    s.advanceClock.bufDescTable = s.bufDescTable := rfl
@[simp] theorem setDesc_numBufs (s : BufMgr) (i : FrameId) (d : BufDesc) :
    (s.setDesc i d).numBufs = s.numBufs := rfl
@[simp] theorem setDesc_clockHand (s : BufMgr) (i : FrameId) (d : BufDesc) :
    (s.setDesc i d).clockHand = s.clockHand := rfl
@[simp] theorem setDesc_same (s : BufMgr) (i : FrameId) (d : BufDesc) :
    (s.setDesc i d).bufDescTable i = d := by simp [setDesc]
theorem setDesc_other (s : BufMgr) (i j : FrameId) (d : BufDesc) (h : j ≠ i) :
    (s.setDesc i d).bufDescTable j = s.bufDescTable j := by simp [setDesc, h]

theorem advanceClock_lt (s : BufMgr) (hN : 1 ≤ s.numBufs) :
    s.advanceClock.clockHand < s.numBufs := by
  simp only [advanceClock]
  split
  · exact Nat.mod_lt _ (by omega)
  · rename_i h
    exact not_le.mp h

theorem SweptFrom.refl (s : BufMgr) : SweptFrom s s :=
  ⟨rfl, rfl, rfl, rfl, rfl, fun _ => rfl⟩

theorem SweptFrom.trans {s t u : BufMgr} (h1 : SweptFrom s t) (h2 : SweptFrom t u) :
    SweptFrom s u := by
  obtain ⟨a1, a2, a3, a4, a5, a6⟩ := h1
  obtain ⟨b1, b2, b3, b4, b5, b6⟩ := h2
  refine ⟨b1.trans a1, b2.trans a2, b3.trans a3, b4.trans a4, b5.trans a5, fun i => ?_⟩
  rw [b6 i, a6 i]

theorem SweptFrom.advance (s : BufMgr) : SweptFrom s s.advanceClock :=
  ⟨rfl, rfl, rfl, rfl, rfl, fun _ => rfl⟩

theorem SweptFrom.clear (s : BufMgr) (i : FrameId) :
    SweptFrom s (s.setDesc i { s.bufDescTable i with refbit := false }) := by
  refine ⟨rfl, rfl, rfl, rfl, rfl, fun j => ?_⟩
  by_cases h : j = i
  · subst h; simp
  · rw [setDesc_other _ _ _ _ h]

/-- Outcome of the loop of `allocBuf`: it is cut off, or it throws `BufferExceededException`,
in both cases after a mere sweep; or it stops the sweep at a frame that is invalid (returned
as is) or valid, unreferenced and unpinned (returned after `evict`). -/
theorem allocBufLoop_spec (fuel num : Nat) (s : BufMgr) :
    ((allocBufLoop fuel num s).1 = .error .Diverged ∧ SweptFrom s (allocBufLoop fuel num s).2) ∨
    ((allocBufLoop fuel num s).1 = .error .BufferExceeded ∧
      SweptFrom s (allocBufLoop fuel num s).2) ∨
    ∃ t, SweptFrom s t ∧ (1 ≤ s.numBufs → t.clockHand < s.numBufs) ∧
      (allocBufLoop fuel num s).1 = .ok t.clockHand ∧
      (((t.bufDescTable t.clockHand).valid = false ∧ (allocBufLoop fuel num s).2 = t) ∨
       ((t.bufDescTable t.clockHand).valid = true ∧ (t.bufDescTable t.clockHand).refbit = false ∧
        (t.bufDescTable t.clockHand).pinCnt = 0 ∧ (allocBufLoop fuel num s).2 = t.evict)) := by
  induction fuel generalizing num s with
  | zero => exact Or.inl ⟨rfl, SweptFrom.refl s⟩
  | succ fuel ih =>
    simp only [allocBufLoop]
    have hadv := SweptFrom.advance s
    split
    · rename_i hv
      exact Or.inr (Or.inr ⟨s.advanceClock, hadv, fun hN => advanceClock_lt s hN, rfl,
        Or.inl ⟨hv, rfl⟩⟩)
    · rename_i hv
      split
      · have hcl := SweptFrom.clear s.advanceClock s.advanceClock.clockHand
        have hst := hadv.trans hcl
        rcases ih num _ with h | h | ⟨t, h1, h2, h3⟩
        · exact Or.inl ⟨h.1, hst.trans h.2⟩
        · exact Or.inr (Or.inl ⟨h.1, hst.trans h.2⟩)
        · exact Or.inr (Or.inr ⟨t, hst.trans h1, fun hN => h2 hN, h3⟩)
      · rename_i hr
        split
        · split
          · exact Or.inr (Or.inl ⟨rfl, hadv⟩)
          · rcases ih (num + 1) s.advanceClock with h | h | ⟨t, h1, h2, h3⟩
            · exact Or.inl ⟨h.1, hadv.trans h.2⟩
            · exact Or.inr (Or.inl ⟨h.1, hadv.trans h.2⟩)
            · exact Or.inr (Or.inr ⟨t, hadv.trans h1, fun hN => h2 hN, h3⟩)
        · rename_i hp
          refine Or.inr (Or.inr ⟨s.advanceClock, hadv, fun hN => advanceClock_lt s hN, rfl,
            Or.inr ⟨?_, ?_, ?_, rfl⟩⟩)
          · simpa using hv
          · simpa using hr
          · simpa using hp

theorem refCount_le (s : BufMgr) : s.refCount ≤ s.numBufs := by
  unfold refCount
  exact (Finset.card_filter_le _ _).trans (by simp)

theorem refCount_clear (s : BufMgr) (i : FrameId) (hi : i < s.numBufs)
    (hr : (s.bufDescTable i).refbit = true) :
    (s.setDesc i { s.bufDescTable i with refbit := false }).refCount + 1 = s.refCount := by
  unfold refCount
  have hmem : i ∈ (Finset.range s.numBufs).filter (fun j => (s.bufDescTable j).refbit = true) := by
    simp [hi, hr]
  have heq : (Finset.range (s.setDesc i { s.bufDescTable i with refbit := false }).numBufs).filter
      (fun j => ((s.setDesc i { s.bufDescTable i with refbit := false }).bufDescTable j).refbit
        = true)
      = ((Finset.range s.numBufs).filter (fun j => (s.bufDescTable j).refbit = true)).erase i := by
    ext j
    by_cases hj : j = i
    · subst hj; simp
    · simp [setDesc_other _ _ _ _ hj, hj]
  rw [heq, Finset.card_erase_of_mem hmem]
  have : 0 < ((Finset.range s.numBufs).filter
      (fun j => (s.bufDescTable j).refbit = true)).card := Finset.card_pos.mpr ⟨i, hmem⟩
  omega

/-- The loop of `allocBuf` ends by itself: every iteration that goes on either clears a set
reference bit or raises `num`, which stops the loop on reaching `numBufs`. -/
theorem allocBufLoop_not_diverged (fuel num : Nat) (s : BufMgr) (hnum : num < s.numBufs)
    (hfuel : s.refCount + (s.numBufs - num) ≤ fuel) :
    (allocBufLoop fuel num s).1 ≠ .error .Diverged := by
  induction fuel generalizing num s with
  | zero => omega
  | succ fuel ih =>
    simp only [allocBufLoop]
    split
    · simp
    · split
      · rename_i hr
        have hlt := advanceClock_lt s (by omega)
        have hc := refCount_clear s.advanceClock s.advanceClock.clockHand hlt hr
        have he : s.advanceClock.refCount = s.refCount := rfl
        refine ih num _ hnum ?_
        rw [setDesc_numBufs, advanceClock_numBufs]
        dsimp only at hc
        omega
      · split
        · split
          · simp
          · rename_i hne
            have he : s.advanceClock.refCount = s.refCount := rfl
            have hne' : num + 1 ≠ s.numBufs := hne
            exact ih (num + 1) _ (by simp only [advanceClock_numBufs]; omega)
              (by simp only [advanceClock_numBufs]; omega)
        · simp

theorem allocBuf_not_diverged (s : BufMgr) (hN : 1 ≤ s.numBufs) :
    s.allocBuf.1 ≠ .error .Diverged := by
  have := refCount_le s
  exact allocBufLoop_not_diverged _ 0 s (by omega) (by omega)

@[simp] theorem setDesc_bufPool (s : BufMgr) (i : FrameId) (d : BufDesc) :
    (s.setDesc i d).bufPool = s.bufPool := rfl
@[simp] theorem setDesc_hashTable (s : BufMgr) (i : FrameId) (d : BufDesc) :
    (s.setDesc i d).hashTable = s.hashTable := rfl
@[simp] theorem setDesc_disk (s : BufMgr) (i : FrameId) (d : BufDesc) :
    (s.setDesc i d).disk = s.disk := rfl
@[simp] theorem setDesc_trace (s : BufMgr) (i : FrameId) (d : BufDesc) :
    (s.setDesc i d).trace = s.trace := rfl
theorem setDesc_bufDescTable (s : BufMgr) (i j : FrameId) (d : BufDesc) :
    (s.setDesc i d).bufDescTable j = if j = i then d else s.bufDescTable j := rfl

@[simp] theorem fileWritePage_numBufs (s : BufMgr) (f : FilePtr) (pg : Page) :
    (s.fileWritePage f pg).numBufs = s.numBufs := by cases f <;> rfl
@[simp] theorem fileWritePage_clockHand (s : BufMgr) (f : FilePtr) (pg : Page) :
    (s.fileWritePage f pg).clockHand = s.clockHand := by cases f <;> rfl
@[simp] theorem fileWritePage_bufDescTable (s : BufMgr) (f : FilePtr) (pg : Page) :
    (s.fileWritePage f pg).bufDescTable = s.bufDescTable := by cases f <;> rfl
@[simp] theorem fileWritePage_bufPool (s : BufMgr) (f : FilePtr) (pg : Page) :
    (s.fileWritePage f pg).bufPool = s.bufPool := by cases f <;> rfl
@[simp] theorem fileWritePage_hashTable (s : BufMgr) (f : FilePtr) (pg : Page) :
    (s.fileWritePage f pg).hashTable = s.hashTable := by cases f <;> rfl

@[simp] theorem removeQuiet_numBufs (s : BufMgr) (f : FilePtr) (p : PageId) :
    (s.removeQuiet f p).numBufs = s.numBufs := by
  unfold removeQuiet; split <;> rfl
@[simp] theorem removeQuiet_clockHand (s : BufMgr) (f : FilePtr) (p : PageId) :
    (s.removeQuiet f p).clockHand = s.clockHand := by
  unfold removeQuiet; split <;> rfl
@[simp] theorem removeQuiet_bufDescTable (s : BufMgr) (f : FilePtr) (p : PageId) :
    (s.removeQuiet f p).bufDescTable = s.bufDescTable := by
  unfold removeQuiet; split <;> rfl
@[simp] theorem removeQuiet_bufPool (s : BufMgr) (f : FilePtr) (p : PageId) :
    (s.removeQuiet f p).bufPool = s.bufPool := by
  unfold removeQuiet; split <;> rfl
@[simp] theorem removeQuiet_disk (s : BufMgr) (f : FilePtr) (p : PageId) :
    (s.removeQuiet f p).disk = s.disk := by
  unfold removeQuiet; split <;> rfl
@[simp] theorem removeQuiet_trace (s : BufMgr) (f : FilePtr) (p : PageId) :
    (s.removeQuiet f p).trace = s.trace := by
  unfold removeQuiet; split <;> rfl
theorem removeQuiet_hashTable (s : BufMgr) (f : FilePtr) (p : PageId) (k : FilePtr × PageId) :
    (s.removeQuiet f p).hashTable k = if k = (f, p) then none else s.hashTable k := by
  unfold removeQuiet BufHashTbl.remove
  cases h : s.hashTable (f, p) with
  | none =>
    simp only
    split
    · rename_i hk; rw [hk, h]
    · rfl
  | some v => rfl

@[simp] theorem evict_numBufs (s : BufMgr) : s.evict.numBufs = s.numBufs := by
  unfold evict; simp only []; split <;> split <;> simp
@[simp] theorem evict_clockHand (s : BufMgr) : s.evict.clockHand = s.clockHand := by
  unfold evict; simp only []; split <;> split <;> simp
@[simp] theorem evict_bufPool (s : BufMgr) : s.evict.bufPool = s.bufPool := by
  unfold evict; simp only []; split <;> split <;> simp

theorem clean_eq_self (d : BufDesc) (h : d.dirty = false) : { d with dirty := false } = d := by
  cases d; simp_all

theorem evict_bufDescTable (s : BufMgr) (i : FrameId) :
    s.evict.bufDescTable i =
      if i = s.clockHand then { s.bufDescTable s.clockHand with dirty := false }
      else s.bufDescTable i := by
  unfold evict
  simp only []
  by_cases hd : (s.bufDescTable s.clockHand).dirty = true
  · rw [if_pos hd]
    split <;> simp [setDesc_bufDescTable]
  · rw [if_neg hd]
    have hd' : (s.bufDescTable s.clockHand).dirty = false := by simpa using hd
    have hrw : (if (s.bufDescTable s.clockHand).valid = true then
        s.removeQuiet (s.bufDescTable s.clockHand).file (s.bufDescTable s.clockHand).pageNo
        else s).bufDescTable = s.bufDescTable := by split <;> simp
    rw [hrw]
    split
    · rename_i hi
      subst hi
      exact (clean_eq_self _ hd').symm
    · rfl

theorem SweptFrom.desc_eq {s t : BufMgr} (h : SweptFrom s t) (i : FrameId) :
    (t.bufDescTable i).file = (s.bufDescTable i).file ∧
    (t.bufDescTable i).pageNo = (s.bufDescTable i).pageNo ∧
    (t.bufDescTable i).frameNo = (s.bufDescTable i).frameNo ∧
    (t.bufDescTable i).pinCnt = (s.bufDescTable i).pinCnt ∧
    (t.bufDescTable i).dirty = (s.bufDescTable i).dirty ∧
    (t.bufDescTable i).valid = (s.bufDescTable i).valid := by
  have h6 := h.2.2.2.2.2 i
  refine ⟨?_, ?_, ?_, ?_, ?_, ?_⟩
  · exact (congrArg BufDesc.file h6).trans rfl
  · exact (congrArg BufDesc.pageNo h6).trans rfl
  · exact (congrArg BufDesc.frameNo h6).trans rfl
  · exact (congrArg BufDesc.pinCnt h6).trans rfl
  · exact (congrArg BufDesc.dirty h6).trans rfl
  · exact (congrArg BufDesc.valid h6).trans rfl

/-- Outcome of `allocBuf`, see `allocBufLoop_spec`; with at least one frame the cut-off
case does not arise. -/
theorem allocBuf_spec (s : BufMgr) (hN : 1 ≤ s.numBufs) :
    (s.allocBuf.1 = .error .BufferExceeded ∧ SweptFrom s s.allocBuf.2) ∨
    ∃ t, SweptFrom s t ∧ t.clockHand < s.numBufs ∧ s.allocBuf.1 = .ok t.clockHand ∧
      (((t.bufDescTable t.clockHand).valid = false ∧ s.allocBuf.2 = t) ∨
       ((t.bufDescTable t.clockHand).valid = true ∧ (t.bufDescTable t.clockHand).refbit = false ∧
        (t.bufDescTable t.clockHand).pinCnt = 0 ∧ s.allocBuf.2 = t.evict)) := by
  rcases allocBufLoop_spec (2 * s.numBufs + 1) 0 s with h | h | ⟨t, h1, h2, h3, h4⟩
  · exact absurd h.1 (allocBuf_not_diverged s hN)
  · exact Or.inl h
  · exact Or.inr ⟨t, h1, h2 hN, h3, h4⟩

theorem insert_ok {h h' : BufHashTbl} {file : FilePtr} {pageNo : PageId} {frameNo : FrameId}
    (hins : h.insert file pageNo frameNo = .ok h') :
    h (file, pageNo) = none ∧ h' = fun k => if k = (file, pageNo) then some frameNo else h k := by
  unfold BufHashTbl.insert at hins
  split at hins
  · cases hins
  · rename_i hnone
    injection hins with hins
    exact ⟨hnone, hins.symm⟩

theorem insert_error {h : BufHashTbl} {file : FilePtr} {pageNo : PageId} {frameNo : FrameId}
    {e : Exn} (hins : h.insert file pageNo frameNo = .error e) :
    e = .HashAlreadyPresent ∧ h (file, pageNo) ≠ none := by
  unfold BufHashTbl.insert at hins
  split at hins
  · rename_i v hsome
    injection hins with hins
    exact ⟨hins.symm, by rw [hsome]; simp⟩
  · cases hins

theorem readPage_hit (s : BufMgr) (file : FileId) (pageNo : PageId) (f : FrameId)
    (hres : s.hashTable.lookup (some file) pageNo = some f) :
    s.readPage file pageNo =
      (.ok f, s.setDesc f
        { s.bufDescTable f with refbit := true, pinCnt := (s.bufDescTable f).pinCnt + 1 }) := by
  unfold readPage
  rw [hres]

/-! ## Invariants of the descriptor table and the page index -/

theorem HashSound.of_sameKeys {h : BufHashTbl} {tbl tbl' : FrameId → BufDesc}
    (hs : HashSound h tbl)
    (hk : ∀ i, (tbl' i).valid = (tbl i).valid ∧ (tbl' i).file = (tbl i).file ∧
      (tbl' i).pageNo = (tbl i).pageNo) : HashSound h tbl' := by
  intro k f hkf
  obtain ⟨hv, hf, hp⟩ := hk f
  rw [hv, hf, hp]
  exact hs k f hkf

theorem IndexedExcept.transfer {skip : Option FrameId} {h : BufHashTbl}
    {tbl tbl' : FrameId → BufDesc} (hs : IndexedExcept skip h tbl)
    (hk : ∀ i, (tbl' i).valid = (tbl i).valid ∧ (tbl' i).file = (tbl i).file ∧
      (tbl' i).pageNo = (tbl i).pageNo) : IndexedExcept skip h tbl' := by
  intro i hi hval
  obtain ⟨hv, hf, hp⟩ := hk i
  rw [hf, hp]
  exact hs i hi (hv ▸ hval)

theorem IndexedExcept.weaken {skip : Option FrameId} {h : BufHashTbl}
    {tbl : FrameId → BufDesc} (hs : IndexedExcept none h tbl) : IndexedExcept skip h tbl :=
  fun i _ hval => hs i (by simp) hval

/-- Replacing one descriptor by one with the same `valid`, `file` and `pageNo`. -/
theorem sameKeys_setDesc (s : BufMgr) (f : FrameId) (d : BufDesc)
    (hv : d.valid = (s.bufDescTable f).valid) (hf : d.file = (s.bufDescTable f).file)
    (hp : d.pageNo = (s.bufDescTable f).pageNo) (i : FrameId) :
    ((s.setDesc f d).bufDescTable i).valid = (s.bufDescTable i).valid ∧
    ((s.setDesc f d).bufDescTable i).file = (s.bufDescTable i).file ∧
    ((s.setDesc f d).bufDescTable i).pageNo = (s.bufDescTable i).pageNo := by
  rw [setDesc_bufDescTable]
  split
  · rename_i h; subst h; exact ⟨hv, hf, hp⟩
  · exact ⟨rfl, rfl, rfl⟩

theorem descOK_setDesc (s : BufMgr) (f : FrameId) (d : BufDesc)
    (hall : ∀ i, DescOK (s.bufDescTable i)) (hd : DescOK d) (i : FrameId) :
    DescOK ((s.setDesc f d).bufDescTable i) := by
  rw [setDesc_bufDescTable]
  split
  · exact hd
  · exact hall i

theorem descOK_of_valid (d : BufDesc) (hv : d.valid = true) : DescOK d :=
  ⟨fun h => absurd (hv.symm.trans h) (by simp), fun _ => hv⟩

theorem SweptFrom.hashSound {s t : BufMgr} (h : SweptFrom s t)
    (hs : HashSound s.hashTable s.bufDescTable) : HashSound t.hashTable t.bufDescTable := by
  rw [h.2.2.1]
  exact hs.of_sameKeys fun i => ⟨(h.desc_eq i).2.2.2.2.2, (h.desc_eq i).1, (h.desc_eq i).2.1⟩

theorem SweptFrom.indexedExcept {s t : BufMgr} (h : SweptFrom s t) {skip : Option FrameId}
    (hs : IndexedExcept skip s.hashTable s.bufDescTable) :
    IndexedExcept skip t.hashTable t.bufDescTable := by
  rw [h.2.2.1]
  exact hs.transfer fun i => ⟨(h.desc_eq i).2.2.2.2.2, (h.desc_eq i).1, (h.desc_eq i).2.1⟩

theorem SweptFrom.descOK {s t : BufMgr} (h : SweptFrom s t)
    (hs : ∀ i, DescOK (s.bufDescTable i)) (i : FrameId) : DescOK (t.bufDescTable i) := by
  obtain ⟨_, _, _, hp, hd, hv⟩ := h.desc_eq i
  unfold DescOK
  rw [hp, hd, hv]
  exact hs i

theorem evict_hashTable (s : BufMgr) (k : FilePtr × PageId) :
    s.evict.hashTable k =
      if (s.bufDescTable s.clockHand).valid = true ∧
          k = ((s.bufDescTable s.clockHand).file, (s.bufDescTable s.clockHand).pageNo)
      then none else s.hashTable k := by
  unfold evict
  simp only []
  by_cases hv : (s.bufDescTable s.clockHand).valid = true
  · rw [if_pos hv, removeQuiet_hashTable]
    have hh : (if (s.bufDescTable s.clockHand).dirty = true then
        (s.setDesc s.clockHand
          { s.bufDescTable s.clockHand with dirty := false }).fileWritePage
            (s.bufDescTable s.clockHand).file (s.bufPool s.clockHand)
        else s).hashTable = s.hashTable := by split <;> simp
    rw [hh]
    simp [hv]
  · rw [if_neg hv]
    have hh : (if (s.bufDescTable s.clockHand).dirty = true then
        (s.setDesc s.clockHand
          { s.bufDescTable s.clockHand with dirty := false }).fileWritePage
            (s.bufDescTable s.clockHand).file (s.bufPool s.clockHand)
        else s).hashTable = s.hashTable := by split <;> simp
    rw [hh]
    simp [hv]

theorem evict_sameKeys (s : BufMgr) (i : FrameId) :
    (s.evict.bufDescTable i).valid = (s.bufDescTable i).valid ∧
    (s.evict.bufDescTable i).file = (s.bufDescTable i).file ∧
    (s.evict.bufDescTable i).pageNo = (s.bufDescTable i).pageNo := by
  rw [evict_bufDescTable]
  split
  · rename_i h; subst h; exact ⟨rfl, rfl, rfl⟩
  · exact ⟨rfl, rfl, rfl⟩

theorem evict_hashSound (s : BufMgr) (hs : HashSound s.hashTable s.bufDescTable) :
    HashSound s.evict.hashTable s.evict.bufDescTable := by
  intro k f hkf
  rw [evict_hashTable] at hkf
  split at hkf
  · cases hkf
  · obtain ⟨hv, hf, hp⟩ := evict_sameKeys s f
    rw [hv, hf, hp]
    exact hs k f hkf

theorem evict_noEntry (s : BufMgr) (hs : HashSound s.hashTable s.bufDescTable)
    (k : FilePtr × PageId) : s.evict.hashTable k ≠ some s.clockHand := by
  intro hkf
  rw [evict_hashTable] at hkf
  split at hkf
  · cases hkf
  · rename_i hn
    have := hs k _ hkf
    exact hn ⟨this.1, this.2.symm⟩

theorem evict_descOK (s : BufMgr) (hs : ∀ i, DescOK (s.bufDescTable i)) (i : FrameId) :
    DescOK (s.evict.bufDescTable i) := by
  rw [evict_bufDescTable]
  split
  · have h := hs s.clockHand
    exact ⟨fun hv => ⟨(h.1 hv).1, rfl⟩, fun hd => by cases hd⟩
  · exact hs i

theorem evict_indexedExcept (s : BufMgr)
    (hs : IndexedExcept none s.hashTable s.bufDescTable) :
    IndexedExcept (some s.clockHand) s.evict.hashTable s.evict.bufDescTable := by
  intro i hi hval
  obtain ⟨hv, hf, hp⟩ := evict_sameKeys s i
  rw [hv] at hval
  rw [hf, hp, evict_hashTable]
  have hi' : i ≠ s.clockHand := fun h => hi (by rw [h])
  have hidx := hs i (by simp) hval
  split
  · rename_i hc
    have hhand := hs s.clockHand (by simp) hc.1
    rw [← hc.2, hidx] at hhand
    injection hhand with hhand
    exact absurd hhand hi'
  · exact hidx

theorem allocBuf_weak (s : BufMgr) (hw : Weak s) :
    Weak s.allocBuf.2 ∧ ∀ f, s.allocBuf.1 = .ok f → ∀ k, s.allocBuf.2.hashTable k ≠ some f := by
  unfold allocBuf
  rcases allocBufLoop_spec (2 * s.numBufs + 1) 0 s with h | h | ⟨t, h1, _, h3, h4⟩
  · exact ⟨⟨h.2.hashSound hw.1, h.2.descOK hw.2⟩, fun f hf => by rw [h.1] at hf; cases hf⟩
  · exact ⟨⟨h.2.hashSound hw.1, h.2.descOK hw.2⟩, fun f hf => by rw [h.1] at hf; cases hf⟩
  · have ht : Weak t := ⟨h1.hashSound hw.1, h1.descOK hw.2⟩
    rcases h4 with ⟨hv, he⟩ | ⟨_, _, _, he⟩
    · rw [he]
      refine ⟨ht, fun f hf k hk => ?_⟩
      rw [h3] at hf
      injection hf with hf
      subst hf
      have := (ht.1 k _ hk).1
      rw [hv] at this
      cases this
    · rw [he]
      refine ⟨⟨evict_hashSound t ht.1, evict_descOK t ht.2⟩, fun f hf k => ?_⟩
      rw [h3] at hf
      injection hf with hf
      subst hf
      exact evict_noEntry t ht.1 k

theorem allocBuf_indexed (s : BufMgr) (hi : IndexedExcept none s.hashTable s.bufDescTable) :
    (∀ e, s.allocBuf.1 = .error e →
      IndexedExcept none s.allocBuf.2.hashTable s.allocBuf.2.bufDescTable) ∧
    (∀ f, s.allocBuf.1 = .ok f →
      IndexedExcept (some f) s.allocBuf.2.hashTable s.allocBuf.2.bufDescTable) := by
  unfold allocBuf
  rcases allocBufLoop_spec (2 * s.numBufs + 1) 0 s with h | h | ⟨t, h1, _, h3, h4⟩
  · exact ⟨fun _ _ => h.2.indexedExcept hi, fun f hf => by rw [h.1] at hf; cases hf⟩
  · exact ⟨fun _ _ => h.2.indexedExcept hi, fun f hf => by rw [h.1] at hf; cases hf⟩
  · refine ⟨fun e he => (by rw [h3] at he; cases he), fun f hf => ?_⟩
    rw [h3] at hf
    injection hf with hf
    subst hf
    have ht : IndexedExcept none t.hashTable t.bufDescTable := h1.indexedExcept hi
    rcases h4 with ⟨_, he⟩ | ⟨_, _, _, he⟩
    · rw [he]; exact ht.weaken
    · rw [he]; exact evict_indexedExcept t ht

/-- Installing a page in frame `f` (`hashTable->insert` then `Set`) when no entry of the
index points to `f`. -/
theorem install_hashSound {h h' : BufHashTbl} {tbl : FrameId → BufDesc} {file : FilePtr}
    {pageNo : PageId} {f : FrameId} (hs : HashSound h tbl) (hno : ∀ k, h k ≠ some f)
    (hins : h.insert file pageNo f = .ok h') :
    HashSound h' (fun j => if j = f then (tbl f).Set file pageNo else tbl j) := by
  obtain ⟨_, rfl⟩ := insert_ok hins
  intro k g hkg
  simp only at hkg
  split at hkg
  · rename_i hk
    injection hkg with hkg
    subst hkg
    subst hk
    simp [BufDesc.Set]
  · have hg : g ≠ f := fun hgf => hno k (hgf ▸ hkg)
    simp only [if_neg hg]
    exact hs k g hkg

theorem install_indexed {h h' : BufHashTbl} {tbl : FrameId → BufDesc} {file : FilePtr}
    {pageNo : PageId} {f : FrameId} (hi : IndexedExcept (some f) h tbl)
    (hins : h.insert file pageNo f = .ok h') :
    IndexedExcept none h' (fun j => if j = f then (tbl f).Set file pageNo else tbl j) := by
  obtain ⟨hnone, rfl⟩ := insert_ok hins
  intro i _ hval
  by_cases hif : i = f
  · subst hif
    simp [BufDesc.Set]
  · simp only [if_neg hif] at hval ⊢
    have hidx := hi i (by simpa using hif) hval
    split
    · rename_i hk
      rw [hk, hnone] at hidx
      cases hidx
    · exact hidx

theorem install_descOK {tbl : FrameId → BufDesc} {file : FilePtr} {pageNo : PageId}
    {f : FrameId} (hall : ∀ i, DescOK (tbl i)) (i : FrameId) :
    DescOK ((fun j => if j = f then (tbl f).Set file pageNo else tbl j) i) := by
  simp only
  split
  · exact descOK_of_valid _ rfl
  · exact hall i

theorem readPage_weak (s : BufMgr) (file : FileId) (pageNo : PageId) (hw : Weak s) :
    Weak (s.readPage file pageNo).2 := by
  unfold readPage
  cases hl : s.hashTable.lookup (some file) pageNo with
  | some f =>
    simp only []
    have hv := (hw.1 _ f hl).1
    exact ⟨hw.1.of_sameKeys (sameKeys_setDesc s f _ (by rfl) (by rfl) (by rfl)),
      descOK_setDesc s f _ hw.2 (descOK_of_valid _ hv)⟩
  | none =>
    simp only []
    have ha := allocBuf_weak s hw
    split
    · rename_i e s1 heq
      rw [heq] at ha
      exact ha.1
    · rename_i f s1 heq
      rw [heq] at ha
      split
      · exact ha.1
      · rename_i h' hins
        exact ⟨install_hashSound ha.1.1 (ha.2 f rfl) hins, install_descOK ha.1.2⟩

theorem allocPage_weak (s : BufMgr) (file : FileId) (hw : Weak s) :
    Weak (s.allocPage file).2 := by
  unfold allocPage
  simp only []
  have hw' : Weak (s.fileAllocatePage file).2 := hw
  have ha := allocBuf_weak _ hw'
  split
  · rename_i e s1 heq
    rw [heq] at ha
    exact ha.1
  · rename_i f s1 heq
    rw [heq] at ha
    split
    · exact ha.1
    · rename_i h' hins
      exact ⟨install_hashSound ha.1.1 (ha.2 f rfl) hins, install_descOK ha.1.2⟩

theorem remove_ok {h h' : BufHashTbl} {file : FilePtr} {pageNo : PageId}
    (hrem : h.remove file pageNo = .ok h') :
    h' = fun k => if k = (file, pageNo) then none else h k := by
  unfold BufHashTbl.remove at hrem
  split at hrem
  · cases hrem
  · injection hrem with hrem
    exact hrem.symm

theorem remove_error {h : BufHashTbl} {file : FilePtr} {pageNo : PageId} {e : Exn}
    (hrem : h.remove file pageNo = .error e) : e = .HashNotFound := by
  unfold BufHashTbl.remove at hrem
  split at hrem
  · injection hrem with hrem
    exact hrem.symm
  · cases hrem

/-- Dropping the index entry under the key of frame `f` and clearing the descriptor of `f`
(`hashTable->remove` then `Clear`). -/
theorem clear_hashSound {h : BufHashTbl} {tbl : FrameId → BufDesc} {f : FrameId}
    (hs : HashSound h tbl) :
    HashSound (fun k => if k = ((tbl f).file, (tbl f).pageNo) then none else h k)
      (fun j => if j = f then (tbl f).Clear else tbl j) := by
  intro k g hkg
  simp only at hkg
  split at hkg
  · cases hkg
  · rename_i hne
    have hg := hs k g hkg
    have hgf : g ≠ f := fun e => hne (by rw [← hg.2, e])
    simp only [if_neg hgf]
    exact hg

theorem clear_indexed {h : BufHashTbl} {tbl : FrameId → BufDesc} {f : FrameId}
    (hi : IndexedExcept none h tbl) (hv : (tbl f).valid = true) :
    IndexedExcept none (fun k => if k = ((tbl f).file, (tbl f).pageNo) then none else h k)
      (fun j => if j = f then (tbl f).Clear else tbl j) := by
  intro i _ hval
  by_cases hif : i = f
  · subst hif
    simp [BufDesc.Clear] at hval
  · simp only [if_neg hif] at hval ⊢
    have hidx := hi i (by simp) hval
    split
    · rename_i hk
      have hf := hi f (by simp) hv
      rw [← hk, hidx] at hf
      injection hf with hf
      exact absurd hf hif
    · exact hidx

theorem clear_descOK {tbl : FrameId → BufDesc} {f : FrameId} (hall : ∀ i, DescOK (tbl i))
    (i : FrameId) : DescOK ((fun j => if j = f then (tbl f).Clear else tbl j) i) := by
  simp only
  split
  · exact ⟨fun _ => ⟨rfl, rfl⟩, fun hd => by simp [BufDesc.Clear] at hd⟩
  · exact hall i

theorem unPinPage_miss (s : BufMgr) (file : FileId) (pageNo : PageId) (dirty : Bool)
    (hl : s.hashTable.lookup (some file) pageNo = none) :
    s.unPinPage file pageNo dirty = (.ok (), s) := by
  unfold unPinPage
  rw [hl]

theorem unPinPage_unpinned (s : BufMgr) (file : FileId) (pageNo : PageId) (dirty : Bool)
    (f : FrameId) (hl : s.hashTable.lookup (some file) pageNo = some f)
    (hp : ¬ 0 < (s.bufDescTable f).pinCnt) :
    s.unPinPage file pageNo dirty = (.error .PageNotPinned, s) := by
  unfold unPinPage
  rw [hl]
  simp only []
  rw [if_neg hp]

theorem unPinPage_pinned (s : BufMgr) (file : FileId) (pageNo : PageId) (dirty : Bool)
    (f : FrameId) (hl : s.hashTable.lookup (some file) pageNo = some f)
    (hp : 0 < (s.bufDescTable f).pinCnt) :
    s.unPinPage file pageNo dirty =
      (.ok (), s.setDesc f
        { file := (s.bufDescTable f).file, pageNo := (s.bufDescTable f).pageNo,
          frameNo := (s.bufDescTable f).frameNo,
          pinCnt := (s.bufDescTable f).pinCnt - 1,
          dirty := ((s.bufDescTable f).dirty || dirty),
          valid := (s.bufDescTable f).valid, refbit := (s.bufDescTable f).refbit }) := by
  unfold unPinPage
  rw [hl]
  simp only []
  rw [if_pos hp]
  cases dirty
  · simp only [Bool.false_eq_true, if_false, Bool.or_false]
  · simp only [if_true, Bool.or_true, setDesc]
    congr 2
    funext j
    by_cases hj : j = f <;> simp [hj]

theorem unPinPage_tables (s : BufMgr) (file : FileId) (pageNo : PageId) (dirty : Bool) :
    (s.unPinPage file pageNo dirty).2.hashTable = s.hashTable ∧
    ∀ i, ((s.unPinPage file pageNo dirty).2.bufDescTable i).valid = (s.bufDescTable i).valid ∧
      ((s.unPinPage file pageNo dirty).2.bufDescTable i).file = (s.bufDescTable i).file ∧
      ((s.unPinPage file pageNo dirty).2.bufDescTable i).pageNo = (s.bufDescTable i).pageNo := by
  cases hl : s.hashTable.lookup (some file) pageNo with
  | none =>
    rw [unPinPage_miss s file pageNo dirty hl]
    exact ⟨rfl, fun i => ⟨rfl, rfl, rfl⟩⟩
  | some f =>
    by_cases hp : 0 < (s.bufDescTable f).pinCnt
    · rw [unPinPage_pinned s file pageNo dirty f hl hp]
      exact ⟨rfl, fun i => sameKeys_setDesc s f _ (by rfl) (by rfl) (by rfl) i⟩
    · rw [unPinPage_unpinned s file pageNo dirty f hl hp]
      exact ⟨rfl, fun i => ⟨rfl, rfl, rfl⟩⟩

theorem unPinPage_weak (s : BufMgr) (file : FileId) (pageNo : PageId) (dirty : Bool)
    (hw : Weak s) : Weak (s.unPinPage file pageNo dirty).2 := by
  cases hl : s.hashTable.lookup (some file) pageNo with
  | none =>
    rw [unPinPage_miss s file pageNo dirty hl]
    exact hw
  | some f =>
    by_cases hp : 0 < (s.bufDescTable f).pinCnt
    · rw [unPinPage_pinned s file pageNo dirty f hl hp]
      exact ⟨hw.1.of_sameKeys (sameKeys_setDesc s f _ (by rfl) (by rfl) (by rfl)),
        descOK_setDesc s f _ hw.2 (descOK_of_valid _ (hw.1 _ f hl).1)⟩
    · rw [unPinPage_unpinned s file pageNo dirty f hl hp]
      exact hw

theorem unPinPage_indexed (s : BufMgr) (file : FileId) (pageNo : PageId) (dirty : Bool)
    (hi : IndexedExcept none s.hashTable s.bufDescTable) :
    IndexedExcept none (s.unPinPage file pageNo dirty).2.hashTable
      (s.unPinPage file pageNo dirty).2.bufDescTable := by
  obtain ⟨hh, hk⟩ := unPinPage_tables s file pageNo dirty
  rw [hh]
  exact hi.transfer hk

theorem disposePage_weak (s : BufMgr) (file : FileId) (pageNo : PageId) (hw : Weak s) :
    Weak (s.disposePage file pageNo).2 := by
  unfold disposePage
  simp only []
  cases hl : s.hashTable.lookup (some file) pageNo with
  | none => exact hw
  | some f =>
    simp only []
    split
    · exact hw
    · rename_i h' hrem
      have hkey := (hw.1 _ f hl).2
      rw [remove_ok hrem, ← hkey]
      exact ⟨clear_hashSound hw.1, clear_descOK hw.2⟩

theorem disposePage_indexed (s : BufMgr) (file : FileId) (pageNo : PageId) (hw : Weak s)
    (hi : IndexedExcept none s.hashTable s.bufDescTable) :
    IndexedExcept none (s.disposePage file pageNo).2.hashTable
      (s.disposePage file pageNo).2.bufDescTable := by
  unfold disposePage
  simp only []
  cases hl : s.hashTable.lookup (some file) pageNo with
  | none => exact hi
  | some f =>
    simp only []
    split
    · exact hi
    · rename_i h' hrem
      have hf := hw.1 _ f hl
      rw [remove_ok hrem, ← hf.2]
      exact clear_indexed hi hf.1

/-- State of `flushFile` after the write-back of frame `i` (source lines 180-184). -/
theorem flushWrite_tables (s : BufMgr) (i : FrameId) :
    (if (s.bufDescTable i).dirty = true then
      (s.fileWritePage (s.bufDescTable i).file (s.bufPool i)).setDesc i
        { s.bufDescTable i with dirty := false }
      else s).hashTable = s.hashTable ∧
    (if (s.bufDescTable i).dirty = true then
      (s.fileWritePage (s.bufDescTable i).file (s.bufPool i)).setDesc i
        { s.bufDescTable i with dirty := false }
      else s).bufDescTable =
      fun j => if j = i then { s.bufDescTable i with dirty := false } else s.bufDescTable j := by
  by_cases hd : (s.bufDescTable i).dirty = true
  · rw [if_pos hd]
    refine ⟨by simp, ?_⟩
    funext j
    simp [setDesc_bufDescTable]
  · rw [if_neg hd]
    refine ⟨rfl, ?_⟩
    funext j
    split
    · rename_i hj
      subst hj
      exact (clean_eq_self _ (by simpa using hd)).symm
    · rfl

theorem flushFileLoop_weak (file : FilePtr) (n : Nat) (i : FrameId) (s : BufMgr) (hw : Weak s) :
    Weak (flushFileLoop file n i s).2 := by
  induction n generalizing i s with
  | zero => exact hw
  | succ n ih =>
    simp only [flushFileLoop]
    split
    · rename_i hfile
      split
      · exact hw
      · rename_i hv
        split
        · exact hw
        · obtain ⟨hh, ht⟩ := flushWrite_tables s i
          have hval : (s.bufDescTable i).valid = true := by simpa using hv
          have hw1 : Weak (if (s.bufDescTable i).dirty = true then
              (s.fileWritePage (s.bufDescTable i).file (s.bufPool i)).setDesc i
                { s.bufDescTable i with dirty := false }
              else s) := by
            unfold Weak
            rw [hh, ht]
            refine ⟨hw.1.of_sameKeys fun j => ?_, fun j => ?_⟩
            · simp only; split
              · rename_i hj; subst hj; exact ⟨rfl, rfl, rfl⟩
              · exact ⟨rfl, rfl, rfl⟩
            · simp only; split
              · exact descOK_of_valid _ hval
              · exact hw.2 j
          split
          · exact hw1
          · rename_i h' hrem
            apply ih
            rw [remove_ok hrem]
            have hkey : file = ((if (s.bufDescTable i).dirty = true then
              (s.fileWritePage (s.bufDescTable i).file (s.bufPool i)).setDesc i
                { s.bufDescTable i with dirty := false }
              else s).bufDescTable i).file := by
              rw [ht]; simp [hfile]
            exact ⟨by
              have := clear_hashSound (f := i) hw1.1
              rw [← hkey] at this
              exact this, clear_descOK hw1.2⟩
    · exact ih _ _ hw

theorem flushFileLoop_indexed (file : FilePtr) (n : Nat) (i : FrameId) (s : BufMgr)
    (hi : IndexedExcept none s.hashTable s.bufDescTable)
    (hout : managerOutcome (thrown (flushFileLoop file n i s)) = true) :
    IndexedExcept none (flushFileLoop file n i s).2.hashTable
      (flushFileLoop file n i s).2.bufDescTable := by
  induction n generalizing i s with
  | zero => exact hi
  | succ n ih =>
    simp only [flushFileLoop] at hout ⊢
    split
    · rename_i hfile
      rw [if_pos hfile] at hout
      split
      · exact hi
      · rename_i hv
        rw [if_neg hv] at hout
        split
        · exact hi
        · rename_i hp
          rw [if_neg hp] at hout
          obtain ⟨hh, ht⟩ := flushWrite_tables s i
          have hval : (s.bufDescTable i).valid = true := by simpa using hv
          have hi1 : IndexedExcept none (if (s.bufDescTable i).dirty = true then
              (s.fileWritePage (s.bufDescTable i).file (s.bufPool i)).setDesc i
                { s.bufDescTable i with dirty := false }
              else s).hashTable (if (s.bufDescTable i).dirty = true then
              (s.fileWritePage (s.bufDescTable i).file (s.bufPool i)).setDesc i
                { s.bufDescTable i with dirty := false }
              else s).bufDescTable := by
            rw [hh, ht]
            refine hi.transfer fun j => ?_
            simp only; split
            · rename_i hj; subst hj; exact ⟨rfl, rfl, rfl⟩
            · exact ⟨rfl, rfl, rfl⟩
          split
          · rename_i e hrem
            rw [hrem] at hout
            rw [remove_error hrem] at hout
            simp [thrown, managerOutcome] at hout
          · rename_i h' hrem
            rw [hrem] at hout
            apply ih _ _ _ hout
            rw [remove_ok hrem]
            have hkey : file = ((if (s.bufDescTable i).dirty = true then
              (s.fileWritePage (s.bufDescTable i).file (s.bufPool i)).setDesc i
                { s.bufDescTable i with dirty := false }
              else s).bufDescTable i).file := by
              rw [ht]; simp [hfile]
            have hval1 : ((if (s.bufDescTable i).dirty = true then
              (s.fileWritePage (s.bufDescTable i).file (s.bufPool i)).setDesc i
                { s.bufDescTable i with dirty := false }
              else s).bufDescTable i).valid = true := by
              rw [ht]; simp [hval]
            have := clear_indexed (f := i) hi1 hval1
            rw [← hkey] at this
            exact this
    · rename_i hfile
      rw [if_neg hfile] at hout
      exact ih _ _ hi hout

theorem readPage_indexed (s : BufMgr) (file : FileId) (pageNo : PageId)
    (hi : IndexedExcept none s.hashTable s.bufDescTable)
    (hout : managerOutcome (thrown (s.readPage file pageNo)) = true) :
    IndexedExcept none (s.readPage file pageNo).2.hashTable
      (s.readPage file pageNo).2.bufDescTable := by
  unfold readPage at hout ⊢
  cases hl : s.hashTable.lookup (some file) pageNo with
  | some f =>
    simp only []
    exact hi.transfer (sameKeys_setDesc s f _ (by rfl) (by rfl) (by rfl))
  | none =>
    rw [hl] at hout
    simp only [] at hout ⊢
    have ha := allocBuf_indexed s hi
    split
    · rename_i e s1 heq
      rw [heq] at ha
      exact ha.1 e rfl
    · rename_i f s1 heq
      rw [heq] at ha hout
      simp only [] at hout
      split
      · rename_i e hins
        rw [hins] at hout
        rw [(insert_error hins).1] at hout
        simp [thrown, managerOutcome] at hout
      · rename_i h' hins
        exact install_indexed (ha.2 f rfl) hins

theorem allocPage_indexed (s : BufMgr) (file : FileId)
    (hi : IndexedExcept none s.hashTable s.bufDescTable)
    (hout : managerOutcome (thrown (s.allocPage file)) = true) :
    IndexedExcept none (s.allocPage file).2.hashTable (s.allocPage file).2.bufDescTable := by
  unfold allocPage at hout ⊢
  simp only [] at hout ⊢
  have hi' : IndexedExcept none (s.fileAllocatePage file).2.hashTable
      (s.fileAllocatePage file).2.bufDescTable := hi
  have ha := allocBuf_indexed _ hi'
  split
  · rename_i e s1 heq
    rw [heq] at ha
    exact ha.1 e rfl
  · rename_i f s1 heq
    rw [heq] at ha hout
    simp only [] at hout
    split
    · rename_i e hins
      rw [hins] at hout
      rw [(insert_error hins).1] at hout
      simp [thrown, managerOutcome] at hout
    · rename_i h' hins
      exact install_indexed (ha.2 f rfl) hins

theorem perform_weak (s : BufMgr) (c : Call) (hw : Weak s) : Weak (s.perform c).2 := by
  cases c with
  | readPage file pageNo => exact readPage_weak s file pageNo hw
  | unPinPage file pageNo dirty => exact unPinPage_weak s file pageNo dirty hw
  | allocPage file => exact allocPage_weak s file hw
  | disposePage file pageNo => exact disposePage_weak s file pageNo hw
  | flushFile file => exact flushFileLoop_weak file s.numBufs 0 s hw

theorem perform_indexed (s : BufMgr) (c : Call) (hw : Weak s)
    (hi : IndexedExcept none s.hashTable s.bufDescTable)
    (hout : managerOutcome (s.perform c).1 = true) :
    IndexedExcept none (s.perform c).2.hashTable (s.perform c).2.bufDescTable := by
  cases c with
  | readPage file pageNo => exact readPage_indexed s file pageNo hi hout
  | unPinPage file pageNo dirty => exact unPinPage_indexed s file pageNo dirty hi
  | allocPage file => exact allocPage_indexed s file hi hout
  | disposePage file pageNo => exact disposePage_indexed s file pageNo hw hi
  | flushFile file => exact flushFileLoop_indexed file s.numBufs 0 s hi hout

theorem construct_weak (bufs : Nat) (disk : FileId → File) : Weak (construct bufs disk) :=
  ⟨fun _ _ h => (by cases h), fun _ => ⟨fun _ => ⟨rfl, rfl⟩, fun h => (by cases h)⟩⟩

theorem construct_indexed (bufs : Nat) (disk : FileId → File) :
    IndexedExcept none (construct bufs disk).hashTable (construct bufs disk).bufDescTable :=
  fun _ _ h => by cases h

theorem reachable_weak {allowed : Option Exn → Bool} {s : BufMgr}
    (h : ReachableVia allowed s) : Weak s := by
  induction h with
  | construct bufs disk _ => exact construct_weak bufs disk
  | call s c _ _ ih => exact perform_weak s c ih

theorem reachable_indexed {s : BufMgr} (h : ReachableVia managerOutcome s) :
    IndexedExcept none s.hashTable s.bufDescTable := by
  induction h with
  | construct bufs disk _ => exact construct_indexed bufs disk
  | call s c hs hc ih => exact perform_indexed s c (reachable_weak hs) ih hc

/-! ## Write-back and the content of the pool -/

theorem File.readPage_writePage_same (fl : File) (pg : Page) :
    (fl.writePage pg).readPage pg.page_number = pg := by
  simp [File.readPage, File.writePage, List.lookup]

theorem File.readPage_writePage_other (fl : File) (pg : Page) (p : PageId)
    (hne : pg.page_number ≠ p) : (fl.writePage pg).readPage p = fl.readPage p := by
  have hb : (p == pg.page_number) = false := by
    simp only [beq_eq_false_iff_ne]
    exact fun e => hne e.symm
  simp [File.readPage, File.writePage, List.lookup, hb]

theorem evict_trace_disk_dirty (s : BufMgr) (fid : FileId)
    (hd : (s.bufDescTable s.clockHand).dirty = true)
    (hf : (s.bufDescTable s.clockHand).file = some fid) :
    s.evict.trace = s.trace ++ [FileCall.writePage fid (s.bufPool s.clockHand)] ∧
    s.evict.disk =
      fun g => if g = fid then (s.disk g).writePage (s.bufPool s.clockHand) else s.disk g := by
  unfold evict
  simp only []
  rw [if_pos hd, hf]
  split <;> simp [fileWritePage]

theorem evict_readPage_other (s : BufMgr) (fid : FileId) (p : PageId)
    (h : (s.bufDescTable s.clockHand).file = some fid →
      (s.bufPool s.clockHand).page_number ≠ p) :
    (s.evict.disk fid).readPage p = (s.disk fid).readPage p := by
  unfold evict
  simp only []
  have key : ((if (s.bufDescTable s.clockHand).dirty = true then
      (s.setDesc s.clockHand { s.bufDescTable s.clockHand with dirty := false }).fileWritePage
        (s.bufDescTable s.clockHand).file (s.bufPool s.clockHand)
      else s).disk fid).readPage p = (s.disk fid).readPage p := by
    split
    · cases hfile : (s.bufDescTable s.clockHand).file with
      | none => rfl
      | some g =>
        simp only [fileWritePage, setDesc_disk]
        split
        · rename_i hg
          subst hg
          exact File.readPage_writePage_other _ _ _ (h hfile)
        · rfl
    · rfl
  split
  · rw [removeQuiet_disk]; exact key
  · exact key

theorem SweptFrom.poolNumbered {s t : BufMgr} (h : SweptFrom s t) (hs : PoolNumbered s) :
    PoolNumbered t := by
  intro i hv
  rw [h.2.1, (h.desc_eq i).2.1]
  exact hs i ((h.desc_eq i).2.2.2.2.2 ▸ hv)

theorem evict_poolNumbered (s : BufMgr) (hs : PoolNumbered s) : PoolNumbered s.evict := by
  intro i hv
  obtain ⟨h1, _, h3⟩ := evict_sameKeys s i
  rw [evict_bufPool, h3]
  exact hs i (h1 ▸ hv)

theorem allocBuf_poolNumbered (s : BufMgr) (hs : PoolNumbered s) :
    PoolNumbered s.allocBuf.2 := by
  unfold allocBuf
  rcases allocBufLoop_spec (2 * s.numBufs + 1) 0 s with h | h | ⟨t, h1, _, _, h4⟩
  · exact h.2.poolNumbered hs
  · exact h.2.poolNumbered hs
  · rcases h4 with ⟨_, he⟩ | ⟨_, _, _, he⟩
    · rw [he]; exact h1.poolNumbered hs
    · rw [he]; exact evict_poolNumbered t (h1.poolNumbered hs)

/-- The write-back of `allocBuf` leaves the stored content of a page that is not resident
as it was. -/
theorem allocBuf_disk_readPage (s : BufMgr) (fid : FileId) (p : PageId)
    (hi : IndexedExcept none s.hashTable s.bufDescTable) (hpool : PoolNumbered s)
    (hmiss : s.hashTable (some fid, p) = none) :
    (s.allocBuf.2.disk fid).readPage p = (s.disk fid).readPage p := by
  unfold allocBuf
  rcases allocBufLoop_spec (2 * s.numBufs + 1) 0 s with h | h | ⟨t, h1, _, _, h4⟩
  · rw [h.2.2.2.2.1]
  · rw [h.2.2.2.2.1]
  · rcases h4 with ⟨_, he⟩ | ⟨hv, _, _, he⟩
    · rw [he, h1.2.2.2.1]
    · rw [he, evict_readPage_other t fid p, h1.2.2.2.1]
      intro hfile hnum
      have hidx := (h1.indexedExcept hi) t.clockHand (by simp) hv
      rw [hfile, ← (h1.poolNumbered hpool) t.clockHand hv, hnum, h1.2.2.1, hmiss] at hidx
      cases hidx

theorem insert_of_none {h : BufHashTbl} {file : FilePtr} {pageNo : PageId} (f : FrameId)
    (hnone : h (file, pageNo) = none) :
    h.insert file pageNo f = .ok (fun k => if k = (file, pageNo) then some f else h k) := by
  unfold BufHashTbl.insert
  rw [hnone]

/-- On a miss, a `readPage` that returns hands out what the file stores for the page. -/
theorem readPage_miss_content (s : BufMgr) (file : FileId) (p : PageId) (g : FrameId)
    (hi : IndexedExcept none s.hashTable s.bufDescTable) (hpool : PoolNumbered s)
    (hmiss : s.hashTable.lookup (some file) p = none)
    (hret : (s.readPage file p).1 = .ok g) :
    (s.readPage file p).2.bufPool g = (s.disk file).readPage p := by
  have hdisk := allocBuf_disk_readPage s file p hi hpool hmiss
  revert hret
  unfold readPage
  rw [hmiss]
  simp only []
  split
  · intro h; cases h
  · rename_i f s1 heq
    rw [heq] at hdisk
    split
    · intro h; cases h
    · intro h
      injection h with h
      subst h
      simp only [setDesc_bufPool, setPool, fileReadPage, if_true]
      exact hdisk

theorem readPage_poolNumbered (s : BufMgr) (file : FileId) (pageNo : PageId)
    (hpool : PoolNumbered s)
    (hout : managerOutcome (thrown (s.readPage file pageNo)) = true) :
    PoolNumbered (s.readPage file pageNo).2 := by
  unfold readPage at hout ⊢
  cases hl : s.hashTable.lookup (some file) pageNo with
  | some f =>
    simp only []
    intro i hv
    obtain ⟨h1, _, h3⟩ := sameKeys_setDesc s f
      { s.bufDescTable f with refbit := true, pinCnt := (s.bufDescTable f).pinCnt + 1 }
      (by rfl) (by rfl) (by rfl) i
    rw [h3]
    exact hpool i (h1 ▸ hv)
  | none =>
    rw [hl] at hout
    simp only [] at hout ⊢
    have ha := allocBuf_poolNumbered s hpool
    split
    · rename_i e s1 heq
      rw [heq] at ha
      exact ha
    · rename_i f s1 heq
      rw [heq] at ha hout
      simp only [] at hout
      split
      · rename_i e hins
        rw [hins] at hout
        rw [(insert_error hins).1] at hout
        simp [thrown, managerOutcome] at hout
      · rename_i h' hins
        intro i hv
        simp only [setDesc_bufPool, setPool, fileReadPage, setDesc_bufDescTable] at hv ⊢
        by_cases hif : i = f
        · simp [hif, BufDesc.Set, File.readPage]
        · simp only [if_neg hif] at hv ⊢
          exact ha i hv

/-- A `readPage` miss for which `allocBuf` hands out frame `f`. -/
theorem readPage_miss_ok (s a : BufMgr) (file : FileId) (pageNo : PageId) (f : FrameId)
    (hmiss : s.hashTable.lookup (some file) pageNo = none)
    (halloc : s.allocBuf = (.ok f, a))
    (hfree : a.hashTable (some file, pageNo) = none) :
    s.readPage file pageNo =
      (.ok f,
        ({ (a.fileReadPage file pageNo).2.setPool f (a.fileReadPage file pageNo).1 with
            hashTable := fun k => if k = (some file, pageNo) then some f else a.hashTable k
          }).setDesc f ((a.bufDescTable f).Set (some file) pageNo)) := by
  unfold readPage
  rw [hmiss]
  simp only []
  rw [halloc]
  simp only []
  have hins : ((a.fileReadPage file pageNo).2.setPool f
      (a.fileReadPage file pageNo).1).hashTable.insert (some file) pageNo f =
      .ok (fun k => if k = (some file, pageNo) then some f else a.hashTable k) :=
    insert_of_none f hfree
  rw [hins]
  rfl

/-- When `allocBuf` returns a frame that is valid and dirty, it has written the page of
that frame to the file of its descriptor, cleared `dirty`, left the pool alone and dropped
the index entry of the frame. -/
theorem allocBuf_victim_dirty (t : BufMgr) (f : FrameId) (fid : FileId)
    (hv : (t.bufDescTable f).valid = true) (hd : (t.bufDescTable f).dirty = true)
    (hf : (t.bufDescTable f).file = some fid) (hret : t.allocBuf.1 = .ok f) :
    t.allocBuf.2.trace = t.trace ++ [FileCall.writePage fid (t.bufPool f)] ∧
    t.allocBuf.2.disk =
      (fun g => if g = fid then (t.disk g).writePage (t.bufPool f) else t.disk g) ∧
    (t.allocBuf.2.bufDescTable f).dirty = false ∧
    t.allocBuf.2.bufPool = t.bufPool ∧
    ∀ k, t.allocBuf.2.hashTable k =
      if k = (some fid, (t.bufDescTable f).pageNo) then none else t.hashTable k := by
  unfold allocBuf at hret ⊢
  rcases allocBufLoop_spec (2 * t.numBufs + 1) 0 t with h | h | ⟨t1, h1, _, h3, h4⟩
  · rw [h.1] at hret; cases hret
  · rw [h.1] at hret; cases hret
  · rw [h3] at hret
    injection hret with hret
    obtain ⟨e1, e2, _, _, e5, e6⟩ := h1.desc_eq f
    rcases h4 with ⟨hinv, _⟩ | ⟨hval, _, _, he⟩
    · rw [hret, e6, hv] at hinv; cases hinv
    · rw [he]
      have hd1 : (t1.bufDescTable t1.clockHand).dirty = true := by rw [hret, e5]; exact hd
      have hf1 : (t1.bufDescTable t1.clockHand).file = some fid := by rw [hret, e1]; exact hf
      obtain ⟨htr, hdk⟩ := evict_trace_disk_dirty t1 fid hd1 hf1
      refine ⟨?_, ?_, ?_, ?_, fun k => ?_⟩
      · rw [htr, hret, h1.2.1, h1.2.2.2.2.1]
      · rw [hdk, hret, h1.2.1, h1.2.2.2.1]
      · rw [evict_bufDescTable, hret, if_pos rfl]
      · rw [evict_bufPool, h1.2.1]
      · rw [evict_hashTable, hf1, hret, e2, h1.2.2.1]
        simp [hret ▸ hval]

theorem unPinPage_bufPool (s : BufMgr) (file : FileId) (pageNo : PageId) (dirty : Bool) :
    (s.unPinPage file pageNo dirty).2.bufPool = s.bufPool := by
  cases hl : s.hashTable.lookup (some file) pageNo with
  | none => rw [unPinPage_miss s file pageNo dirty hl]
  | some f =>
    by_cases hp : 0 < (s.bufDescTable f).pinCnt
    · rw [unPinPage_pinned s file pageNo dirty f hl hp]; rfl
    · rw [unPinPage_unpinned s file pageNo dirty f hl hp]

theorem unPinPage_poolNumbered (s : BufMgr) (file : FileId) (pageNo : PageId) (dirty : Bool)
    (hpool : PoolNumbered s) : PoolNumbered (s.unPinPage file pageNo dirty).2 := by
  intro i hv
  obtain ⟨h1, _, h3⟩ := (unPinPage_tables s file pageNo dirty).2 i
  rw [unPinPage_bufPool, h3]
  exact hpool i (h1 ▸ hv)

theorem construct_poolNumbered (bufs : Nat) (disk : FileId → File) :
    PoolNumbered (construct bufs disk) :=
  fun _ h => by cases h

theorem setPool_weak (s : BufMgr) (i : FrameId) (pg : Page) (h : Weak s) :
    Weak (s.setPool i pg) := h

theorem setPool_indexed (s : BufMgr) (i : FrameId) (pg : Page)
    (h : IndexedExcept none s.hashTable s.bufDescTable) :
    IndexedExcept none (s.setPool i pg).hashTable (s.setPool i pg).bufDescTable := h

/-- The holder of the page in frame `i` overwrites it with a page of the same number. -/
theorem setPool_poolNumbered (s : BufMgr) (i : FrameId) (pg : Page) (hpool : PoolNumbered s)
    (hnum : pg.page_number = (s.bufDescTable i).pageNo) : PoolNumbered (s.setPool i pg) := by
  intro j hv
  by_cases hj : j = i
  · subst hj
    simpa [setPool] using hnum
  · simp only [setPool, if_neg hj]
    exact hpool j hv

/-! ## Exhaustion -/

/-- With every frame of the pool valid and pinned, `allocBuf` throws
`BufferExceededException` after a mere sweep. -/
theorem allocBuf_all_pinned (s : BufMgr) (hN : 1 ≤ s.numBufs)
    (hall : ∀ i, i < s.numBufs →
      (s.bufDescTable i).valid = true ∧ 0 < (s.bufDescTable i).pinCnt) :
    s.allocBuf.1 = .error .BufferExceeded ∧ SweptFrom s s.allocBuf.2 := by
  rcases allocBuf_spec s hN with h | ⟨t, h1, h2, _, h4⟩
  · exact h
  · exfalso
    have hd := h1.desc_eq t.clockHand
    have ha := hall _ h2
    rcases h4 with ⟨hv, _⟩ | ⟨_, _, hp, _⟩
    · rw [hd.2.2.2.2.2, ha.1] at hv; cases hv
    · rw [hd.2.2.2.1] at hp; omega

theorem disposePage_miss (s : BufMgr) (file : FileId) (pageNo : PageId)
    (hl : s.hashTable.lookup (some file) pageNo = none) :
    s.disposePage file pageNo = (.ok (), s.fileDeletePage file pageNo) := by
  unfold disposePage
  rw [hl]

theorem disposePage_hit (s : BufMgr) (file : FileId) (pageNo : PageId) (f : FrameId)
    (hl : s.hashTable.lookup (some file) pageNo = some f) :
    s.disposePage file pageNo =
      (.ok (),
        (({ s with hashTable := fun k => if k = (some file, pageNo) then none else s.hashTable k
          }).setDesc f (s.bufDescTable f).Clear).fileDeletePage file pageNo) := by
  have hsome : s.hashTable (some file, pageNo) = some f := hl
  have hrem : s.hashTable.remove (some file) pageNo =
      .ok (fun k => if k = (some file, pageNo) then none else s.hashTable k) := by
    unfold BufHashTbl.remove
    rw [hsome]
  unfold disposePage
  rw [hl]
  simp only []
  rw [hrem]

/-! ## The visits of the clock hand -/

theorem allocBufVisits_length (fuel num : Nat) (s : BufMgr) (hnum : num < s.numBufs) :
    (allocBufVisits fuel num s).length ≤ s.refCount + (s.numBufs - num) := by
  induction fuel generalizing num s with
  | zero => simp [allocBufVisits]
  | succ fuel ih =>
    simp only [allocBufVisits]
    split
    · simp only [List.length_singleton]; omega
    · split
      · rename_i hr
        have hlt := advanceClock_lt s (by omega)
        have hc := refCount_clear s.advanceClock s.advanceClock.clockHand hlt hr
        have he : s.advanceClock.refCount = s.refCount := rfl
        have := ih num (s.advanceClock.setDesc s.advanceClock.clockHand
          { s.advanceClock.bufDescTable s.advanceClock.clockHand with refbit := false }) hnum
        dsimp only at hc this
        simp only [List.length_cons, setDesc_numBufs, advanceClock_numBufs] at this ⊢
        omega
      · split
        · split
          · simp only [List.length_singleton]; omega
          · rename_i hne
            have he : s.advanceClock.refCount = s.refCount := rfl
            have hne' : num + 1 ≠ s.numBufs := hne
            have := ih (num + 1) s.advanceClock
              (by simp only [advanceClock_numBufs]; omega)
            simp only [List.length_cons, advanceClock_numBufs] at this ⊢
            omega
        · simp only [List.length_singleton]; omega

theorem allocBufVisits_lt (fuel num : Nat) (s : BufMgr) (hN : 1 ≤ s.numBufs) (g : FrameId)
    (hg : g ∈ allocBufVisits fuel num s) : g < s.numBufs := by
  induction fuel generalizing num s with
  | zero => simp [allocBufVisits] at hg
  | succ fuel ih =>
    have hlt := advanceClock_lt s hN
    simp only [allocBufVisits] at hg
    split at hg
    · rw [List.mem_singleton.mp hg]; exact hlt
    · split at hg
      · rcases List.mem_cons.mp hg with h | h
        · rw [h]; exact hlt
        · have hh := ih num _ (by exact hN) h
          exact hh
      · split at hg
        · split at hg
          · rw [List.mem_singleton.mp hg]; exact hlt
          · rcases List.mem_cons.mp hg with h | h
            · rw [h]; exact hlt
            · have hh := ih (num + 1) _ (by exact hN) h
              exact hh
        · rw [List.mem_singleton.mp hg]; exact hlt

theorem allocBufLoop_error (fuel num : Nat) (s : BufMgr) (e : Exn)
    (he : (allocBufLoop fuel num s).1 = .error e) : e = .BufferExceeded ∨ e = .Diverged := by
  rcases allocBufLoop_spec fuel num s with h | h | ⟨t, _, _, h3, _⟩
  · rw [h.1] at he; injection he with he; exact Or.inr he.symm
  · rw [h.1] at he; injection he with he; exact Or.inl he.symm
  · rw [h3] at he; cases he

theorem allocBufLoop_clockHand_lt (fuel num : Nat) (s : BufMgr) (hN : 1 ≤ s.numBufs)
    (hhand : s.clockHand < s.numBufs) : (allocBufLoop fuel num s).2.clockHand < s.numBufs := by
  induction fuel generalizing num s with
  | zero => exact hhand
  | succ fuel ih =>
    have hlt := advanceClock_lt s hN
    simp only [allocBufLoop]
    split
    · exact hlt
    · split
      · exact ih num _ hN hlt
      · split
        · split
          · exact hlt
          · exact ih (num + 1) _ hN hlt
        · rw [evict_clockHand]; exact hlt

/-- The loop of `allocBuf` never sets a reference bit. -/
theorem allocBufLoop_refbit_mono (fuel num : Nat) (s : BufMgr) (i : FrameId)
    (h : ((allocBufLoop fuel num s).2.bufDescTable i).refbit = true) :
    (s.bufDescTable i).refbit = true := by
  induction fuel generalizing num s with
  | zero => exact h
  | succ fuel ih =>
    simp only [allocBufLoop] at h
    split at h
    · exact h
    · split at h
      · have h2 := ih num _ h
        rw [setDesc_bufDescTable] at h2
        split at h2
        · cases h2
        · exact h2
      · split at h
        · split at h
          · exact h
          · have hh := ih (num + 1) _ h
            exact hh
        · rw [evict_bufDescTable] at h
          split at h
          · rename_i hi
            rw [hi]
            exact h
          · exact h

theorem getLast?_cons_of_getLast? {α : Type} (a b : α) (l : List α)
    (h : l.getLast? = some b) : (a :: l).getLast? = some b := by
  cases l with
  | nil => simp at h
  | cons c l => rw [List.getLast?_cons_cons]; exact h

theorem mem_dropLast_cons {α : Type} (a b x : α) (l : List α) (h : l.getLast? = some b)
    (hx : x ∈ (a :: l).dropLast) : x = a ∨ x ∈ l.dropLast := by
  cases l with
  | nil => simp at h
  | cons c l =>
    rw [List.dropLast_cons₂] at hx
    exact List.mem_cons.mp hx

/-- When the loop of `allocBuf` returns frame `f`, the hand landed on `f` last, and every
frame it landed on before was valid, referenced or pinned at the start, and has its
reference bit clear at the end. -/
theorem allocBufVisits_spec (fuel num : Nat) (s : BufMgr) (f : FrameId)
    (hret : (allocBufLoop fuel num s).1 = .ok f) :
    (allocBufVisits fuel num s).getLast? = some f ∧
    ∀ g, g ∈ (allocBufVisits fuel num s).dropLast →
      (s.bufDescTable g).valid = true ∧
      ((s.bufDescTable g).refbit = true ∨ 0 < (s.bufDescTable g).pinCnt) ∧
      ((allocBufLoop fuel num s).2.bufDescTable g).refbit = false := by
  induction fuel generalizing num s with
  | zero => simp [allocBufLoop] at hret
  | succ fuel ih =>
    simp only [allocBufLoop] at hret ⊢
    simp only [allocBufVisits]
    split
    · rename_i hv
      rw [if_pos hv] at hret
      injection hret with hret
      refine ⟨by rw [hret]; rfl, fun g hg => ?_⟩
      simp at hg
    · rename_i hv
      rw [if_neg hv] at hret
      have hval : (s.bufDescTable s.advanceClock.clockHand).valid = true := by simpa using hv
      split
      · rename_i hr
        rw [if_pos hr] at hret
        obtain ⟨h1, h2⟩ := ih num _ hret
        refine ⟨getLast?_cons_of_getLast? _ _ _ h1, fun g hg => ?_⟩
        rcases mem_dropLast_cons _ _ _ _ h1 hg with hg | hg
        · subst hg
          refine ⟨hval, Or.inl hr, ?_⟩
          cases hfin : ((allocBufLoop fuel num (s.advanceClock.setDesc s.advanceClock.clockHand
            { s.advanceClock.bufDescTable s.advanceClock.clockHand with
              refbit := false })).2.bufDescTable s.advanceClock.clockHand).refbit with
          | false => rfl
          | true =>
            have := allocBufLoop_refbit_mono _ _ _ _ hfin
            simp at this
        · obtain ⟨a1, a2, a3⟩ := h2 g hg
          rw [setDesc_bufDescTable] at a1 a2
          by_cases hgh : g = s.advanceClock.clockHand
          · rw [hgh]
            exact ⟨hval, Or.inl hr, hgh ▸ a3⟩
          · rw [if_neg hgh] at a1 a2
            exact ⟨a1, a2, a3⟩
      · rename_i hr
        rw [if_neg hr] at hret
        have hrf : (s.bufDescTable s.advanceClock.clockHand).refbit = false := by simpa using hr
        split
        · rename_i hp
          rw [if_pos hp] at hret
          split
          · rename_i hnum
            rw [if_pos hnum] at hret
            cases hret
          · rename_i hnum
            rw [if_neg hnum] at hret
            obtain ⟨h1, h2⟩ := ih (num + 1) _ hret
            refine ⟨getLast?_cons_of_getLast? _ _ _ h1, fun g hg => ?_⟩
            rcases mem_dropLast_cons _ _ _ _ h1 hg with hg | hg
            · subst hg
              refine ⟨hval, Or.inr (Nat.pos_of_ne_zero hp), ?_⟩
              cases hfin : ((allocBufLoop fuel (num + 1) s.advanceClock).2.bufDescTable
                s.advanceClock.clockHand).refbit with
              | false => rfl
              | true =>
                have := allocBufLoop_refbit_mono _ _ _ _ hfin
                rw [advanceClock_bufDescTable, hrf] at this
                cases this
            · exact h2 g hg
        · rename_i hp
          rw [if_neg hp] at hret
          injection hret with hret
          refine ⟨by rw [hret]; rfl, fun g hg => ?_⟩
          simp at hg

theorem allocBufLoop_invalid (fuel num : Nat) (s : BufMgr)
    (h : (s.advanceClock.bufDescTable s.advanceClock.clockHand).valid = false) :
    allocBufLoop (fuel + 1) num s = (.ok s.advanceClock.clockHand, s.advanceClock) := by
  simp only [allocBufLoop]
  rw [if_pos h]

theorem construct_advanceClock (bufs : Nat) (disk : FileId → File) (h1 : 1 ≤ bufs)
    (h32 : bufs < 2 ^ 32) : (construct bufs disk).advanceClock.clockHand = 0 := by
  have hh : (construct bufs disk).clockHand = bufs - 1 := by
    show (bufs + 2 ^ 32 - 1) % 2 ^ 32 = bufs - 1
    have : bufs + 2 ^ 32 - 1 = (bufs - 1) + 2 ^ 32 := by omega
    rw [this, Nat.add_mod_right]
    exact Nat.mod_eq_of_lt (by omega)
  simp only [advanceClock, hh]
  have hn : (construct bufs disk).numBufs = bufs := rfl
  rw [hn]
  have e : (bufs - 1 + 1) % 2 ^ 32 = bufs := by
    rw [Nat.sub_add_cancel h1]
    exact Nat.mod_eq_of_lt h32
  rw [e]
  simp

theorem refbit_eq_self (d : BufDesc) (b : Bool) (h : d.refbit = b) :
    { d with refbit := b } = d := by
  cases d; simp_all

/-- `allocBuf` leaves the descriptor of a pinned frame whose reference bit is clear as it
is. -/
theorem allocBuf_pinned_unreferenced (s : BufMgr) (g : FrameId)
    (hr : (s.bufDescTable g).refbit = false) (hp : 0 < (s.bufDescTable g).pinCnt) :
    s.allocBuf.2.bufDescTable g = s.bufDescTable g := by
  have hfin : (s.allocBuf.2.bufDescTable g).refbit = false := by
    cases hb : (s.allocBuf.2.bufDescTable g).refbit with
    | false => rfl
    | true =>
      have := allocBufLoop_refbit_mono _ _ _ _ hb
      rw [hr] at this
      cases this
  have hsw : ∀ t, SweptFrom s t → (t.bufDescTable g).refbit = false →
      t.bufDescTable g = s.bufDescTable g := by
    intro t ht hrt
    have h6 := ht.2.2.2.2.2 g
    rw [h6, hrt]
    exact refbit_eq_self _ _ hr
  revert hfin
  unfold allocBuf
  rcases allocBufLoop_spec (2 * s.numBufs + 1) 0 s with h | h | ⟨t, h1, _, _, h4⟩
  · exact fun hfin => hsw _ h.2 hfin
  · exact fun hfin => hsw _ h.2 hfin
  · rcases h4 with ⟨_, he⟩ | ⟨_, _, hp0, he⟩
    · rw [he]; exact fun hfin => hsw t h1 hfin
    · rw [he, evict_bufDescTable]
      split
      · rename_i hg
        rw [← hg, (h1.desc_eq g).2.2.2.1] at hp0
        omega
      · exact fun hfin => hsw t h1 hfin

/-! ## flushFile -/

theorem clear_clean (d : BufDesc) : ({ d with dirty := false } : BufDesc).Clear = d.Clear := rfl

theorem flushFrame_bufDescTable (s : BufMgr) (i j : FrameId) :
    (s.flushFrame i).bufDescTable j =
      if j = i then (s.bufDescTable i).Clear else s.bufDescTable j := by
  obtain ⟨_, ht⟩ := flushWrite_tables s i
  unfold flushFrame
  simp only [setDesc_bufDescTable]
  rw [ht]
  split
  · simp only [if_true]; rfl
  · rename_i hj; simp only [if_neg hj]

theorem flushFrame_hashTable (s : BufMgr) (i : FrameId) (k : FilePtr × PageId) :
    (s.flushFrame i).hashTable k =
      if k = ((s.bufDescTable i).file, (s.bufDescTable i).pageNo) then none
      else s.hashTable k := by
  obtain ⟨hh, _⟩ := flushWrite_tables s i
  unfold flushFrame
  simp only [setDesc_hashTable]
  rw [hh]

theorem flushFrame_fields (s : BufMgr) (i : FrameId) :
    (s.flushFrame i).bufPool = s.bufPool ∧ (s.flushFrame i).numBufs = s.numBufs ∧
    (s.flushFrame i).clockHand = s.clockHand := by
  unfold flushFrame
  simp only []
  split <;> simp

theorem flushFrame_trace (s : BufMgr) (i : FrameId) (fid : FileId)
    (hf : (s.bufDescTable i).file = some fid) :
    (s.flushFrame i).trace =
      s.trace ++ (if (s.bufDescTable i).file = some fid ∧ (s.bufDescTable i).dirty = true then
        [FileCall.writePage fid (s.bufPool i)] else []) := by
  unfold flushFrame
  simp only [setDesc_trace]
  by_cases hd : (s.bufDescTable i).dirty = true
  · simp [hd, hf, fileWritePage]
  · simp [hd]

theorem flushFileLoop_skip (file : FilePtr) (n : Nat) (i : FrameId) (s : BufMgr)
    (hf : (s.bufDescTable i).file ≠ file) :
    flushFileLoop file (n + 1) i s = flushFileLoop file n (i + 1) s := by
  simp only [flushFileLoop]
  rw [if_neg hf]

theorem flushFileLoop_bad (file : FilePtr) (n : Nat) (i : FrameId) (s : BufMgr)
    (hf : (s.bufDescTable i).file = file) (hv : (s.bufDescTable i).valid = false) :
    flushFileLoop file (n + 1) i s = (.error .BadBuffer, s) := by
  simp only [flushFileLoop]
  rw [if_pos hf, if_pos hv]

theorem flushFileLoop_pinned (file : FilePtr) (n : Nat) (i : FrameId) (s : BufMgr)
    (hf : (s.bufDescTable i).file = file) (hv : (s.bufDescTable i).valid = true)
    (hp : 0 < (s.bufDescTable i).pinCnt) :
    flushFileLoop file (n + 1) i s = (.error .PagePinned, s) := by
  simp only [flushFileLoop]
  rw [if_pos hf, if_neg (by simp [hv]), if_pos hp]

theorem flushFileLoop_go (file : FilePtr) (n : Nat) (i : FrameId) (s : BufMgr)
    (hf : (s.bufDescTable i).file = file) (hv : (s.bufDescTable i).valid = true)
    (hp : (s.bufDescTable i).pinCnt = 0)
    (hh : s.hashTable (file, (s.bufDescTable i).pageNo) ≠ none) :
    flushFileLoop file (n + 1) i s = flushFileLoop file n (i + 1) (s.flushFrame i) := by
  obtain ⟨hh1, ht1⟩ := flushWrite_tables s i
  simp only [flushFileLoop]
  rw [if_pos hf, if_neg (by simp [hv]), if_neg (by omega)]
  have hpn : ((if (s.bufDescTable i).dirty = true then
      (s.fileWritePage (s.bufDescTable i).file (s.bufPool i)).setDesc i
        { s.bufDescTable i with dirty := false }
      else s).bufDescTable i).pageNo = (s.bufDescTable i).pageNo := by
    rw [ht1]; simp
  have hrem : (if (s.bufDescTable i).dirty = true then
      (s.fileWritePage (s.bufDescTable i).file (s.bufPool i)).setDesc i
        { s.bufDescTable i with dirty := false }
      else s).hashTable.remove file (s.bufDescTable i).pageNo =
      .ok (fun k => if k = (file, (s.bufDescTable i).pageNo) then none else
        (if (s.bufDescTable i).dirty = true then
          (s.fileWritePage (s.bufDescTable i).file (s.bufPool i)).setDesc i
            { s.bufDescTable i with dirty := false }
          else s).hashTable k) := by
    unfold BufHashTbl.remove
    rw [hh1]
    cases hc : s.hashTable (file, (s.bufDescTable i).pageNo) with
    | none => exact absurd hc hh
    | some v => rfl
  rw [hpn, hrem]
  unfold flushFrame
  simp only [hf]

theorem flushFileLoop_notFound (file : FilePtr) (n : Nat) (i : FrameId) (s : BufMgr)
    (hf : (s.bufDescTable i).file = file) (hv : (s.bufDescTable i).valid = true)
    (hp : (s.bufDescTable i).pinCnt = 0)
    (hh : s.hashTable (file, (s.bufDescTable i).pageNo) = none) :
    (flushFileLoop file (n + 1) i s).1 = .error .HashNotFound := by
  obtain ⟨hh1, ht1⟩ := flushWrite_tables s i
  simp only [flushFileLoop]
  rw [if_pos hf, if_neg (by simp [hv]), if_neg (by omega)]
  have hpn : ((if (s.bufDescTable i).dirty = true then
      (s.fileWritePage (s.bufDescTable i).file (s.bufPool i)).setDesc i
        { s.bufDescTable i with dirty := false }
      else s).bufDescTable i).pageNo = (s.bufDescTable i).pageNo := by
    rw [ht1]; simp
  have hrem : (if (s.bufDescTable i).dirty = true then
      (s.fileWritePage (s.bufDescTable i).file (s.bufPool i)).setDesc i
        { s.bufDescTable i with dirty := false }
      else s).hashTable.remove file (s.bufDescTable i).pageNo = .error .HashNotFound := by
    unfold BufHashTbl.remove
    rw [hh1, hh]
  rw [hpn, hrem]

theorem flushWrites_congr (s t : BufMgr) (fid : FileId) (n : Nat) (i : Nat)
    (hd : ∀ j : Nat, i ≤ j → t.bufDescTable j = s.bufDescTable j) (hp : t.bufPool = s.bufPool) :
    flushWrites t fid n i = flushWrites s fid n i := by
  induction n generalizing i with
  | zero => rfl
  | succ n ih =>
    simp only [flushWrites]
    rw [hd i (le_refl i), hp, ih (i + 1) (fun j hj => hd j (by omega))]

/-- What a `flushFile` loop that completes has done to the `n` frames from `i` on. -/
theorem flushFileLoop_ok_spec (fid : FileId) (n : Nat) (i : Nat) (s : BufMgr)
    (hok : (flushFileLoop (some fid) n i s).1 = .ok ()) :
    (∀ j : Nat, i ≤ j → j < i + n → (s.bufDescTable j).file = some fid →
      (s.bufDescTable j).valid = true ∧ (s.bufDescTable j).pinCnt = 0 ∧
      (flushFileLoop (some fid) n i s).2.bufDescTable j = (s.bufDescTable j).Clear ∧
      (flushFileLoop (some fid) n i s).2.hashTable (some fid, (s.bufDescTable j).pageNo) =
        none) ∧
    (∀ j : Nat, ¬ (i ≤ j ∧ j < i + n ∧ (s.bufDescTable j).file = some fid) →
      (flushFileLoop (some fid) n i s).2.bufDescTable j = s.bufDescTable j) ∧
    (∀ k v, (flushFileLoop (some fid) n i s).2.hashTable k = some v → s.hashTable k = some v) ∧
    (∀ k, (∀ j : Nat, i ≤ j → j < i + n → (s.bufDescTable j).file = some fid →
        k ≠ (some fid, (s.bufDescTable j).pageNo)) →
      (flushFileLoop (some fid) n i s).2.hashTable k = s.hashTable k) ∧
    (flushFileLoop (some fid) n i s).2.bufPool = s.bufPool ∧
    (flushFileLoop (some fid) n i s).2.numBufs = s.numBufs ∧
    (flushFileLoop (some fid) n i s).2.clockHand = s.clockHand ∧
    (flushFileLoop (some fid) n i s).2.trace = s.trace ++ flushWrites s fid n i := by
  induction n generalizing i s with
  | zero =>
    refine ⟨fun j h1 h2 => by omega, fun _ _ => rfl, fun _ _ h => h, fun _ _ => rfl, rfl, rfl,
      rfl, ?_⟩
    simp [flushFileLoop, flushWrites]
  | succ n ih =>
    by_cases hf : (s.bufDescTable i).file = some fid
    · by_cases hv : (s.bufDescTable i).valid = true
      · by_cases hp : (s.bufDescTable i).pinCnt = 0
        · by_cases hh : s.hashTable (some fid, (s.bufDescTable i).pageNo) = none
          · rw [flushFileLoop_notFound _ n i s hf hv hp hh] at hok
            cases hok
          · rw [flushFileLoop_go _ n i s hf hv hp hh] at hok ⊢
            obtain ⟨a1, a2, a3, a4, a5, a6, a7, a8⟩ := ih (i + 1) (s.flushFrame i) hok
            have hsame : ∀ j, j ≠ i → (s.flushFrame i).bufDescTable j = s.bufDescTable j := by
              intro j hj
              rw [flushFrame_bufDescTable, if_neg hj]
            have hcleared : (s.flushFrame i).bufDescTable i = (s.bufDescTable i).Clear := by
              rw [flushFrame_bufDescTable, if_pos rfl]
            obtain ⟨f1, f2, f3⟩ := flushFrame_fields s i
            refine ⟨fun j h1 h2 h3 => ?_, fun j hj => ?_, fun k v hk => ?_, fun k hk => ?_,
              a5.trans f1, a6.trans f2, a7.trans f3, ?_⟩
            · by_cases hji : j = i
              · subst hji
                refine ⟨hv, hp, ?_, ?_⟩
                · rw [a2 j (by omega), hcleared]
                · cases hc : (flushFileLoop (some fid) n (j + 1) (s.flushFrame j)).2.hashTable
                    (some fid, (s.bufDescTable j).pageNo) with
                  | none => rfl
                  | some v =>
                    have := a3 _ _ hc
                    rw [flushFrame_hashTable, hf, if_pos rfl] at this
                    cases this
              · have := a1 j (by omega) (by omega) (by rw [hsame j hji]; exact h3)
                rw [hsame j hji] at this
                exact this
            · by_cases hji : j = i
              · subst hji
                exact absurd ⟨le_refl j, by omega, hf⟩ hj
              · rw [a2 j (fun ⟨c1, c2, c3⟩ => hj ⟨by omega, by omega, by
                  rw [hsame j hji] at c3; exact c3⟩), hsame j hji]
            · have := a3 k v hk
              rw [flushFrame_hashTable] at this
              split at this
              · cases this
              · exact this
            · rw [a4 k (fun j c1 c2 c3 => by
                have hji : j ≠ i := by omega
                rw [hsame j hji] at c3 ⊢
                exact hk j (by omega) (by omega) c3), flushFrame_hashTable, hf,
                if_neg (hk i (le_refl i) (by omega) hf)]
            · rw [a8, flushFrame_trace s i fid hf,
                flushWrites_congr s (s.flushFrame i) fid n (i + 1)
                  (fun j hj => hsame j (by omega)) f1]
              simp only [flushWrites, List.append_assoc]
        · rw [flushFileLoop_pinned _ n i s hf hv (by omega)] at hok
          cases hok
      · rw [flushFileLoop_bad _ n i s hf (by simpa using hv)] at hok
        cases hok
    · rw [flushFileLoop_skip _ n i s hf] at hok ⊢
      obtain ⟨a1, a2, a3, a4, a5, a6, a7, a8⟩ := ih (i + 1) s hok
      refine ⟨fun j h1 h2 h3 => ?_, fun j hj => ?_, a3, fun k hk => ?_, a5, a6, a7, ?_⟩
      · have hji : j ≠ i := fun e => hf (e ▸ h3)
        exact a1 j (by omega) (by omega) h3
      · by_cases hji : j = i
        · subst hji
          exact a2 j (fun ⟨c1, _, _⟩ => by omega)
        · exact a2 j (fun ⟨c1, c2, c3⟩ => hj ⟨by omega, by omega, c3⟩)
      · exact a4 k (fun j c1 c2 c3 => hk j (by omega) (by omega) c3)
      · rw [a8]
        simp only [flushWrites]
        rw [if_neg (fun h => hf h.1)]
        rfl

/-- A `flushFile` loop that throws has completed on the frames before the offending frame
`i + m`; for `BadBufferException` and `PagePinnedException` the state left is the state
after that completed part. -/
theorem flushFileLoop_throw_spec (fid : FileId) (n : Nat) (i : Nat) (s : BufMgr) (e : Exn)
    (he : (flushFileLoop (some fid) n i s).1 = .error e) :
    ∃ m, m < n ∧ (flushFileLoop (some fid) m i s).1 = .ok () ∧
      (s.bufDescTable (i + m)).file = some fid ∧
      ((e = .BadBuffer ∧ (s.bufDescTable (i + m)).valid = false ∧
          (flushFileLoop (some fid) n i s).2 = (flushFileLoop (some fid) m i s).2) ∨
       (e = .PagePinned ∧ (s.bufDescTable (i + m)).valid = true ∧
          0 < (s.bufDescTable (i + m)).pinCnt ∧
          (flushFileLoop (some fid) n i s).2 = (flushFileLoop (some fid) m i s).2) ∨
       (e = .HashNotFound ∧ (s.bufDescTable (i + m)).valid = true ∧
          (s.bufDescTable (i + m)).pinCnt = 0 ∧
          (flushFileLoop (some fid) m i s).2.hashTable
            (some fid, (s.bufDescTable (i + m)).pageNo) = none)) := by
  induction n generalizing i s with
  | zero => simp [flushFileLoop] at he
  | succ n ih =>
    by_cases hf : (s.bufDescTable i).file = some fid
    · by_cases hv : (s.bufDescTable i).valid = true
      · by_cases hp : (s.bufDescTable i).pinCnt = 0
        · by_cases hh : s.hashTable (some fid, (s.bufDescTable i).pageNo) = none
          · rw [flushFileLoop_notFound _ n i s hf hv hp hh] at he
            injection he with he
            exact ⟨0, by omega, rfl, hf, Or.inr (Or.inr ⟨he.symm, hv, hp, hh⟩)⟩
          · rw [flushFileLoop_go _ n i s hf hv hp hh] at he ⊢
            obtain ⟨m, hm, hok, hfile, hcase⟩ := ih (i + 1) (s.flushFrame i) he
            have hidx : i + (m + 1) = i + 1 + m := by omega
            have hsame : (s.flushFrame i).bufDescTable (i + 1 + m) =
                s.bufDescTable (i + 1 + m) := by
              have hne : i + 1 + m ≠ i := by omega
              rw [flushFrame_bufDescTable, if_neg hne]
            rw [hsame] at hfile hcase
            refine ⟨m + 1, by omega, ?_, ?_, ?_⟩
            · rw [flushFileLoop_go _ m i s hf hv hp hh]; exact hok
            · rw [hidx]; exact hfile
            · rw [hidx, flushFileLoop_go _ m i s hf hv hp hh]; exact hcase
        · rw [flushFileLoop_pinned _ n i s hf hv (by omega)] at he ⊢
          injection he with he
          exact ⟨0, by omega, rfl, hf,
            Or.inr (Or.inl ⟨he.symm, hv, Nat.pos_of_ne_zero hp, rfl⟩)⟩
      · have hv' : (s.bufDescTable i).valid = false := by simpa using hv
        rw [flushFileLoop_bad _ n i s hf hv'] at he ⊢
        injection he with he
        exact ⟨0, by omega, rfl, hf, Or.inl ⟨he.symm, hv', rfl⟩⟩
    · rw [flushFileLoop_skip _ n i s hf] at he ⊢
      obtain ⟨m, hm, hok, hfile, hcase⟩ := ih (i + 1) s he
      have hidx : i + (m + 1) = i + 1 + m := by omega
      refine ⟨m + 1, by omega, ?_, ?_, ?_⟩
      · rw [flushFileLoop_skip _ m i s hf]; exact hok
      · rw [hidx]; exact hfile
      · rw [hidx, flushFileLoop_skip _ m i s hf]; exact hcase

theorem Unowned.carry {tbl tbl' : FrameId → BufDesc} (h : Unowned tbl)
    (hk : ∀ i, (tbl' i).valid = (tbl i).valid ∧ (tbl' i).file = (tbl i).file ∧
      (tbl' i).pageNo = (tbl i).pageNo) : Unowned tbl' := by
  intro i hv
  rw [(hk i).2.1]
  exact h i ((hk i).1 ▸ hv)

/-- With no unused descriptor naming a file, `flushFile` of a real file does not throw
`BadBufferException`. -/
theorem flushFileLoop_not_badBuffer (fid : FileId) (n : Nat) (i : Nat) (s : BufMgr)
    (hown : Unowned s.bufDescTable) :
    (flushFileLoop (some fid) n i s).1 ≠ .error .BadBuffer := by
  intro he
  obtain ⟨m, _, _, hfile, hcase⟩ := flushFileLoop_throw_spec fid n i s _ he
  rcases hcase with ⟨_, hv, _⟩ | ⟨h, _⟩ | ⟨h, _⟩
  · rw [hown _ hv] at hfile
    cases hfile
  · cases h
  · cases h

/-- With every valid frame indexed, `hashTable->remove` does not fail in `flushFile`. -/
theorem flushFileLoop_not_notFound (fid : FileId) (n : Nat) (i : Nat) (s : BufMgr)
    (hi : IndexedExcept none s.hashTable s.bufDescTable) :
    (flushFileLoop (some fid) n i s).1 ≠ .error .HashNotFound := by
  intro he
  obtain ⟨m, _, hok, hfile, hcase⟩ := flushFileLoop_throw_spec fid n i s _ he
  rcases hcase with ⟨h, _⟩ | ⟨h, _⟩ | ⟨_, hv, _, hnone⟩
  · cases h
  · cases h
  · obtain ⟨_, _, _, a4, _⟩ := flushFileLoop_ok_spec fid m i s hok
    have hidx := hi (i + m) (by simp) hv
    rw [hfile] at hidx
    rw [a4 _ (fun j c1 c2 c3 hk => by
      have hj := hi j (by simp) (by
        cases hvj : (s.bufDescTable j).valid with
        | true => rfl
        | false =>
          exfalso
          have := (flushFileLoop_ok_spec fid m i s hok).1 j c1 c2 c3
          rw [hvj] at this
          cases this.1)
      rw [c3, ← hk, hidx] at hj
      injection hj with hj
      have hj' : i + m = (j : Nat) := hj
      omega), hidx] at hnone
    cases hnone

theorem flushFileLoop_notFound_state (file : FilePtr) (n : Nat) (i : FrameId) (s : BufMgr)
    (hf : (s.bufDescTable i).file = file) (hv : (s.bufDescTable i).valid = true)
    (hp : (s.bufDescTable i).pinCnt = 0)
    (hh : s.hashTable (file, (s.bufDescTable i).pageNo) = none) :
    flushFileLoop file (n + 1) i s = (.error .HashNotFound, s.flushWriteBack i) := by
  obtain ⟨hh1, ht1⟩ := flushWrite_tables s i
  simp only [flushFileLoop]
  rw [if_pos hf, if_neg (by simp [hv]), if_neg (by omega)]
  have hpn : ((if (s.bufDescTable i).dirty = true then
      (s.fileWritePage (s.bufDescTable i).file (s.bufPool i)).setDesc i
        { s.bufDescTable i with dirty := false }
      else s).bufDescTable i).pageNo = (s.bufDescTable i).pageNo := by
    rw [ht1]; simp
  have hrem : (if (s.bufDescTable i).dirty = true then
      (s.fileWritePage (s.bufDescTable i).file (s.bufPool i)).setDesc i
        { s.bufDescTable i with dirty := false }
      else s).hashTable.remove file (s.bufDescTable i).pageNo = .error .HashNotFound := by
    unfold BufHashTbl.remove
    rw [hh1, hh]
  rw [hpn, hrem]
  rfl

theorem flushWriteBack_tables (s : BufMgr) (i : FrameId) :
    (s.flushWriteBack i).hashTable = s.hashTable ∧
    (s.flushWriteBack i).numBufs = s.numBufs ∧
    ∀ j, ((s.flushWriteBack i).bufDescTable j).valid = (s.bufDescTable j).valid ∧
      ((s.flushWriteBack i).bufDescTable j).file = (s.bufDescTable j).file ∧
      ((s.flushWriteBack i).bufDescTable j).pageNo = (s.bufDescTable j).pageNo := by
  obtain ⟨hh, ht⟩ := flushWrite_tables s i
  refine ⟨hh, ?_, fun j => ?_⟩
  · unfold flushWriteBack
    simp only []
    split <;> simp
  · unfold flushWriteBack
    simp only []
    rw [ht]
    simp only
    split
    · rename_i hj; subst hj; exact ⟨rfl, rfl, rfl⟩
    · exact ⟨rfl, rfl, rfl⟩

/-- A property kept by the write-back and by the flush of a single frame is kept by the
loop of `flushFile`, however it ends. -/
theorem flushFileLoop_preserves (P : BufMgr → Prop) (file : FilePtr) (n : Nat) (i : FrameId)
    (s : BufMgr) (hP : P s) (hwb : ∀ t j, P t → P (t.flushWriteBack j))
    (hfl : ∀ t j, P t → P (t.flushFrame j)) : P (flushFileLoop file n i s).2 := by
  induction n generalizing i s with
  | zero => exact hP
  | succ n ih =>
    by_cases hf : (s.bufDescTable i).file = file
    · by_cases hv : (s.bufDescTable i).valid = true
      · by_cases hp : (s.bufDescTable i).pinCnt = 0
        · by_cases hh : s.hashTable (file, (s.bufDescTable i).pageNo) = none
          · rw [flushFileLoop_notFound_state _ n i s hf hv hp hh]
            exact hwb s i hP
          · rw [flushFileLoop_go _ n i s hf hv hp hh]
            exact ih _ _ (hfl s i hP)
        · rw [flushFileLoop_pinned _ n i s hf hv (Nat.pos_of_ne_zero hp)]
          exact hP
      · rw [flushFileLoop_bad _ n i s hf (by simpa using hv)]
        exact hP
    · rw [flushFileLoop_skip _ n i s hf]
      exact ih _ _ hP

/-- A property of the state that a sweep and the eviction after a sweep keep is kept by
`allocBuf`. -/
theorem allocBuf_preserves (P : BufMgr → Prop) (s : BufMgr)
    (hsw : ∀ t, SweptFrom s t → P t) (hev : ∀ t, SweptFrom s t → P t.evict) :
    P s.allocBuf.2 := by
  unfold allocBuf
  rcases allocBufLoop_spec (2 * s.numBufs + 1) 0 s with h | h | ⟨t, h1, _, _, h4⟩
  · exact hsw _ h.2
  · exact hsw _ h.2
  · rcases h4 with ⟨_, he⟩ | ⟨_, _, _, he⟩
    · rw [he]; exact hsw t h1
    · rw [he]; exact hev t h1

theorem allocBuf_numBufs (s : BufMgr) : s.allocBuf.2.numBufs = s.numBufs :=
  allocBuf_preserves (fun t => t.numBufs = s.numBufs) s (fun _ h => h.1)
    (fun t h => (evict_numBufs t).trans h.1)

theorem allocBuf_hash_mono (s : BufMgr) (k : FilePtr × PageId) (v : FrameId)
    (h : s.allocBuf.2.hashTable k = some v) : s.hashTable k = some v := by
  revert h
  refine allocBuf_preserves (fun t => t.hashTable k = some v → s.hashTable k = some v) s
    (fun t ht h => ?_) (fun t ht h => ?_)
  · rw [ht.2.2.1] at h; exact h
  · rw [evict_hashTable] at h
    split at h
    · cases h
    · rw [ht.2.2.1] at h; exact h

theorem allocBuf_unowned (s : BufMgr) (h : Unowned s.bufDescTable) :
    Unowned s.allocBuf.2.bufDescTable :=
  allocBuf_preserves (fun t => Unowned t.bufDescTable) s
    (fun _ ht => h.carry fun i =>
      ⟨(ht.desc_eq i).2.2.2.2.2, (ht.desc_eq i).1, (ht.desc_eq i).2.1⟩)
    (fun t ht => (h.carry fun i =>
      ⟨(ht.desc_eq i).2.2.2.2.2, (ht.desc_eq i).1, (ht.desc_eq i).2.1⟩).carry
        (evict_sameKeys t))

theorem allocBuf_ok_lt (s : BufMgr) (hN : 1 ≤ s.numBufs) (f : FrameId)
    (h : s.allocBuf.1 = .ok f) : f < s.numBufs := by
  rcases allocBuf_spec s hN with h1 | ⟨t, _, h2, h3, _⟩
  · rw [h1.1] at h; cases h
  · rw [h3] at h
    injection h with h
    rw [← h]
    exact h2

/-! ## Shape of the calls that allocate a frame -/

/-- A `readPage` miss either passes on the exception of `allocBuf` or installs the page in
the frame `allocBuf` returned; `hashTable->insert` cannot fail there. -/
theorem readPage_miss_cases (s : BufMgr) (file : FileId) (pageNo : PageId)
    (hmiss : s.hashTable.lookup (some file) pageNo = none) :
    (∃ e, s.allocBuf.1 = .error e ∧ s.readPage file pageNo = (.error e, s.allocBuf.2)) ∨
    (∃ f, s.allocBuf.1 = .ok f ∧
      s.readPage file pageNo =
        (.ok f,
          ({ (s.allocBuf.2.fileReadPage file pageNo).2.setPool f
                (s.allocBuf.2.fileReadPage file pageNo).1 with
              hashTable := fun k =>
                if k = (some file, pageNo) then some f else s.allocBuf.2.hashTable k
            }).setDesc f ((s.allocBuf.2.bufDescTable f).Set (some file) pageNo))) := by
  cases hr : s.allocBuf.1 with
  | error e =>
    left
    refine ⟨e, rfl, ?_⟩
    unfold readPage
    rw [hmiss]
    simp only []
    have hab : s.allocBuf = (.error e, s.allocBuf.2) := Prod.ext hr rfl
    rw [hab]
  | ok f =>
    right
    refine ⟨f, rfl, ?_⟩
    have hfree : s.allocBuf.2.hashTable (some file, pageNo) = none := by
      cases hc : s.allocBuf.2.hashTable (some file, pageNo) with
      | none => rfl
      | some v =>
        have := allocBuf_hash_mono s _ _ hc
        have hm : s.hashTable (some file, pageNo) = none := hmiss
        rw [hm] at this
        cases this
    exact readPage_miss_ok s s.allocBuf.2 file pageNo f hmiss (Prod.ext hr rfl) hfree

/-- `allocPage` passes on the exception of `allocBuf`, or fails in `hashTable->insert`
with the new page copied into the frame, or installs the new page. -/
theorem allocPage_cases (s : BufMgr) (file : FileId) :
    (∃ e, (s.fileAllocatePage file).2.allocBuf.1 = .error e ∧
      s.allocPage file = (.error e, (s.fileAllocatePage file).2.allocBuf.2)) ∨
    (∃ f, (s.fileAllocatePage file).2.allocBuf.1 = .ok f ∧
      (s.fileAllocatePage file).2.allocBuf.2.hashTable
        (some file, (s.fileAllocatePage file).1.page_number) ≠ none ∧
      s.allocPage file =
        (.error .HashAlreadyPresent,
          (s.fileAllocatePage file).2.allocBuf.2.setPool f (s.fileAllocatePage file).1)) ∨
    (∃ f, (s.fileAllocatePage file).2.allocBuf.1 = .ok f ∧
      (s.fileAllocatePage file).2.allocBuf.2.hashTable
        (some file, (s.fileAllocatePage file).1.page_number) = none ∧
      s.allocPage file =
        (.ok ((s.fileAllocatePage file).1.page_number, f),
          ({ (s.fileAllocatePage file).2.allocBuf.2.setPool f (s.fileAllocatePage file).1 with
              hashTable := fun k =>
                if k = (some file, (s.fileAllocatePage file).1.page_number) then some f
                else (s.fileAllocatePage file).2.allocBuf.2.hashTable k
            }).setDesc f
              (((s.fileAllocatePage file).2.allocBuf.2.bufDescTable f).Set (some file)
                (s.fileAllocatePage file).1.page_number))) := by
  cases hr : (s.fileAllocatePage file).2.allocBuf.1 with
  | error e =>
    left
    refine ⟨e, rfl, ?_⟩
    unfold allocPage
    simp only []
    have hab : (s.fileAllocatePage file).2.allocBuf =
        (.error e, (s.fileAllocatePage file).2.allocBuf.2) := Prod.ext hr rfl
    rw [hab]
  | ok f =>
    right
    have hab : (s.fileAllocatePage file).2.allocBuf =
        (.ok f, (s.fileAllocatePage file).2.allocBuf.2) := Prod.ext hr rfl
    cases hc : (s.fileAllocatePage file).2.allocBuf.2.hashTable
        (some file, (s.fileAllocatePage file).1.page_number) with
    | none =>
      right
      refine ⟨f, rfl, rfl, ?_⟩
      unfold allocPage
      simp only []
      rw [hab]
      simp only []
      have hins : ((s.fileAllocatePage file).2.allocBuf.2.setPool f
          (s.fileAllocatePage file).1).hashTable.insert (some file)
          (s.fileAllocatePage file).1.page_number f =
          .ok (fun k => if k = (some file, (s.fileAllocatePage file).1.page_number) then some f
            else (s.fileAllocatePage file).2.allocBuf.2.hashTable k) :=
        insert_of_none f hc
      rw [hins]
      rfl
    | some v =>
      left
      refine ⟨f, rfl, by simp, ?_⟩
      unfold allocPage
      simp only []
      rw [hab]
      simp only []
      have hins : ((s.fileAllocatePage file).2.allocBuf.2.setPool f
          (s.fileAllocatePage file).1).hashTable.insert (some file)
          (s.fileAllocatePage file).1.page_number f = .error .HashAlreadyPresent := by
        unfold BufHashTbl.insert
        have : ((s.fileAllocatePage file).2.allocBuf.2.setPool f
          (s.fileAllocatePage file).1).hashTable
            (some file, (s.fileAllocatePage file).1.page_number) = some v := hc
        rw [this]
      rw [hins]

/-! ## Pool size, unused descriptors and range of the page index -/

theorem sane_setDesc_sameKeys (n : Nat) (s : BufMgr) (f : FrameId) (d : BufDesc)
    (h : Sane n s) (hv : d.valid = (s.bufDescTable f).valid)
    (hf : d.file = (s.bufDescTable f).file) : Sane n (s.setDesc f d) := by
  obtain ⟨h1, h2, h3, h4⟩ := h
  refine ⟨h1, h2, ?_, h4⟩
  intro i hi
  rw [setDesc_bufDescTable] at hi ⊢
  split
  · rename_i hif
    rw [if_pos hif] at hi
    rw [hf]
    exact h3 f (hv ▸ hi)
  · rename_i hif
    rw [if_neg hif] at hi
    exact h3 i hi

theorem allocBuf_sane (n : Nat) (s : BufMgr) (h : Sane n s) : Sane n s.allocBuf.2 := by
  obtain ⟨h1, h2, h3, h4⟩ := h
  refine ⟨h1, (allocBuf_numBufs s).trans h2, allocBuf_unowned s h3, fun k f hk => ?_⟩
  rw [allocBuf_numBufs]
  exact h4 k f (allocBuf_hash_mono s k f hk)

theorem install_sane (n : Nat) (a t : BufMgr) (file : FilePtr) (pageNo : PageId)
    (f : FrameId) (h : Sane n a) (hf : f < n) (hn : t.numBufs = a.numBufs)
    (hh : t.hashTable = fun k => if k = (file, pageNo) then some f else a.hashTable k)
    (hd : t.bufDescTable =
      fun j => if j = f then (a.bufDescTable f).Set file pageNo else a.bufDescTable j) :
    Sane n t := by
  obtain ⟨h1, h2, h3, h4⟩ := h
  refine ⟨h1, hn.trans h2, fun i hi => ?_, fun k g hk => ?_⟩
  · rw [hd] at hi ⊢
    simp only at hi ⊢
    split
    · rename_i hif
      rw [if_pos hif] at hi
      simp [BufDesc.Set] at hi
    · rename_i hif
      rw [if_neg hif] at hi
      exact h3 i hi
  · rw [hh] at hk
    rw [hn]
    simp only at hk
    split at hk
    · injection hk with hk
      rw [← hk, h2]
      exact hf
    · exact h4 k g hk

theorem readPage_sane (n : Nat) (s : BufMgr) (file : FileId) (pageNo : PageId)
    (h : Sane n s) : Sane n (s.readPage file pageNo).2 := by
  cases hl : s.hashTable.lookup (some file) pageNo with
  | some f =>
    rw [readPage_hit s file pageNo f hl]
    exact sane_setDesc_sameKeys n s f _ h (by rfl) (by rfl)
  | none =>
    have ha := allocBuf_sane n s h
    rcases readPage_miss_cases s file pageNo hl with ⟨e, _, hr⟩ | ⟨f, hf, hr⟩
    · rw [hr]; exact ha
    · rw [hr]
      have hlt : f < n := by
        have := allocBuf_ok_lt s (by rw [h.2.1]; exact h.1) f hf
        rw [h.2.1] at this
        exact this
      exact install_sane n s.allocBuf.2 _ (some file) pageNo f ha hlt rfl rfl rfl

theorem allocPage_sane (n : Nat) (s : BufMgr) (file : FileId) (h : Sane n s) :
    Sane n (s.allocPage file).2 := by
  have h0 : Sane n (s.fileAllocatePage file).2 := h
  have ha := allocBuf_sane n _ h0
  rcases allocPage_cases s file with ⟨e, _, hr⟩ | ⟨f, _, _, hr⟩ | ⟨f, hf, _, hr⟩
  · rw [hr]; exact ha
  · rw [hr]; exact ha
  · rw [hr]
    have hlt : f < n := by
      have := allocBuf_ok_lt (s.fileAllocatePage file).2 (by rw [h0.2.1]; exact h.1) f hf
      rw [h0.2.1] at this
      exact this
    exact install_sane n (s.fileAllocatePage file).2.allocBuf.2 _ (some file) _ f ha hlt rfl rfl
      rfl

theorem unPinPage_sane (n : Nat) (s : BufMgr) (file : FileId) (pageNo : PageId)
    (dirty : Bool) (h : Sane n s) : Sane n (s.unPinPage file pageNo dirty).2 := by
  cases hl : s.hashTable.lookup (some file) pageNo with
  | none => rw [unPinPage_miss s file pageNo dirty hl]; exact h
  | some f =>
    by_cases hp : 0 < (s.bufDescTable f).pinCnt
    · rw [unPinPage_pinned s file pageNo dirty f hl hp]
      exact sane_setDesc_sameKeys n s f _ h (by rfl) (by rfl)
    · rw [unPinPage_unpinned s file pageNo dirty f hl hp]; exact h

theorem sane_clear (n : Nat) (s t : BufMgr) (f : FrameId) (key : FilePtr × PageId)
    (h : Sane n s) (hn : t.numBufs = s.numBufs)
    (hh : t.hashTable = fun k => if k = key then none else s.hashTable k)
    (hd : t.bufDescTable = fun j => if j = f then (s.bufDescTable f).Clear else s.bufDescTable j) :
    Sane n t := by
  obtain ⟨h1, h2, h3, h4⟩ := h
  refine ⟨h1, hn.trans h2, fun i hi => ?_, fun k g hk => ?_⟩
  · rw [hd] at hi ⊢
    simp only at hi ⊢
    split
    · rfl
    · rename_i hif
      rw [if_neg hif] at hi
      exact h3 i hi
  · rw [hh] at hk
    rw [hn]
    simp only at hk
    split at hk
    · cases hk
    · exact h4 k g hk

theorem disposePage_sane (n : Nat) (s : BufMgr) (file : FileId) (pageNo : PageId)
    (h : Sane n s) : Sane n (s.disposePage file pageNo).2 := by
  cases hl : s.hashTable.lookup (some file) pageNo with
  | none => rw [disposePage_miss s file pageNo hl]; exact h
  | some f =>
    rw [disposePage_hit s file pageNo f hl]
    exact sane_clear n s _ f (some file, pageNo) h rfl rfl rfl

theorem flushFileLoop_sane (n : Nat) (file : FilePtr) (m : Nat) (i : FrameId) (s : BufMgr)
    (h : Sane n s) : Sane n (flushFileLoop file m i s).2 := by
  refine flushFileLoop_preserves (Sane n) file m i s h (fun t j ht => ?_) (fun t j ht => ?_)
  · obtain ⟨a1, a2, a3⟩ := flushWriteBack_tables t j
    obtain ⟨h1, h2, h3, h4⟩ := ht
    refine ⟨h1, a2.trans h2, h3.carry fun i => a3 i, fun k g hk => ?_⟩
    rw [a1] at hk
    rw [a2]
    exact h4 k g hk
  · obtain ⟨h1, h2, h3, h4⟩ := ht
    obtain ⟨_, f2, _⟩ := flushFrame_fields t j
    refine ⟨h1, f2.trans h2, fun i hi => ?_, fun k g hk => ?_⟩
    · rw [flushFrame_bufDescTable] at hi ⊢
      split
      · rfl
      · rename_i hif
        rw [if_neg hif] at hi
        exact h3 i hi
    · rw [flushFrame_hashTable] at hk
      rw [f2]
      split at hk
      · cases hk
      · exact h4 k g hk

theorem perform_sane (n : Nat) (s : BufMgr) (c : Call) (h : Sane n s) :
    Sane n (s.perform c).2 := by
  cases c with
  | readPage file pageNo => exact readPage_sane n s file pageNo h
  | unPinPage file pageNo dirty => exact unPinPage_sane n s file pageNo dirty h
  | allocPage file => exact allocPage_sane n s file h
  | disposePage file pageNo => exact disposePage_sane n s file pageNo h
  | flushFile file =>
    have := flushFileLoop_sane n file s.numBufs 0 s h
    exact this

theorem reachable_sane {allowed : Option Exn → Bool} {s : BufMgr}
    (h : ReachableVia allowed s) : Sane s.numBufs s := by
  induction h with
  | construct bufs disk hb =>
    exact ⟨hb, rfl, fun _ _ => rfl, fun _ _ hk => by cases hk⟩
  | call s c _ _ ih =>
    have h1 := perform_sane s.numBufs s c ih
    rw [← h1.2.1] at h1
    exact h1

theorem reachable_oneFrameUnpinned :
    ReachableVia managerOutcome oneFrameUnpinned :=
  .call _ (.unPinPage 0 1 true)
    (.call _ (.readPage 0 1) (.construct 1 emptyDisk (by decide)) (by decide)) (by decide)

theorem reachable_twoFramesDirtyAndPinned :
    ReachableVia managerOutcome twoFramesDirtyAndPinned :=
  .call _ (.unPinPage 0 1 true)
    (.call _ (.readPage 0 2)
      (.call _ (.readPage 0 1) (.construct 2 emptyDisk (by decide)) (by decide)) (by decide))
    (by decide)

/-! ## The order of the sweep -/

theorem pinsMatch_congr {s : BufMgr} {c c' : FilePtr × PageId → Nat} (h : PinsMatch s c)
    (hc : ∀ k, c' k = c k) : PinsMatch s c' :=
  ⟨fun k f hk => (h.1 k f hk).trans (hc k).symm, fun k hk => (hc k).trans (h.2 k hk)⟩

theorem pinsMatch_swept {s t : BufMgr} (hsw : SweptFrom s t) {c : FilePtr × PageId → Nat}
    (h : PinsMatch s c) : PinsMatch t c := by
  refine ⟨fun k f hk => ?_, fun k hk => ?_⟩
  · rw [hsw.2.2.1] at hk
    rw [(hsw.desc_eq f).2.2.2.1]
    exact h.1 k f hk
  · rw [hsw.2.2.1] at hk
    exact h.2 k hk

theorem pinsMatch_evict {t : BufMgr} {c : FilePtr × PageId → Nat} (h : PinsMatch t c)
    (hi : IndexedExcept none t.hashTable t.bufDescTable)
    (hv : (t.bufDescTable t.clockHand).valid = true)
    (hp : (t.bufDescTable t.clockHand).pinCnt = 0) : PinsMatch t.evict c := by
  refine ⟨fun k f hk => ?_, fun k hk => ?_⟩
  · rw [evict_hashTable] at hk
    split at hk
    · cases hk
    · have hsame : (t.evict.bufDescTable f).pinCnt = (t.bufDescTable f).pinCnt := by
        rw [evict_bufDescTable]
        split
        · rename_i e; rw [e]
        · rfl
      rw [hsame]
      exact h.1 k f hk
  · rw [evict_hashTable] at hk
    split at hk
    · rename_i hc
      have hidx := hi t.clockHand (by simp) hv
      rw [← hc.2] at hidx
      rw [← h.1 k _ hidx]
      exact hp
    · exact h.2 k hk

theorem allocBuf_pinsMatch (s : BufMgr) (c : FilePtr × PageId → Nat)
    (hi : IndexedExcept none s.hashTable s.bufDescTable) (h : PinsMatch s c) :
    PinsMatch s.allocBuf.2 c := by
  unfold allocBuf
  rcases allocBufLoop_spec (2 * s.numBufs + 1) 0 s with h1 | h1 | ⟨t, h1, _, _, h4⟩
  · exact pinsMatch_swept h1.2 h
  · exact pinsMatch_swept h1.2 h
  · rcases h4 with ⟨_, he⟩ | ⟨hv, _, hp, he⟩
    · rw [he]
      exact pinsMatch_swept h1 h
    · rw [he]
      exact pinsMatch_evict (pinsMatch_swept h1 h) (h1.indexedExcept hi) hv hp

/-- A `readPage` that returns adds one outstanding read of its page. -/
theorem readPage_pinsMatch (s : BufMgr) (file : FileId) (p : PageId)
    (c : FilePtr × PageId → Nat) (hw : Weak s)
    (hi : IndexedExcept none s.hashTable s.bufDescTable) (h : PinsMatch s c) (f : FrameId)
    (hok : (s.readPage file p).1 = .ok f) :
    PinsMatch (s.readPage file p).2 (fun k => if k = (some file, p) then c k + 1 else c k) := by
  cases hl : s.hashTable.lookup (some file) p with
  | some g =>
    have hl' : s.hashTable (some file, p) = some g := hl
    rw [readPage_hit s file p g hl]
    refine ⟨fun k f' hk => ?_, fun k hk => ?_⟩
    · have hk' : s.hashTable k = some f' := hk
      by_cases hfg : f' = g
      · subst hfg
        have hkey : k = (some file, p) := (hw.1 k f' hk').2.symm.trans (hw.1 _ f' hl').2
        simp only [setDesc_same, if_pos hkey]
        rw [h.1 k f' hk']
      · have hkey : k ≠ (some file, p) := by
          intro e
          rw [e, hl'] at hk'
          injection hk' with hk'
          exact hfg hk'.symm
        simp only [if_neg hkey]
        rw [setDesc_other _ _ _ _ hfg]
        exact h.1 k f' hk'
    · have hk' : s.hashTable k = none := hk
      have hkey : k ≠ (some file, p) := by
        intro e
        rw [e, hl'] at hk'
        cases hk'
      simp only [if_neg hkey]
      exact h.2 k hk'
  | none =>
    have hl' : s.hashTable (some file, p) = none := hl
    rcases readPage_miss_cases s file p hl with ⟨e, _, hr⟩ | ⟨f1, hf, hr⟩
    · rw [hr] at hok
      cases hok
    · have hpa := allocBuf_pinsMatch s c hi h
      have hno := (allocBuf_weak s hw).2 f1 hf
      rw [hr]
      refine ⟨fun k f' hk => ?_, fun k hk => ?_⟩
      · have hk' : (if k = (some file, p) then some f1 else s.allocBuf.2.hashTable k) =
            some f' := hk
        by_cases hkey : k = (some file, p)
        · rw [if_pos hkey] at hk'
          injection hk' with hk'
          subst hk'
          simp only [setDesc_same, if_pos hkey]
          rw [hkey, h.2 _ hl']
          rfl
        · rw [if_neg hkey] at hk'
          have hne : f' ≠ f1 := fun e => hno k (e ▸ hk')
          simp only [if_neg hkey]
          rw [setDesc_other _ _ _ _ hne]
          exact hpa.1 k f' hk'
      · have hk' : (if k = (some file, p) then some f1 else s.allocBuf.2.hashTable k) =
            none := hk
        by_cases hkey : k = (some file, p)
        · rw [if_pos hkey] at hk'
          cases hk'
        · rw [if_neg hkey] at hk'
          simp only [if_neg hkey]
          exact hpa.2 k hk'

/-- An `unPinPage` of a page with an outstanding read returns and takes one outstanding
read away. -/
theorem unPinPage_pinsMatch (s : BufMgr) (file : FileId) (p : PageId) (d : Bool)
    (c : FilePtr × PageId → Nat) (hw : Weak s) (h : PinsMatch s c)
    (hpos : 0 < c (some file, p)) :
    (s.unPinPage file p d).1 = .ok () ∧
    PinsMatch (s.unPinPage file p d).2
      (fun k => if k = (some file, p) then c k - 1 else c k) := by
  cases hl : s.hashTable.lookup (some file) p with
  | none =>
    have := h.2 _ hl
    omega
  | some g =>
    have hl' : s.hashTable (some file, p) = some g := hl
    have hpin : 0 < (s.bufDescTable g).pinCnt := by
      rw [h.1 _ g hl']
      exact hpos
    rw [unPinPage_pinned s file p d g hl hpin]
    refine ⟨rfl, fun k f' hk => ?_, fun k hk => ?_⟩
    · have hk' : s.hashTable k = some f' := hk
      by_cases hfg : f' = g
      · subst hfg
        have hkey : k = (some file, p) := (hw.1 k f' hk').2.symm.trans (hw.1 _ f' hl').2
        simp only [setDesc_same, if_pos hkey]
        rw [h.1 k f' hk']
      · have hkey : k ≠ (some file, p) := by
          intro e
          rw [e, hl'] at hk'
          injection hk' with hk'
          exact hfg hk'.symm
        simp only [if_neg hkey]
        rw [setDesc_other _ _ _ _ hfg]
        exact h.1 k f' hk'
    · have hk' : s.hashTable k = none := hk
      have hkey : k ≠ (some file, p) := by
        intro e
        rw [e, hl'] at hk'
        cases hk'
      simp only [if_neg hkey]
      exact h.2 k hk'

theorem runPins_snoc (l : List PinCall) (a : PinCall) (s : BufMgr) :
    runPins (l ++ [a]) s = (runPins l s).bind a.run := by
  unfold runPins
  rw [List.foldl_append]
  rfl

theorem foldl_run_none (l : List PinCall) :
    l.foldl (fun o c => o.bind (PinCall.run c)) none = none := by
  induction l with
  | nil => rfl
  | cons a l ih => exact ih

theorem runPins_append (l r : List PinCall) (s t : BufMgr)
    (h : runPins (l ++ r) s = some t) : ∃ u, runPins l s = some u := by
  unfold runPins at h ⊢
  rw [List.foldl_append] at h
  cases hu : l.foldl (fun o c => o.bind (PinCall.run c)) (some s) with
  | some u => exact ⟨u, rfl⟩
  | none =>
    rw [hu, foldl_run_none] at h
    cases h

theorem reads_snoc (l : List PinCall) (a : PinCall) (k : FilePtr × PageId) :
    reads (l ++ [a]) k = reads l k +
      (match a with
        | .read file pageNo => if (some file, pageNo) = k then 1 else 0
        | .unpin _ _ _ => 0) := by
  unfold reads
  rw [List.countP_append]
  cases a with
  | read file pageNo =>
    by_cases hk : (some file, pageNo) = k <;> simp [List.countP_cons, hk]
  | unpin file pageNo dirty => simp [List.countP_cons]

theorem unpins_snoc (l : List PinCall) (a : PinCall) (k : FilePtr × PageId) :
    unpins (l ++ [a]) k = unpins l k +
      (match a with
        | .read _ _ => 0
        | .unpin file pageNo _ => if (some file, pageNo) = k then 1 else 0) := by
  unfold unpins
  rw [List.countP_append]
  cases a with
  | read file pageNo => simp [List.countP_cons]
  | unpin file pageNo dirty =>
    by_cases hk : (some file, pageNo) = k <;> simp [List.countP_cons, hk]

theorem matched_take (calls : List PinCall) (h : Matched calls) (n : Nat) :
    Matched (calls.take n) := by
  intro m k
  rw [List.take_take]
  exact h _ k

theorem matched_all (calls : List PinCall) (h : Matched calls) (k : FilePtr × PageId) :
    unpins calls k ≤ reads calls k := by
  have := h calls.length k
  rw [List.take_length] at this
  exact this

theorem matched_init (l : List PinCall) (a : PinCall) (h : Matched (l ++ [a])) : Matched l := by
  have := matched_take _ h l.length
  rw [List.take_left] at this
  exact this

/-- After a matched sequence of calls that all return, started on a freshly constructed
manager, the pin count of every resident page is its number of reads minus its number of
unpins, and a page that is not resident has as many unpins as reads. -/
theorem runPins_pinsMatch (bufs : Nat) (disk : FileId → File) (calls : List PinCall) :
    Matched calls → ∀ t, runPins calls (construct bufs disk) = some t →
      Weak t ∧ IndexedExcept none t.hashTable t.bufDescTable ∧
      PinsMatch t (fun k => reads calls k - unpins calls k) := by
  induction calls using List.reverseRecOn with
  | nil =>
    intro _ t ht
    injection ht with ht
    subst ht
    exact ⟨construct_weak bufs disk, construct_indexed bufs disk,
      fun _ _ hk => (by cases hk), fun _ _ => rfl⟩
  | append_singleton l a ih =>
    intro hm t ht
    rw [runPins_snoc] at ht
    cases hu : runPins l (construct bufs disk) with
    | none =>
      rw [hu] at ht
      cases ht
    | some u =>
      rw [hu] at ht
      obtain ⟨hw, hi, hp⟩ := ih (matched_init l a hm) u hu
      have hml := matched_all l (matched_init l a hm)
      have hma := matched_all _ hm
      cases a with
      | read file p =>
        have ht' : (match (u.readPage file p).1 with
            | .ok _ => some (u.readPage file p).2
            | .error _ => none) = some t := ht
        cases hr : (u.readPage file p).1 with
        | error e =>
          rw [hr] at ht'
          cases ht'
        | ok f =>
          rw [hr] at ht'
          injection ht' with ht'
          subst ht'
          have hout : managerOutcome (thrown (u.readPage file p)) = true := by
            unfold thrown
            rw [hr]
            rfl
          refine ⟨readPage_weak u file p hw, readPage_indexed u file p hi hout,
            pinsMatch_congr (readPage_pinsMatch u file p _ hw hi hp f hr) fun k => ?_⟩
          have h1 := reads_snoc l (.read file p) k
          have h2 := unpins_snoc l (.read file p) k
          have h3 := hml k
          simp only at h1 h2
          rw [h1, h2]
          by_cases hk : k = (some file, p)
          · rw [if_pos hk, if_pos hk.symm]
            omega
          · rw [if_neg hk, if_neg (fun e => hk e.symm)]
            rfl
      | unpin file p d =>
        have ht' : (match (u.unPinPage file p d).1 with
            | .ok _ => some (u.unPinPage file p d).2
            | .error _ => none) = some t := ht
        have hpos : 0 < reads l (some file, p) - unpins l (some file, p) := by
          have h1 := reads_snoc l (.unpin file p d) (some file, p)
          have h2 := unpins_snoc l (.unpin file p d) (some file, p)
          have h3 := hma (some file, p)
          simp only [if_true] at h1 h2
          omega
        obtain ⟨hr, hp'⟩ := unPinPage_pinsMatch u file p d _ hw hp hpos
        rw [hr] at ht'
        injection ht' with ht'
        subst ht'
        refine ⟨unPinPage_weak u file p d hw, unPinPage_indexed u file p d hi,
          pinsMatch_congr hp' fun k => ?_⟩
        have h1 := reads_snoc l (.unpin file p d) k
        have h2 := unpins_snoc l (.unpin file p d) k
        simp only at h1 h2
        rw [h1, h2]
        by_cases hk : k = (some file, p)
        · rw [if_pos hk, if_pos hk.symm]
          omega
        · rw [if_neg hk, if_neg (fun e => hk e.symm)]
          rfl

theorem balancedCalls_matched : Matched balancedCalls := by
  intro n k
  unfold balancedCalls
  rcases n with _ | _ | _ | _ | _ | _ | n <;>
    simp only [List.take, unpins, reads, List.countP_cons, List.countP_nil] <;>
    by_cases h1 : ((some 0, 1) : FilePtr × PageId) = k <;>
    by_cases h2 : ((some 0, 2) : FilePtr × PageId) = k <;>
    simp [h1, h2]

theorem balancedCalls_even (k : FilePtr × PageId) :
    reads balancedCalls k = unpins balancedCalls k := by
  unfold balancedCalls
  simp only [unpins, reads, List.countP_cons, List.countP_nil]
  by_cases h1 : ((some 0, 1) : FilePtr × PageId) = k <;>
    by_cases h2 : ((some 0, 2) : FilePtr × PageId) = k <;>
    simp [h1, h2]

end BufMgr

/-! ## Claims -/

/-- C1 (eviction safety): in a pool with at least one frame whose invalid frames all have
`pinCnt == 0`, a frame that `allocBuf` returns lies in the pool and has `pinCnt == 0` in
the state `allocBuf` leaves behind. -/
theorem C1_allocBuf_returns_unpinned_frame (s : BufMgr) (f : FrameId) (hN : 1 ≤ s.numBufs)
    (hinv : ∀ i, i < s.numBufs → (s.bufDescTable i).valid = false →
      (s.bufDescTable i).pinCnt = 0)
    (hret : s.allocBuf.1 = .ok f) :
    f < s.numBufs ∧ (s.allocBuf.2.bufDescTable f).pinCnt = 0 := by
  rcases BufMgr.allocBuf_spec s hN with h | ⟨t, h1, h2, h3, h4⟩
  · rw [h.1] at hret; cases hret
  · rw [h3] at hret
    injection hret with hf
    subst hf
    refine ⟨h2, ?_⟩
    have hd := h1.desc_eq t.clockHand
    rcases h4 with ⟨hv, he⟩ | ⟨_, _, hp, he⟩
    · rw [he, hd.2.2.2.1]
      exact hinv _ h2 (hd.2.2.2.2.2 ▸ hv)
    · rw [he, BufMgr.evict_bufDescTable, if_pos rfl]
      exact hp

/-- Witness for C1: in `oneFrameUnpinned` the only frame is valid and unpinned; `allocBuf`
returns it. -/
theorem C1_allocBuf_returns_unpinned_frame_witness :
    (1 ≤ BufMgr.oneFrameUnpinned.numBufs ∧
      (∀ i, i < BufMgr.oneFrameUnpinned.numBufs →
        (BufMgr.oneFrameUnpinned.bufDescTable i).valid = false →
        (BufMgr.oneFrameUnpinned.bufDescTable i).pinCnt = 0) ∧
      BufMgr.oneFrameUnpinned.allocBuf.1 = .ok 0) ∧
    (0 < BufMgr.oneFrameUnpinned.numBufs ∧
      (BufMgr.oneFrameUnpinned.allocBuf.2.bufDescTable 0).pinCnt = 0) :=
  ⟨⟨by decide, by decide, by decide⟩,
   C1_allocBuf_returns_unpinned_frame BufMgr.oneFrameUnpinned 0 (by decide) (by decide)
     (by decide)⟩

/-- C2 (exhaustion): in a pool with at least one frame where every frame is valid and
pinned, `allocBuf` throws `BufferExceededException`, and so does `readPage` of any page
that is not in the page index. -/
theorem C2_all_pinned_throws_BufferExceeded (s : BufMgr) (hN : 1 ≤ s.numBufs)
    (hall : ∀ i, i < s.numBufs →
      (s.bufDescTable i).valid = true ∧ 0 < (s.bufDescTable i).pinCnt) :
    s.allocBuf.1 = .error .BufferExceeded ∧
    ∀ (file : FileId) (pageNo : PageId), s.hashTable.lookup (some file) pageNo = none →
      (s.readPage file pageNo).1 = .error .BufferExceeded := by
  have hthrow : s.allocBuf.1 = .error .BufferExceeded := by
    rcases BufMgr.allocBuf_spec s hN with h | ⟨t, h1, h2, _, h4⟩
    · exact h.1
    · exfalso
      have hd := h1.desc_eq t.clockHand
      have ha := hall _ h2
      rcases h4 with ⟨hv, _⟩ | ⟨_, _, hp, _⟩
      · rw [hd.2.2.2.2.2, ha.1] at hv; cases hv
      · rw [hd.2.2.2.1] at hp; omega
  refine ⟨hthrow, fun file pageNo hmiss => ?_⟩
  unfold BufMgr.readPage
  rw [hmiss]
  simp only []
  split
  · rename_i e s1 heq
    rw [← hthrow, heq]
  · rename_i frame_num s1 heq
    rw [heq] at hthrow; cases hthrow

/-- Witness for C2: the pool `twoFramesPinned`. -/
theorem C2_all_pinned_throws_BufferExceeded_witness :
    (1 ≤ BufMgr.twoFramesPinned.numBufs ∧
      (∀ i, i < BufMgr.twoFramesPinned.numBufs →
        (BufMgr.twoFramesPinned.bufDescTable i).valid = true ∧
        0 < (BufMgr.twoFramesPinned.bufDescTable i).pinCnt)) ∧
    (BufMgr.twoFramesPinned.allocBuf.1 = .error .BufferExceeded ∧
      ∀ (file : FileId) (pageNo : PageId),
        BufMgr.twoFramesPinned.hashTable.lookup (some file) pageNo = none →
        (BufMgr.twoFramesPinned.readPage file pageNo).1 = .error .BufferExceeded) :=
  ⟨⟨by decide, by decide⟩,
   C2_all_pinned_throws_BufferExceeded BufMgr.twoFramesPinned (by decide) (by decide)⟩

/-- C3, the code at the failing input: in the state `pinnedThenReferenced`, reached from
construction by public calls, `allocBuf` (and `readPage` of a page that is not resident)
throws `BufferExceededException` although frame 1 is valid with `pinCnt == 0`: the pinned
frame 0 is counted on both passes of the hand. -/
theorem C3_BufferExceeded_with_evictable_frame :
    BufMgr.pinnedThenReferenced.numBufs = 2 ∧
    BufMgr.pinnedThenReferenced.allocBuf.1 = .error .BufferExceeded ∧
    (BufMgr.pinnedThenReferenced.readPage 0 3).1 = .error .BufferExceeded ∧
    (BufMgr.pinnedThenReferenced.bufDescTable 1).valid = true ∧
    (BufMgr.pinnedThenReferenced.bufDescTable 1).pinCnt = 0 := by
  decide

/-- C4 (write-back round trip): page `(file, p)` is resident in frame `f` with content
`s.bufPool f` and `unPinPage(file, p, true)` takes its `pinCnt` from 1 to 0 and marks it
dirty.  In any state `t` satisfying the invariants in which frame `f` still holds the page
as the unpin left it (same content, same dirty flag), if `allocBuf` selects `f` then it
calls `file.writePage` with that content and nothing else, clears `dirty` and leaves the
frame content in place; a `readPage` of a page `(fq, q)` that is not resident then gets
frame `f`, and a `readPage(file, p)` after it that returns a frame returns one whose
content is the content that was unpinned. -/
theorem C4_write_back_round_trip (s t : BufMgr) (file fq : FileId) (p q : PageId)
    (f : FrameId)
    (hres : s.hashTable.lookup (some file) p = some f)
    (hpin : (s.bufDescTable f).pinCnt = 1)
    (hw : BufMgr.Weak t) (hi : BufMgr.IndexedExcept none t.hashTable t.bufDescTable)
    (hpool : BufMgr.PoolNumbered t)
    (htres : t.hashTable.lookup (some file) p = some f)
    (htpool : t.bufPool f = s.bufPool f)
    (htdirty : (t.bufDescTable f).dirty =
      ((s.unPinPage file p true).2.bufDescTable f).dirty)
    (hmiss : t.hashTable.lookup (some fq) q = none)
    (hvict : t.allocBuf.1 = .ok f) :
    ((s.unPinPage file p true).2.bufDescTable f).pinCnt = 0 ∧
    ((s.unPinPage file p true).2.bufDescTable f).dirty = true ∧
    t.allocBuf.2.trace = t.trace ++ [FileCall.writePage file (s.bufPool f)] ∧
    (t.allocBuf.2.disk file).readPage p = s.bufPool f ∧
    (t.allocBuf.2.bufDescTable f).dirty = false ∧
    t.allocBuf.2.bufPool f = s.bufPool f ∧
    (t.readPage fq q).1 = .ok f ∧
    ∀ g, ((t.readPage fq q).2.readPage file p).1 = .ok g →
      ((t.readPage fq q).2.readPage file p).2.bufPool g = s.bufPool f := by
  have hunpin := BufMgr.unPinPage_pinned s file p true f hres (by omega)
  have hpin0 : ((s.unPinPage file p true).2.bufDescTable f).pinCnt = 0 := by
    rw [hunpin]; simp [hpin]
  have hdirty1 : ((s.unPinPage file p true).2.bufDescTable f).dirty = true := by
    rw [hunpin]; simp
  rw [hdirty1] at htdirty
  obtain ⟨hval, hkey⟩ := hw.1 _ f htres
  have hfile : (t.bufDescTable f).file = some file := congrArg Prod.fst hkey
  have hpno : (t.bufDescTable f).pageNo = p := congrArg Prod.snd hkey
  have hnum : (t.bufPool f).page_number = p := (hpool f hval).trans hpno
  obtain ⟨a1, a2, a3, a4, a5⟩ := BufMgr.allocBuf_victim_dirty t f file hval htdirty hfile hvict
  have hstored : (t.allocBuf.2.disk file).readPage p = s.bufPool f := by
    rw [a2]
    simp only [if_true]
    rw [← hnum, BufMgr.File.readPage_writePage_same, htpool]
  have hne : ((some fq, q) : FilePtr × PageId) ≠ (some file, p) := by
    intro e
    have h1 : t.hashTable (some fq, q) = none := hmiss
    rw [e] at h1
    have h2 : t.hashTable (some file, p) = some f := htres
    rw [h1] at h2
    cases h2
  have hfree : t.allocBuf.2.hashTable (some fq, q) = none := by
    rw [a5, hpno, if_neg hne]
    exact hmiss
  have hread := BufMgr.readPage_miss_ok t t.allocBuf.2 fq q f hmiss (Prod.ext hvict rfl) hfree
  have hout : BufMgr.managerOutcome (BufMgr.thrown (t.readPage fq q)) = true := by
    rw [hread]; rfl
  have hiu := BufMgr.readPage_indexed t fq q hi hout
  have hpu := BufMgr.readPage_poolNumbered t fq q hpool hout
  have hmissu : (t.readPage fq q).2.hashTable.lookup (some file) p = none := by
    rw [hread]
    simp only [BufHashTbl.lookup, BufMgr.setDesc_hashTable]
    rw [if_neg (fun e => hne e.symm), a5, hpno, if_pos rfl]
  have hdisku : (t.readPage fq q).2.disk = t.allocBuf.2.disk := by
    rw [hread]; rfl
  refine ⟨hpin0, hdirty1, ?_, hstored, a3, ?_, ?_, fun g hg => ?_⟩
  · rw [a1, htpool]
  · rw [a4, htpool]
  · rw [hread]
  · rw [BufMgr.readPage_miss_content _ file p g hiu hpu hmissu hg, hdisku]
    exact hstored

/-- Witness for C4: in `pageOneModified` page 1 is unpinned dirty, the read of page 2 evicts
it from frame 0 and the next read of page 1 finds the modified content in frame 1. -/
theorem C4_write_back_round_trip_witness :
    (BufMgr.pageOneModified.hashTable.lookup (some 0) 1 = some 0 ∧
      (BufMgr.pageOneModified.bufDescTable 0).pinCnt = 1 ∧
      (BufMgr.pageOneModified.unPinPage 0 1 true).2.hashTable.lookup (some 0) 2 = none ∧
      (BufMgr.pageOneModified.unPinPage 0 1 true).2.allocBuf.1 = .ok 0 ∧
      (((BufMgr.pageOneModified.unPinPage 0 1 true).2.readPage 0 2).2.readPage 0 1).1 = .ok 1) ∧
    (((BufMgr.pageOneModified.unPinPage 0 1 true).2.bufDescTable 0).pinCnt = 0 ∧
      ((BufMgr.pageOneModified.unPinPage 0 1 true).2.bufDescTable 0).dirty = true ∧
      (BufMgr.pageOneModified.unPinPage 0 1 true).2.allocBuf.2.trace =
        (BufMgr.pageOneModified.unPinPage 0 1 true).2.trace ++
          [FileCall.writePage 0 (BufMgr.pageOneModified.bufPool 0)] ∧
      ((BufMgr.pageOneModified.unPinPage 0 1 true).2.allocBuf.2.disk 0).readPage 1 =
        BufMgr.pageOneModified.bufPool 0 ∧
      ((BufMgr.pageOneModified.unPinPage 0 1 true).2.allocBuf.2.bufDescTable 0).dirty = false ∧
      (BufMgr.pageOneModified.unPinPage 0 1 true).2.allocBuf.2.bufPool 0 =
        BufMgr.pageOneModified.bufPool 0 ∧
      ((BufMgr.pageOneModified.unPinPage 0 1 true).2.readPage 0 2).1 = .ok 0 ∧
      ∀ g, (((BufMgr.pageOneModified.unPinPage 0 1 true).2.readPage 0 2).2.readPage 0 1).1 =
          .ok g →
        (((BufMgr.pageOneModified.unPinPage 0 1 true).2.readPage 0 2).2.readPage 0 1).2.bufPool g =
          BufMgr.pageOneModified.bufPool 0) :=
  have hreach : BufMgr.ReachableVia BufMgr.managerOutcome
      ((((BufMgr.construct 2 BufMgr.emptyDisk).perform (.readPage 0 1)).2.perform
        (.readPage 0 5)).2.perform (.unPinPage 0 5 false)).2 :=
    .call _ (.unPinPage 0 5 false)
      (.call _ (.readPage 0 5)
        (.call _ (.readPage 0 1) (.construct 2 BufMgr.emptyDisk (by decide)) (by decide))
        (by decide))
      (by decide)
  have hnum : BufMgr.PoolNumbered
      ((((BufMgr.construct 2 BufMgr.emptyDisk).readPage 0 1).2.readPage 0 5).2.unPinPage 0 5
        false).2 :=
    BufMgr.unPinPage_poolNumbered _ 0 5 false
      (BufMgr.readPage_poolNumbered _ 0 5
        (BufMgr.readPage_poolNumbered _ 0 1 (BufMgr.construct_poolNumbered 2 BufMgr.emptyDisk)
          (by decide))
        (by decide))
  have hwk : BufMgr.Weak BufMgr.pageOneModified :=
    BufMgr.setPool_weak _ 0 ⟨1, [42]⟩ (BufMgr.reachable_weak hreach)
  have hidx : BufMgr.IndexedExcept none BufMgr.pageOneModified.hashTable
      BufMgr.pageOneModified.bufDescTable :=
    BufMgr.setPool_indexed _ 0 ⟨1, [42]⟩ (BufMgr.reachable_indexed hreach)
  ⟨⟨by decide, by decide, by decide, by decide, by decide⟩,
   C4_write_back_round_trip BufMgr.pageOneModified (BufMgr.pageOneModified.unPinPage 0 1 true).2
    0 0 1 2 0 (by decide) (by decide)
    (BufMgr.unPinPage_weak BufMgr.pageOneModified 0 1 true hwk)
    (BufMgr.unPinPage_indexed BufMgr.pageOneModified 0 1 true hidx)
    (BufMgr.unPinPage_poolNumbered BufMgr.pageOneModified 0 1 true
      (BufMgr.setPool_poolNumbered _ 0 ⟨1, [42]⟩ hnum (by decide)))
    (by decide) (by decide) rfl (by decide) (by decide)⟩

/-- C5, the claim as stated fails: in the state `beforeDuplicateAlloc` (reached from
construction by public calls) the file hands `allocPage` the number of the resident page
2; `allocBuf` has already dropped the index entry of frame 0 when `hashTable->insert`
throws, and frame 0 is left valid for (file 0, page 1) with no entry in the page index. -/
theorem C5_stale_descriptor_after_failed_insert :
    BufMgr.ReachableVia BufMgr.anyOutcome (BufMgr.beforeDuplicateAlloc.perform (.allocPage 0)).2 ∧
    (BufMgr.beforeDuplicateAlloc.perform (.allocPage 0)).1 = some .HashAlreadyPresent ∧
    ¬ BufMgr.IndexConsistent (BufMgr.beforeDuplicateAlloc.perform (.allocPage 0)).2 := by
  refine ⟨?_, by decide, ?_⟩
  · exact .call _ (.allocPage 0)
      (.call _ (.unPinPage 0 2 false)
        (.call _ (.unPinPage 0 1 false)
          (.call _ (.readPage 0 2)
            (.call _ (.allocPage 0) (.construct 2 BufMgr.emptyDisk (by decide)) rfl) rfl) rfl)
        rfl) rfl
  · intro h
    have h0 := (h.1 0 (by decide)).1 (by decide)
    revert h0
    decide

/-- C5 (page-index consistency, amended): in every state reached from construction through
public calls that each returned or threw one of the manager's own four exceptions, a frame
of the pool is valid exactly when the page index maps the (file, pageNo) of its descriptor
to it, and no two valid frames of the pool carry the same (file, pageNo). -/
theorem C5_index_consistent_when_calls_end_well (s : BufMgr)
    (h : BufMgr.ReachableVia BufMgr.managerOutcome s) : BufMgr.IndexConsistent s := by
  have hw := BufMgr.reachable_weak h
  have hi := BufMgr.reachable_indexed h
  refine ⟨fun i _ => ⟨fun hv => hi i (by simp) hv, fun hl => ?_⟩, fun i j _ _ hvi hvj hf hp => ?_⟩
  · exact (hw.1 _ i hl).1
  · have h1 := hi i (by simp) hvi
    have h2 := hi j (by simp) hvj
    rw [hf, hp, h2] at h1
    injection h1 with h1
    exact h1.symm

/-- Witness for C5 as amended: a page read and unpinned in a fresh pool of two frames. -/
theorem C5_index_consistent_when_calls_end_well_witness :
    BufMgr.ReachableVia BufMgr.managerOutcome
      (((BufMgr.construct 2 BufMgr.emptyDisk).perform (.readPage 0 1)).2.perform
        (.unPinPage 0 1 true)).2 ∧
    BufMgr.IndexConsistent
      (((BufMgr.construct 2 BufMgr.emptyDisk).perform (.readPage 0 1)).2.perform
        (.unPinPage 0 1 true)).2 :=
  ⟨.call _ (.unPinPage 0 1 true)
      (.call _ (.readPage 0 1) (.construct 2 BufMgr.emptyDisk (by decide)) (by decide))
      (by decide),
   C5_index_consistent_when_calls_end_well _
    (.call _ (.unPinPage 0 1 true)
      (.call _ (.readPage 0 1) (.construct 2 BufMgr.emptyDisk (by decide)) (by decide))
      (by decide))⟩

/-- C6 (descriptor invariant): in every state reached from construction through public
calls, however each of them ended, every frame descriptor of the pool satisfies
`valid == false ⇒ pinCnt == 0 ∧ dirty == false` and `dirty == true ⇒ valid == true`. -/
theorem C6_descriptor_invariant (s : BufMgr) (h : BufMgr.ReachableVia BufMgr.anyOutcome s)
    (i : FrameId) (_hi : i < s.numBufs) :
    ((s.bufDescTable i).valid = false →
      (s.bufDescTable i).pinCnt = 0 ∧ (s.bufDescTable i).dirty = false) ∧
    ((s.bufDescTable i).dirty = true → (s.bufDescTable i).valid = true) :=
  (BufMgr.reachable_weak h).2 i

/-- Witness for C6: the state left by the `allocPage` whose `hashTable->insert` threw. -/
theorem C6_descriptor_invariant_witness :
    (BufMgr.ReachableVia BufMgr.anyOutcome
      (BufMgr.beforeDuplicateAlloc.perform (.allocPage 0)).2 ∧
      0 < (BufMgr.beforeDuplicateAlloc.perform (.allocPage 0)).2.numBufs) ∧
    (((((BufMgr.beforeDuplicateAlloc.perform (.allocPage 0)).2.bufDescTable 0).valid = false →
      ((BufMgr.beforeDuplicateAlloc.perform (.allocPage 0)).2.bufDescTable 0).pinCnt = 0 ∧
      ((BufMgr.beforeDuplicateAlloc.perform (.allocPage 0)).2.bufDescTable 0).dirty = false)) ∧
     (((BufMgr.beforeDuplicateAlloc.perform (.allocPage 0)).2.bufDescTable 0).dirty = true →
      ((BufMgr.beforeDuplicateAlloc.perform (.allocPage 0)).2.bufDescTable 0).valid = true)) :=
  have hreach : BufMgr.ReachableVia BufMgr.anyOutcome
      (BufMgr.beforeDuplicateAlloc.perform (.allocPage 0)).2 :=
    .call _ (.allocPage 0)
      (.call _ (.unPinPage 0 2 false)
        (.call _ (.unPinPage 0 1 false)
          (.call _ (.readPage 0 2)
            (.call _ (.allocPage 0) (.construct 2 BufMgr.emptyDisk (by decide)) rfl) rfl) rfl)
        rfl) rfl
  ⟨⟨hreach, by decide⟩, C6_descriptor_invariant _ hreach 0 (by decide)⟩

/-- C7 (unPinPage raises-iff and atomicity): `unPinPage` throws `PageNotPinnedException`
exactly when the page is in the page index and its frame has `pinCnt == 0`; it throws
nothing else, and a call that throws leaves the whole state as it was, whatever `dirty`
was passed. -/
theorem C7_unPinPage_throws_iff_and_atomic (s : BufMgr) (file : FileId) (pageNo : PageId)
    (dirty : Bool) :
    ((s.unPinPage file pageNo dirty).1 = .error .PageNotPinned ↔
      ∃ f, s.hashTable.lookup (some file) pageNo = some f ∧ (s.bufDescTable f).pinCnt = 0) ∧
    (∀ e, (s.unPinPage file pageNo dirty).1 = .error e →
      e = .PageNotPinned ∧ (s.unPinPage file pageNo dirty).2 = s) := by
  unfold BufMgr.unPinPage
  cases hl : s.hashTable.lookup (some file) pageNo with
  | none => simp
  | some f =>
    simp only []
    by_cases hp : (s.bufDescTable f).pinCnt > 0
    · rw [if_pos hp]
      constructor
      · constructor
        · intro h; cases dirty <;> simp at h
        · rintro ⟨g, hg, h0⟩
          injection hg with hg
          subst hg
          omega
      · intro e h; cases dirty <;> simp at h
    · rw [if_neg hp]
      refine ⟨⟨fun _ => ⟨f, rfl, by omega⟩, fun _ => rfl⟩, fun e h => ?_⟩
      injection h with h
      exact ⟨h.symm, rfl⟩

/-- Witness for C7: unpinning the unpinned resident page of `oneFrameUnpinned` throws
`PageNotPinnedException` and leaves the state as it was. -/
theorem C7_unPinPage_throws_iff_and_atomic_witness :
    (BufMgr.oneFrameUnpinned.unPinPage 0 1 true).1 = .error .PageNotPinned ∧
    (Exn.PageNotPinned = Exn.PageNotPinned ∧
      (BufMgr.oneFrameUnpinned.unPinPage 0 1 true).2 = BufMgr.oneFrameUnpinned) :=
  ⟨by decide,
   (C7_unPinPage_throws_iff_and_atomic BufMgr.oneFrameUnpinned 0 1 true).2 .PageNotPinned
    (by decide)⟩

/-- C8 (unPinPage effect): for a page resident in frame `f` with `pinCnt > 0` the call
returns and the state after it is the state before with only the descriptor of `f`
replaced, `pinCnt` one less and `dirty` the old flag or-ed with the argument; for a page
that is not resident the call returns and the state is unchanged. -/
theorem C8_unPinPage_effect (s : BufMgr) (file : FileId) (pageNo : PageId) (dirty : Bool) :
    (∀ f, s.hashTable.lookup (some file) pageNo = some f → 0 < (s.bufDescTable f).pinCnt →
      s.unPinPage file pageNo dirty =
        (.ok (), { s with bufDescTable := fun j =>
          if j = f then
            { file := (s.bufDescTable f).file, pageNo := (s.bufDescTable f).pageNo,
              frameNo := (s.bufDescTable f).frameNo,
              pinCnt := (s.bufDescTable f).pinCnt - 1,
              dirty := ((s.bufDescTable f).dirty || dirty),
              valid := (s.bufDescTable f).valid, refbit := (s.bufDescTable f).refbit }
          else s.bufDescTable j })) ∧
    (s.hashTable.lookup (some file) pageNo = none → s.unPinPage file pageNo dirty = (.ok (), s)) := by
  exact ⟨fun f hl hp => BufMgr.unPinPage_pinned s file pageNo dirty f hl hp,
    fun hl => BufMgr.unPinPage_miss s file pageNo dirty hl⟩

/-- Witness for C8: unpinning page 2 of `twoFramesPinned`, resident in frame 1. -/
theorem C8_unPinPage_effect_witness :
    (BufMgr.twoFramesPinned.hashTable.lookup (some 0) 2 = some 1 ∧
      0 < (BufMgr.twoFramesPinned.bufDescTable 1).pinCnt) ∧
    BufMgr.twoFramesPinned.unPinPage 0 2 false =
      (.ok (), { BufMgr.twoFramesPinned with bufDescTable := fun j =>
        if j = 1 then
          { file := (BufMgr.twoFramesPinned.bufDescTable 1).file,
            pageNo := (BufMgr.twoFramesPinned.bufDescTable 1).pageNo,
            frameNo := (BufMgr.twoFramesPinned.bufDescTable 1).frameNo,
            pinCnt := (BufMgr.twoFramesPinned.bufDescTable 1).pinCnt - 1,
            dirty := ((BufMgr.twoFramesPinned.bufDescTable 1).dirty || false),
            valid := (BufMgr.twoFramesPinned.bufDescTable 1).valid,
            refbit := (BufMgr.twoFramesPinned.bufDescTable 1).refbit }
        else BufMgr.twoFramesPinned.bufDescTable j }) :=
  ⟨⟨by decide, by decide⟩,
   (C8_unPinPage_effect BufMgr.twoFramesPinned 0 2 false).1 1 (by decide) (by decide)⟩

/-- C9 (readPage hit): when the page index maps the page to frame `f`, `readPage` returns
frame `f` and the state after it is the state before with only the descriptor of `f`
replaced, `refbit` set and `pinCnt` one more; pool contents, page index, clock hand, files
and the record of `File` calls are the same. -/
theorem C9_readPage_hit (s : BufMgr) (file : FileId) (pageNo : PageId) (f : FrameId)
    (hres : s.hashTable.lookup (some file) pageNo = some f) :
    s.readPage file pageNo =
      (.ok f, { s with bufDescTable := fun j =>
        if j = f then
          { file := (s.bufDescTable f).file, pageNo := (s.bufDescTable f).pageNo,
            frameNo := (s.bufDescTable f).frameNo,
            pinCnt := (s.bufDescTable f).pinCnt + 1,
            dirty := (s.bufDescTable f).dirty,
            valid := (s.bufDescTable f).valid, refbit := true }
        else s.bufDescTable j }) := by
  rw [BufMgr.readPage_hit s file pageNo f hres]
  rfl

/-- Witness for C9: reading page 2 of `twoFramesPinned` again. -/
theorem C9_readPage_hit_witness :
    BufMgr.twoFramesPinned.hashTable.lookup (some 0) 2 = some 1 ∧
    BufMgr.twoFramesPinned.readPage 0 2 =
      (.ok 1, { BufMgr.twoFramesPinned with bufDescTable := fun j =>
        if j = 1 then
          { file := (BufMgr.twoFramesPinned.bufDescTable 1).file,
            pageNo := (BufMgr.twoFramesPinned.bufDescTable 1).pageNo,
            frameNo := (BufMgr.twoFramesPinned.bufDescTable 1).frameNo,
            pinCnt := (BufMgr.twoFramesPinned.bufDescTable 1).pinCnt + 1,
            dirty := (BufMgr.twoFramesPinned.bufDescTable 1).dirty,
            valid := (BufMgr.twoFramesPinned.bufDescTable 1).valid, refbit := true }
        else BufMgr.twoFramesPinned.bufDescTable j }) :=
  ⟨by decide, C9_readPage_hit BufMgr.twoFramesPinned 0 2 1 (by decide)⟩

/-- C10 (cache hit after allocation): when `allocPage(file)` returns page number `p` and
frame `f`, the page index maps `(file, p)` to `f`, the descriptor of `f` is valid for
`(file, p)`, and `readPage(file, p)` right after returns `f` with the pool contents, the
files and the record of `File` calls unchanged. -/
theorem C10_readPage_after_allocPage_hits (s : BufMgr) (file : FileId) (p : PageId)
    (f : FrameId) (hret : (s.allocPage file).1 = .ok (p, f)) :
    (s.allocPage file).2.hashTable.lookup (some file) p = some f ∧
    ((s.allocPage file).2.bufDescTable f).valid = true ∧
    ((s.allocPage file).2.bufDescTable f).file = some file ∧
    ((s.allocPage file).2.bufDescTable f).pageNo = p ∧
    (((s.allocPage file).2.readPage file p).1 = .ok f ∧
     ((s.allocPage file).2.readPage file p).2.bufPool = (s.allocPage file).2.bufPool ∧
     ((s.allocPage file).2.readPage file p).2.disk = (s.allocPage file).2.disk ∧
     ((s.allocPage file).2.readPage file p).2.trace = (s.allocPage file).2.trace) := by
  have key : (s.allocPage file).2.hashTable.lookup (some file) p = some f ∧
      ((s.allocPage file).2.bufDescTable f).valid = true ∧
      ((s.allocPage file).2.bufDescTable f).file = some file ∧
      ((s.allocPage file).2.bufDescTable f).pageNo = p := by
    revert hret
    unfold BufMgr.allocPage
    simp only []
    split
    · intro h; cases h
    · rename_i frame_num s1 heq
      split
      · intro h; cases h
      · rename_i h' hins
        intro h
        simp only [Except.ok.injEq, Prod.mk.injEq] at h
        obtain ⟨hp, hf⟩ := h
        subst hf
        subst hp
        have hh := (BufMgr.insert_ok hins).2
        simp only [BufHashTbl.lookup, BufMgr.setDesc_hashTable, BufMgr.setDesc_same,
          BufDesc.Set]
        rw [hh]
        simp
  refine ⟨key.1, key.2.1, key.2.2.1, key.2.2.2, ?_⟩
  rw [BufMgr.readPage_hit _ file p f key.1]
  exact ⟨rfl, rfl, rfl, rfl⟩

/-- Witness for C10: `allocPage` on a fresh pool of two frames gives page 1 in frame 0. -/
theorem C10_readPage_after_allocPage_hits_witness :
    ((BufMgr.construct 2 BufMgr.emptyDisk).allocPage 0).1 = .ok (1, 0) ∧
    (BufMgr.twoFramesAllocated.hashTable.lookup (some 0) 1 = some 0 ∧
     (BufMgr.twoFramesAllocated.bufDescTable 0).valid = true ∧
     (BufMgr.twoFramesAllocated.bufDescTable 0).file = some 0 ∧
     (BufMgr.twoFramesAllocated.bufDescTable 0).pageNo = 1 ∧
     ((BufMgr.twoFramesAllocated.readPage 0 1).1 = .ok 0 ∧
      (BufMgr.twoFramesAllocated.readPage 0 1).2.bufPool = BufMgr.twoFramesAllocated.bufPool ∧
      (BufMgr.twoFramesAllocated.readPage 0 1).2.disk = BufMgr.twoFramesAllocated.disk ∧
      (BufMgr.twoFramesAllocated.readPage 0 1).2.trace = BufMgr.twoFramesAllocated.trace)) :=
  ⟨by decide,
   C10_readPage_after_allocPage_hits (BufMgr.construct 2 BufMgr.emptyDisk) 0 1 0 (by decide)⟩

/-- C11 (flush clears state): from a state satisfying the invariants (sound page index,
descriptor invariant, index entries inside the pool), when `flushFile(file)` returns for a
real file, the page index has no entry for the file, no descriptor of the pool names the
file, every frame that belonged to the file is cleared (invalid, clean, `pinCnt` 0), the
`File` calls made are one `writePage` for each frame of the file that was dirty, in frame
order, and descriptors of other files, their index entries and the pool contents are
unchanged. -/
theorem C11_flushFile_clears_file (s : BufMgr) (fid : FileId) (hw : BufMgr.Weak s)
    (hin : BufMgr.InPool s) (hok : (s.flushFile (some fid)).1 = .ok ()) :
    (∀ p, (s.flushFile (some fid)).2.hashTable.lookup (some fid) p = none) ∧
    (∀ i, i < s.numBufs → ((s.flushFile (some fid)).2.bufDescTable i).file ≠ some fid) ∧
    (∀ i, i < s.numBufs → (s.bufDescTable i).file = some fid →
      (s.flushFile (some fid)).2.bufDescTable i = (s.bufDescTable i).Clear ∧
      ((s.flushFile (some fid)).2.bufDescTable i).valid = false ∧
      ((s.flushFile (some fid)).2.bufDescTable i).dirty = false ∧
      ((s.flushFile (some fid)).2.bufDescTable i).pinCnt = 0) ∧
    (s.flushFile (some fid)).2.trace = s.trace ++ BufMgr.flushWrites s fid s.numBufs 0 ∧
    (∀ i, (s.bufDescTable i).file ≠ some fid →
      (s.flushFile (some fid)).2.bufDescTable i = s.bufDescTable i) ∧
    (∀ k, (∀ p, k ≠ (some fid, p)) → (s.flushFile (some fid)).2.hashTable k = s.hashTable k) ∧
    (s.flushFile (some fid)).2.bufPool = s.bufPool := by
  obtain ⟨a1, a2, a3, a4, a5, _, _, a8⟩ :=
    BufMgr.flushFileLoop_ok_spec fid s.numBufs 0 s hok
  have hclear : ∀ i : Nat, i < s.numBufs → (s.bufDescTable i).file = some fid →
      (s.flushFile (some fid)).2.bufDescTable i = (s.bufDescTable i).Clear :=
    fun i hi hf => (a1 i (by omega) (by omega) hf).2.2.1
  refine ⟨fun p => ?_, fun i hi => ?_, fun i hi hf => ?_, a8, fun i hf => ?_, fun k hk => ?_, a5⟩
  · cases hc : (s.flushFile (some fid)).2.hashTable.lookup (some fid) p with
    | none => rfl
    | some f =>
      exfalso
      have hs := a3 _ _ hc
      obtain ⟨_, hkey⟩ := hw.1 _ f hs
      have hlt : (f : Nat) < s.numBufs := hin _ f hs
      have hfile : (s.bufDescTable f).file = some fid := congrArg Prod.fst hkey
      have hpno : (s.bufDescTable f).pageNo = p := congrArg Prod.snd hkey
      have hnone := (a1 f (Nat.zero_le _) (by rw [Nat.zero_add]; exact hlt) hfile).2.2.2
      rw [hpno] at hnone
      have hc' : (s.flushFile (some fid)).2.hashTable (some fid, p) = some f := hc
      cases hnone.symm.trans hc'
  · by_cases hf : (s.bufDescTable i).file = some fid
    · rw [hclear i hi hf]
      simp [BufDesc.Clear]
    · have := a2 i (fun c => hf c.2.2)
      rw [show (s.flushFile (some fid)).2.bufDescTable i = s.bufDescTable i from this]
      exact hf
  · rw [hclear i hi hf]
    exact ⟨rfl, rfl, rfl, rfl⟩
  · exact a2 i (fun c => hf c.2.2)
  · exact a4 k (fun j _ _ _ => hk _)

/-- Witness for C11: flushing file 0 in `oneFrameUnpinned`, whose only frame holds page 1
of file 0, dirty and unpinned. -/
theorem C11_flushFile_clears_file_witness :
    (BufMgr.oneFrameUnpinned.flushFile (some 0)).1 = .ok () ∧
    ((∀ p, (BufMgr.oneFrameUnpinned.flushFile (some 0)).2.hashTable.lookup (some 0) p = none) ∧
    (∀ i, i < BufMgr.oneFrameUnpinned.numBufs →
      ((BufMgr.oneFrameUnpinned.flushFile (some 0)).2.bufDescTable i).file ≠ some 0) ∧
    (∀ i, i < BufMgr.oneFrameUnpinned.numBufs →
      (BufMgr.oneFrameUnpinned.bufDescTable i).file = some 0 →
      (BufMgr.oneFrameUnpinned.flushFile (some 0)).2.bufDescTable i =
        (BufMgr.oneFrameUnpinned.bufDescTable i).Clear ∧
      ((BufMgr.oneFrameUnpinned.flushFile (some 0)).2.bufDescTable i).valid = false ∧
      ((BufMgr.oneFrameUnpinned.flushFile (some 0)).2.bufDescTable i).dirty = false ∧
      ((BufMgr.oneFrameUnpinned.flushFile (some 0)).2.bufDescTable i).pinCnt = 0) ∧
    (BufMgr.oneFrameUnpinned.flushFile (some 0)).2.trace =
      BufMgr.oneFrameUnpinned.trace ++
        BufMgr.flushWrites BufMgr.oneFrameUnpinned 0 BufMgr.oneFrameUnpinned.numBufs 0 ∧
    (∀ i, (BufMgr.oneFrameUnpinned.bufDescTable i).file ≠ some 0 →
      (BufMgr.oneFrameUnpinned.flushFile (some 0)).2.bufDescTable i =
        BufMgr.oneFrameUnpinned.bufDescTable i) ∧
    (∀ k, (∀ p, k ≠ (some 0, p)) →
      (BufMgr.oneFrameUnpinned.flushFile (some 0)).2.hashTable k =
        BufMgr.oneFrameUnpinned.hashTable k) ∧
    (BufMgr.oneFrameUnpinned.flushFile (some 0)).2.bufPool = BufMgr.oneFrameUnpinned.bufPool) :=
  ⟨by decide,
   C11_flushFile_clears_file BufMgr.oneFrameUnpinned 0
    (BufMgr.reachable_weak BufMgr.reachable_oneFrameUnpinned)
    (BufMgr.reachable_sane BufMgr.reachable_oneFrameUnpinned).2.2.2 (by decide)⟩

/-- C12 (flush failure is non-atomic and halts at the first offender): from a state where
every valid frame is indexed and no unused descriptor names a file, `flushFile(file)` of
a real file throws `PagePinnedException` exactly when some frame of the pool belonging to
the file has `pinCnt > 0`.  When it throws, it does so at the lowest such frame `m`: the
frames of the file below `m` are unpinned and have been cleared and removed from the
index, the `File` calls made are the `writePage`s of the dirty ones among them, and every
other descriptor, frame `m` and the frames above it included, is as before, the frames
from `m` on still indexed. -/
theorem C12_flushFile_halts_at_first_pinned (s : BufMgr) (fid : FileId)
    (hi : BufMgr.IndexedExcept none s.hashTable s.bufDescTable)
    (hown : BufMgr.Unowned s.bufDescTable) :
    ((s.flushFile (some fid)).1 = .error .PagePinned ↔
      ∃ j, j < s.numBufs ∧ (s.bufDescTable j).file = some fid ∧
        0 < (s.bufDescTable j).pinCnt) ∧
    ((s.flushFile (some fid)).1 = .error .PagePinned →
      ∃ m, m < s.numBufs ∧ (s.bufDescTable m).file = some fid ∧
        0 < (s.bufDescTable m).pinCnt ∧
        (∀ j, j < m → (s.bufDescTable j).file = some fid →
          (s.bufDescTable j).pinCnt = 0 ∧
          (s.flushFile (some fid)).2.bufDescTable j = (s.bufDescTable j).Clear ∧
          (s.flushFile (some fid)).2.hashTable (some fid, (s.bufDescTable j).pageNo) = none) ∧
        (∀ j, ¬ (j < m ∧ (s.bufDescTable j).file = some fid) →
          (s.flushFile (some fid)).2.bufDescTable j = s.bufDescTable j) ∧
        (∀ j, m ≤ j → (s.bufDescTable j).valid = true →
          (s.flushFile (some fid)).2.hashTable
            ((s.bufDescTable j).file, (s.bufDescTable j).pageNo) = some j) ∧
        (s.flushFile (some fid)).2.trace = s.trace ++ BufMgr.flushWrites s fid m 0 ∧
        (s.flushFile (some fid)).2.bufPool = s.bufPool) := by
  have hstate : (s.flushFile (some fid)).1 = .error .PagePinned →
      ∃ m, m < s.numBufs ∧ (s.bufDescTable m).file = some fid ∧
        0 < (s.bufDescTable m).pinCnt ∧
        (BufMgr.flushFileLoop (some fid) m 0 s).1 = .ok () ∧
        (s.flushFile (some fid)).2 = (BufMgr.flushFileLoop (some fid) m 0 s).2 := by
    intro he
    obtain ⟨m, hm, hok, hfile, hcase⟩ :=
      BufMgr.flushFileLoop_throw_spec fid s.numBufs 0 s _ he
    rw [Nat.zero_add] at hfile hcase
    rcases hcase with ⟨h, _⟩ | ⟨_, _, hp, hst⟩ | ⟨h, _⟩
    · cases h
    · exact ⟨m, hm, hfile, hp, hok, hst⟩
    · cases h
  refine ⟨⟨fun he => ?_, fun hex => ?_⟩, fun he => ?_⟩
  · obtain ⟨m, hm, hfile, hp, _, _⟩ := hstate he
    exact ⟨m, hm, hfile, hp⟩
  · obtain ⟨j, hj, hfile, hp⟩ := hex
    cases hr : (s.flushFile (some fid)).1 with
    | ok u =>
      exfalso
      have h0 := (BufMgr.flushFileLoop_ok_spec fid s.numBufs 0 s hr).1 j (Nat.zero_le _)
        (by rw [Nat.zero_add]; exact hj) hfile
      omega
    | error e =>
      obtain ⟨m, _, _, _, hcase⟩ := BufMgr.flushFileLoop_throw_spec fid s.numBufs 0 s e hr
      rcases hcase with ⟨h, _⟩ | ⟨h, _⟩ | ⟨h, _⟩
      · rw [h] at hr
        exact absurd hr (BufMgr.flushFileLoop_not_badBuffer fid s.numBufs 0 s hown)
      · rw [h]
      · rw [h] at hr
        exact absurd hr (BufMgr.flushFileLoop_not_notFound fid s.numBufs 0 s hi)
  · obtain ⟨m, hm, hfile, hp, hok, hst⟩ := hstate he
    obtain ⟨a1, a2, _, a4, a5, _, _, a8⟩ := BufMgr.flushFileLoop_ok_spec fid m 0 s hok
    rw [hst]
    refine ⟨m, hm, hfile, hp, fun j hj hf => ?_, fun j hj => ?_, fun j hj hv => ?_, a8, a5⟩
    · obtain ⟨_, b2, b3, b4⟩ := a1 j (Nat.zero_le _) (by rw [Nat.zero_add]; exact hj) hf
      exact ⟨b2, b3, b4⟩
    · exact a2 j (fun c => hj ⟨by rw [Nat.zero_add] at c; exact c.2.1, c.2.2⟩)
    · have hidx := hi j (by simp) hv
      rw [a4 _ (fun j' _ c2 c3 hk => by
        rw [Nat.zero_add] at c2
        have hv' := (a1 j' (Nat.zero_le _) (by rw [Nat.zero_add]; exact c2) c3).1
        have hidx' := hi j' (by simp) hv'
        rw [c3, ← hk, hidx] at hidx'
        injection hidx' with hidx'
        have e' : (j : Nat) = j' := hidx'
        omega)]
      exact hidx

/-- Witness for C12: flushing file 0 in `twoFramesDirtyAndPinned` writes back and clears
frame 0 and throws at the pinned frame 1. -/
theorem C12_flushFile_halts_at_first_pinned_witness :
    (BufMgr.twoFramesDirtyAndPinned.flushFile (some 0)).1 = .error .PagePinned ∧
    (∃ j, j < BufMgr.twoFramesDirtyAndPinned.numBufs ∧
      (BufMgr.twoFramesDirtyAndPinned.bufDescTable j).file = some 0 ∧
      0 < (BufMgr.twoFramesDirtyAndPinned.bufDescTable j).pinCnt) :=
  ⟨by decide,
   (C12_flushFile_halts_at_first_pinned BufMgr.twoFramesDirtyAndPinned 0
    (BufMgr.reachable_indexed BufMgr.reachable_twoFramesDirtyAndPinned)
    (BufMgr.reachable_sane BufMgr.reachable_twoFramesDirtyAndPinned).2.2.1).1.mp (by decide)⟩

/-- C13 (BadBuffer is unreachable): in every state reached from construction through
public calls, however each ended, no descriptor that is not valid names a file, and
`flushFile` of a real (non-null) file does not throw `BadBufferException`. -/
theorem C13_flushFile_never_BadBuffer (s : BufMgr) (h : BufMgr.ReachableVia BufMgr.anyOutcome s)
    (fid : FileId) :
    (∀ i, (s.bufDescTable i).valid = false → (s.bufDescTable i).file = none) ∧
    (s.flushFile (some fid)).1 ≠ .error .BadBuffer :=
  ⟨(BufMgr.reachable_sane h).2.2.1,
   BufMgr.flushFileLoop_not_badBuffer fid s.numBufs 0 s (BufMgr.reachable_sane h).2.2.1⟩

/-- Witness for C13: the state left by the `allocPage` whose `hashTable->insert` threw,
where `flushFile` of file 0 ends with `HashNotFoundException` instead. -/
theorem C13_flushFile_never_BadBuffer_witness :
    BufMgr.ReachableVia BufMgr.anyOutcome (BufMgr.beforeDuplicateAlloc.perform (.allocPage 0)).2 ∧
    ((∀ i, ((BufMgr.beforeDuplicateAlloc.perform (.allocPage 0)).2.bufDescTable i).valid = false →
      ((BufMgr.beforeDuplicateAlloc.perform (.allocPage 0)).2.bufDescTable i).file = none) ∧
    ((BufMgr.beforeDuplicateAlloc.perform (.allocPage 0)).2.flushFile (some 0)).1 ≠
      .error .BadBuffer) :=
  have hreach : BufMgr.ReachableVia BufMgr.anyOutcome
      (BufMgr.beforeDuplicateAlloc.perform (.allocPage 0)).2 :=
    .call _ (.allocPage 0)
      (.call _ (.unPinPage 0 2 false)
        (.call _ (.unPinPage 0 1 false)
          (.call _ (.readPage 0 2)
            (.call _ (.allocPage 0) (.construct 2 BufMgr.emptyDisk (by decide)) rfl) rfl) rfl)
        rfl) rfl
  ⟨hreach, C13_flushFile_never_BadBuffer _ hreach 0⟩

/-- C14 (disposePage): the call returns, and its only `File` call is one
`deletePage(pageNo)` on the file, resident page or not.  For a page resident in frame `f`
the index entry is removed and the descriptor of `f` is cleared (invalid, `pinCnt` 0,
clean), whatever its `pinCnt` was; other entries and descriptors stay.  For a page that is
not resident the descriptors and the index are unchanged.  Pool contents and clock hand
are unchanged in both cases. -/
theorem C14_disposePage_effect (s : BufMgr) (file : FileId) (pageNo : PageId) :
    (s.disposePage file pageNo).1 = .ok () ∧
    (s.disposePage file pageNo).2.trace = s.trace ++ [FileCall.deletePage file pageNo] ∧
    (s.disposePage file pageNo).2.disk file = (s.disk file).deletePage pageNo ∧
    (s.disposePage file pageNo).2.bufPool = s.bufPool ∧
    (s.disposePage file pageNo).2.clockHand = s.clockHand ∧
    (∀ f, s.hashTable.lookup (some file) pageNo = some f →
      (s.disposePage file pageNo).2.hashTable =
        (fun k => if k = (some file, pageNo) then none else s.hashTable k) ∧
      (s.disposePage file pageNo).2.bufDescTable =
        (fun j => if j = f then (s.bufDescTable f).Clear else s.bufDescTable j) ∧
      ((s.disposePage file pageNo).2.bufDescTable f).valid = false ∧
      ((s.disposePage file pageNo).2.bufDescTable f).pinCnt = 0 ∧
      ((s.disposePage file pageNo).2.bufDescTable f).dirty = false) ∧
    (s.hashTable.lookup (some file) pageNo = none →
      (s.disposePage file pageNo).2.hashTable = s.hashTable ∧
      (s.disposePage file pageNo).2.bufDescTable = s.bufDescTable) := by
  cases hl : s.hashTable.lookup (some file) pageNo with
  | none =>
    rw [BufMgr.disposePage_miss s file pageNo hl]
    refine ⟨rfl, rfl, ?_, rfl, rfl, fun f hf => ?_, fun _ => ⟨rfl, rfl⟩⟩
    · simp [BufMgr.fileDeletePage]
    · cases hf
  | some f =>
    rw [BufMgr.disposePage_hit s file pageNo f hl]
    refine ⟨rfl, rfl, ?_, rfl, rfl, fun g hg => ?_, fun h => ?_⟩
    · simp [BufMgr.fileDeletePage]
    · injection hg with hg
      subst hg
      refine ⟨rfl, rfl, ?_, ?_, ?_⟩ <;>
        simp [BufMgr.fileDeletePage, BufMgr.setDesc, BufDesc.Clear]
    · cases h

/-- Witness for C14: disposing page 2 of `twoFramesPinned`, resident and pinned in
frame 1. -/
theorem C14_disposePage_effect_witness :
    BufMgr.twoFramesPinned.hashTable.lookup (some 0) 2 = some 1 ∧
    ((BufMgr.twoFramesPinned.disposePage 0 2).2.hashTable =
        (fun k => if k = (some 0, 2) then none else BufMgr.twoFramesPinned.hashTable k) ∧
      (BufMgr.twoFramesPinned.disposePage 0 2).2.bufDescTable =
        (fun j => if j = 1 then (BufMgr.twoFramesPinned.bufDescTable 1).Clear
          else BufMgr.twoFramesPinned.bufDescTable j) ∧
      ((BufMgr.twoFramesPinned.disposePage 0 2).2.bufDescTable 1).valid = false ∧
      ((BufMgr.twoFramesPinned.disposePage 0 2).2.bufDescTable 1).pinCnt = 0 ∧
      ((BufMgr.twoFramesPinned.disposePage 0 2).2.bufDescTable 1).dirty = false) :=
  ⟨by decide, (C14_disposePage_effect BufMgr.twoFramesPinned 0 2).2.2.2.2.2.1 1 (by decide)⟩

/-- C16 (pin/unpin balance): start from a freshly constructed manager and perform any
sequence of `readPage` and `unPinPage` calls that all return, in which every prefix has, for
every page, no more unpins than reads.  Then at every point (after every prefix of the
sequence) the `pinCnt` of a resident page is its number of reads minus its number of unpins
so far, and a page with outstanding reads is resident (it was not evicted); and when reads
and unpins are equal for every page at the end, every frame has `pinCnt` 0. -/
theorem C16_pin_unpin_balance (bufs : Nat) (disk : FileId → File)
    (calls : List BufMgr.PinCall) (t : BufMgr) (_hbufs : 1 ≤ bufs)
    (hm : BufMgr.Matched calls)
    (hrun : BufMgr.runPins calls (BufMgr.construct bufs disk) = some t) :
    (∀ n, ∃ u, BufMgr.runPins (calls.take n) (BufMgr.construct bufs disk) = some u ∧
      (∀ k f, u.hashTable k = some f →
        (u.bufDescTable f).pinCnt =
          BufMgr.reads (calls.take n) k - BufMgr.unpins (calls.take n) k) ∧
      (∀ k, BufMgr.unpins (calls.take n) k < BufMgr.reads (calls.take n) k →
        u.hashTable k ≠ none)) ∧
    ((∀ k, BufMgr.reads calls k = BufMgr.unpins calls k) →
      ∀ i, (t.bufDescTable i).pinCnt = 0) := by
  refine ⟨fun n => ?_, fun heven i => ?_⟩
  · have hsplit : BufMgr.runPins (calls.take n ++ calls.drop n) (BufMgr.construct bufs disk) =
        some t := by
      rw [List.take_append_drop]
      exact hrun
    obtain ⟨u, hu⟩ := BufMgr.runPins_append _ _ _ _ hsplit
    obtain ⟨_, _, hp⟩ :=
      BufMgr.runPins_pinsMatch bufs disk _ (BufMgr.matched_take calls hm n) u hu
    refine ⟨u, hu, fun k f hk => hp.1 k f hk, fun k hlt hnone => ?_⟩
    have := hp.2 k hnone
    simp only at this
    omega
  · obtain ⟨hw, hi, hp⟩ := BufMgr.runPins_pinsMatch bufs disk calls hm t hrun
    cases hv : (t.bufDescTable i).valid with
    | false => exact ((hw.2 i).1 hv).1
    | true =>
      rw [hp.1 _ i (hi i (by simp) hv)]
      simp only
      rw [heven]
      exact Nat.sub_self _

/-- Witness for C16: pool of two frames; page 1 of file 0 is read twice and page 2 once,
each read is matched by a later unpin, and every `pinCnt` ends at 0. -/
theorem C16_pin_unpin_balance_witness :
    (1 ≤ 2 ∧ BufMgr.Matched BufMgr.balancedCalls ∧
      BufMgr.runPins BufMgr.balancedCalls (BufMgr.construct 2 BufMgr.emptyDisk) =
        some ((((((((BufMgr.construct 2 BufMgr.emptyDisk).readPage 0 1).2.readPage 0
          1).2.unPinPage 0 1 false).2.readPage 0 2).2.unPinPage 0 1 true).2.unPinPage 0 2
          false).2)) ∧
    ∀ i, (((((((((BufMgr.construct 2 BufMgr.emptyDisk).readPage 0 1).2.readPage 0
      1).2.unPinPage 0 1 false).2.readPage 0 2).2.unPinPage 0 1 true).2.unPinPage 0 2
      false).2).bufDescTable i).pinCnt = 0 :=
  ⟨⟨by decide, BufMgr.balancedCalls_matched, rfl⟩,
   (C16_pin_unpin_balance 2 BufMgr.emptyDisk BufMgr.balancedCalls _ (by decide)
      BufMgr.balancedCalls_matched rfl).2 BufMgr.balancedCalls_even⟩

/-- C17 (clock sweep selection): when `allocBuf` returns frame `f` the clock hand is on
`f`, which is the frame it landed on last, and `f` was invalid or is valid with `refbit`
clear and `pinCnt == 0`; every frame the hand landed on before was valid, has its `refbit`
clear afterwards, and was referenced at the start or is pinned and unchanged.  (So no
invalid frame is passed over.)  On a freshly constructed manager the hand is at
`numBufs - 1` and the first `allocBuf` returns frame 0. -/
theorem C17_clock_sweep_selection :
    (∀ (s : BufMgr) (f : FrameId), 1 ≤ s.numBufs → s.allocBuf.1 = .ok f →
      s.allocBuf.2.clockHand = f ∧
      (BufMgr.allocBufVisits (2 * s.numBufs + 1) 0 s).getLast? = some f ∧
      ((s.bufDescTable f).valid = false ∨
        ((s.bufDescTable f).valid = true ∧ (s.allocBuf.2.bufDescTable f).refbit = false ∧
          (s.bufDescTable f).pinCnt = 0)) ∧
      ∀ g, g ∈ (BufMgr.allocBufVisits (2 * s.numBufs + 1) 0 s).dropLast →
        (s.bufDescTable g).valid = true ∧
        (s.allocBuf.2.bufDescTable g).refbit = false ∧
        ((s.bufDescTable g).refbit = true ∨
          (0 < (s.bufDescTable g).pinCnt ∧
            s.allocBuf.2.bufDescTable g = s.bufDescTable g))) ∧
    (∀ (bufs : Nat) (disk : FileId → File), 1 ≤ bufs → bufs < 2 ^ 32 →
      (BufMgr.construct bufs disk).clockHand = bufs - 1 ∧
      (BufMgr.construct bufs disk).allocBuf.1 = .ok 0) := by
  constructor
  · intro s f hN hret
    obtain ⟨hlast, hvis⟩ := BufMgr.allocBufVisits_spec (2 * s.numBufs + 1) 0 s f hret
    refine ⟨?_, hlast, ?_, fun g hg => ?_⟩
    · rcases BufMgr.allocBuf_spec s hN with h | ⟨t, _, _, h3, h4⟩
      · rw [h.1] at hret; cases hret
      · rw [h3] at hret
        injection hret with hret
        rcases h4 with ⟨_, he⟩ | ⟨_, _, _, he⟩
        · rw [he]; exact hret
        · rw [he, BufMgr.evict_clockHand]; exact hret
    · rcases BufMgr.allocBuf_spec s hN with h | ⟨t, h1, _, h3, h4⟩
      · rw [h.1] at hret; cases hret
      · rw [h3] at hret
        injection hret with hret
        obtain ⟨_, _, _, e4, _, e6⟩ := h1.desc_eq f
        rcases h4 with ⟨hv, _⟩ | ⟨hv, hr, hp, he⟩
        · left
          rw [← e6, ← hret]
          exact hv
        · right
          refine ⟨?_, ?_, ?_⟩
          · rw [← e6, ← hret]; exact hv
          · rw [he, BufMgr.evict_bufDescTable, if_pos hret.symm]
            exact hr
          · rw [← e4, ← hret]; exact hp
    · obtain ⟨a1, a2, a3⟩ := hvis g hg
      refine ⟨a1, a3, ?_⟩
      cases hr : (s.bufDescTable g).refbit with
      | true => exact Or.inl rfl
      | false =>
        rcases a2 with a2 | a2
        · rw [hr] at a2; cases a2
        · exact Or.inr ⟨a2, BufMgr.allocBuf_pinned_unreferenced s g hr a2⟩
  · intro bufs disk h1 h32
    have hh : (BufMgr.construct bufs disk).clockHand = bufs - 1 := by
      show (bufs + 2 ^ 32 - 1) % 2 ^ 32 = bufs - 1
      have : bufs + 2 ^ 32 - 1 = (bufs - 1) + 2 ^ 32 := by omega
      rw [this, Nat.add_mod_right]
      exact Nat.mod_eq_of_lt (by omega)
    refine ⟨hh, ?_⟩
    have h0 := BufMgr.construct_advanceClock bufs disk h1 h32
    unfold BufMgr.allocBuf
    rw [BufMgr.allocBufLoop_invalid _ 0 _ (by rfl), h0]

/-- Witness for C17: in `twoFramesOneUnpinned` the hand clears the reference bits of
frames 0 and 1 and selects frame 0 on its second visit; a fresh pool of three frames. -/
theorem C17_clock_sweep_selection_witness :
    (1 ≤ BufMgr.twoFramesOneUnpinned.numBufs ∧
      BufMgr.twoFramesOneUnpinned.allocBuf.1 = .ok 0 ∧ 1 ≤ 3 ∧ 3 < 2 ^ 32) ∧
    (BufMgr.twoFramesOneUnpinned.allocBuf.2.clockHand = 0 ∧
      (BufMgr.allocBufVisits (2 * BufMgr.twoFramesOneUnpinned.numBufs + 1) 0
        BufMgr.twoFramesOneUnpinned).getLast? = some 0 ∧
      ((BufMgr.twoFramesOneUnpinned.bufDescTable 0).valid = false ∨
        ((BufMgr.twoFramesOneUnpinned.bufDescTable 0).valid = true ∧
          (BufMgr.twoFramesOneUnpinned.allocBuf.2.bufDescTable 0).refbit = false ∧
          (BufMgr.twoFramesOneUnpinned.bufDescTable 0).pinCnt = 0)) ∧
      ∀ g, g ∈ (BufMgr.allocBufVisits (2 * BufMgr.twoFramesOneUnpinned.numBufs + 1) 0
          BufMgr.twoFramesOneUnpinned).dropLast →
        (BufMgr.twoFramesOneUnpinned.bufDescTable g).valid = true ∧
        (BufMgr.twoFramesOneUnpinned.allocBuf.2.bufDescTable g).refbit = false ∧
        ((BufMgr.twoFramesOneUnpinned.bufDescTable g).refbit = true ∨
          (0 < (BufMgr.twoFramesOneUnpinned.bufDescTable g).pinCnt ∧
            BufMgr.twoFramesOneUnpinned.allocBuf.2.bufDescTable g =
              BufMgr.twoFramesOneUnpinned.bufDescTable g))) ∧
    ((BufMgr.construct 3 BufMgr.emptyDisk).clockHand = 3 - 1 ∧
      (BufMgr.construct 3 BufMgr.emptyDisk).allocBuf.1 = .ok 0) :=
  ⟨⟨by decide, by decide, by decide, by decide⟩,
   C17_clock_sweep_selection.1 BufMgr.twoFramesOneUnpinned 0 (by decide) (by decide),
   C17_clock_sweep_selection.2 3 BufMgr.emptyDisk (by decide) (by decide)⟩

/-- C18 (termination and in-range hand): with at least one frame and the hand in the
pool, `allocBuf` ends by itself, returning a frame or throwing
`BufferExceededException`; it calls `advanceClock` at most `2 * numBufs` times, and after
every such call, as at the end, the hand is below `numBufs`. -/
theorem C18_allocBuf_terminates_hand_in_range (s : BufMgr) (hN : 1 ≤ s.numBufs)
    (hhand : s.clockHand < s.numBufs) :
    ((∃ f, s.allocBuf.1 = .ok f) ∨ s.allocBuf.1 = .error .BufferExceeded) ∧
    (BufMgr.allocBufVisits (2 * s.numBufs + 1) 0 s).length ≤ 2 * s.numBufs ∧
    (∀ g, g ∈ BufMgr.allocBufVisits (2 * s.numBufs + 1) 0 s → g < s.numBufs) ∧
    s.allocBuf.2.clockHand < s.numBufs := by
  refine ⟨?_, ?_, fun g hg => BufMgr.allocBufVisits_lt _ 0 s hN g hg,
    BufMgr.allocBufLoop_clockHand_lt _ 0 s hN hhand⟩
  · cases hr : s.allocBuf.1 with
    | ok f => exact Or.inl ⟨f, rfl⟩
    | error e =>
      rcases BufMgr.allocBufLoop_error _ 0 s e hr with h | h
      · rw [h]; exact Or.inr rfl
      · rw [h] at hr; exact absurd hr (BufMgr.allocBuf_not_diverged s hN)
  · have h1 := BufMgr.allocBufVisits_length (2 * s.numBufs + 1) 0 s (by omega)
    have h2 := BufMgr.refCount_le s
    omega

/-- Witness for C18: the sweep in `pinnedThenReferenced`. -/
theorem C18_allocBuf_terminates_hand_in_range_witness :
    (1 ≤ BufMgr.pinnedThenReferenced.numBufs ∧
      BufMgr.pinnedThenReferenced.clockHand < BufMgr.pinnedThenReferenced.numBufs) ∧
    (((∃ f, BufMgr.pinnedThenReferenced.allocBuf.1 = .ok f) ∨
      BufMgr.pinnedThenReferenced.allocBuf.1 = .error .BufferExceeded) ∧
    (BufMgr.allocBufVisits (2 * BufMgr.pinnedThenReferenced.numBufs + 1) 0
      BufMgr.pinnedThenReferenced).length ≤ 2 * BufMgr.pinnedThenReferenced.numBufs ∧
    (∀ g, g ∈ BufMgr.allocBufVisits (2 * BufMgr.pinnedThenReferenced.numBufs + 1) 0
      BufMgr.pinnedThenReferenced → g < BufMgr.pinnedThenReferenced.numBufs) ∧
    BufMgr.pinnedThenReferenced.allocBuf.2.clockHand < BufMgr.pinnedThenReferenced.numBufs) :=
  ⟨⟨by decide, by decide⟩,
   C18_allocBuf_terminates_hand_in_range BufMgr.pinnedThenReferenced (by decide) (by decide)⟩

/-- C19, the claim as stated fails: in `oneFramePinned` the only frame is valid and pinned
and `allocPage(0)` throws `BufferExceededException` after `allocatePage` has given file 0
its page 1, yet that page number is resident after the failed call: the page index still
maps (file 0, page 1) to frame 0, as it did before the call. -/
theorem C19_allocated_page_number_may_be_resident :
    (1 ≤ BufMgr.oneFramePinned.numBufs ∧
      ∀ i, i < BufMgr.oneFramePinned.numBufs →
        (BufMgr.oneFramePinned.bufDescTable i).valid = true ∧
        0 < (BufMgr.oneFramePinned.bufDescTable i).pinCnt) ∧
    (BufMgr.oneFramePinned.allocPage 0).1 = .error .BufferExceeded ∧
    (BufMgr.oneFramePinned.allocPage 0).2.trace =
      BufMgr.oneFramePinned.trace ++ [FileCall.allocatePage 0] ∧
    ((BufMgr.oneFramePinned.disk 0).allocatePage).1.page_number = 1 ∧
    BufMgr.oneFramePinned.hashTable.lookup (some 0) 1 = some 0 ∧
    (BufMgr.oneFramePinned.allocPage 0).2.hashTable.lookup (some 0) 1 = some 0 ∧
    ¬ ((BufMgr.oneFramePinned.allocPage 0).2.hashTable.lookup (some 0)
        ((BufMgr.oneFramePinned.disk 0).allocatePage).1.page_number = none) := by
  refine ⟨⟨?_, ?_⟩, ?_, ?_, ?_, ?_, ?_, ?_⟩ <;> decide

/-- C19 (allocPage is not rolled back on exhaustion), amended: in a pool with at least one
frame where every frame is valid and pinned, `allocPage(file)` throws
`BufferExceededException` after `file.allocatePage()` has run: that call is the one `File`
call made, the file is left as `allocatePage` left it and the number of its new page is
not returned.  The page index, the pool contents and every descriptor field other than
`refbit` are as before the call; so the new page is resident after the call exactly when
a page of its number was resident before, and it is not resident when none was. -/
theorem C19_allocPage_exhausted_keeps_allocated_page (s : BufMgr) (file : FileId)
    (hN : 1 ≤ s.numBufs)
    (hall : ∀ i, i < s.numBufs →
      (s.bufDescTable i).valid = true ∧ 0 < (s.bufDescTable i).pinCnt) :
    (s.allocPage file).1 = .error .BufferExceeded ∧
    (s.allocPage file).2.trace = s.trace ++ [FileCall.allocatePage file] ∧
    (s.allocPage file).2.disk file = ((s.disk file).allocatePage).2 ∧
    (s.allocPage file).2.hashTable.lookup (some file)
        ((s.disk file).allocatePage).1.page_number =
      s.hashTable.lookup (some file) ((s.disk file).allocatePage).1.page_number ∧
    (s.hashTable.lookup (some file) ((s.disk file).allocatePage).1.page_number = none →
      (s.allocPage file).2.hashTable.lookup (some file)
        ((s.disk file).allocatePage).1.page_number = none) ∧
    (s.allocPage file).2.hashTable = s.hashTable ∧
    (s.allocPage file).2.bufPool = s.bufPool ∧
    (s.allocPage file).2.numBufs = s.numBufs ∧
    ∀ i, ((s.allocPage file).2.bufDescTable i).pinCnt = (s.bufDescTable i).pinCnt ∧
      ((s.allocPage file).2.bufDescTable i).dirty = (s.bufDescTable i).dirty ∧
      ((s.allocPage file).2.bufDescTable i).valid = (s.bufDescTable i).valid ∧
      ((s.allocPage file).2.bufDescTable i).file = (s.bufDescTable i).file ∧
      ((s.allocPage file).2.bufDescTable i).pageNo = (s.bufDescTable i).pageNo := by
  obtain ⟨hthrow, hsw⟩ := BufMgr.allocBuf_all_pinned (s.fileAllocatePage file).2 hN hall
  have hres : s.allocPage file =
      (.error .BufferExceeded, (s.fileAllocatePage file).2.allocBuf.2) := by
    unfold BufMgr.allocPage
    simp only []
    split
    · rename_i e s1 heq
      rw [heq] at hthrow ⊢
      have he : e = .BufferExceeded := by injection hthrow
      rw [he]
    · rename_i f s1 heq
      rw [heq] at hthrow
      cases hthrow
  rw [hres]
  have hdesc := hsw.desc_eq
  obtain ⟨h1, h2, h3, h4, h5, _⟩ := hsw
  have hhash : (s.fileAllocatePage file).2.allocBuf.2.hashTable = s.hashTable := by
    rw [h3]; rfl
  refine ⟨rfl, ?_, ?_, ?_, ?_, hhash, ?_, ?_, fun i => ?_⟩
  · rw [h5]; rfl
  · rw [h4]; simp [BufMgr.fileAllocatePage]
  · simp only []
    rw [hhash]
  · intro hnone
    simp only []
    rw [hhash]
    exact hnone
  · rw [h2]; rfl
  · rw [h1]; rfl
  · obtain ⟨e1, e2, _, e4, e5, e6⟩ := hdesc i
    exact ⟨e4, e5, e6, e1, e2⟩

/-- Witness for C19: `allocPage` on the pool `threeFramesPinned`, whose file 0 has the
pages 1, 2, 3, all resident and pinned; the failed call leaves the file with page 4, which
is not resident. -/
theorem C19_allocPage_exhausted_keeps_allocated_page_witness :
    (1 ≤ BufMgr.threeFramesPinned.numBufs ∧
      (∀ i, i < BufMgr.threeFramesPinned.numBufs →
        (BufMgr.threeFramesPinned.bufDescTable i).valid = true ∧
        0 < (BufMgr.threeFramesPinned.bufDescTable i).pinCnt) ∧
      ((BufMgr.threeFramesPinned.disk 0).allocatePage).1.page_number = 4 ∧
      BufMgr.threeFramesPinned.hashTable.lookup (some 0)
        ((BufMgr.threeFramesPinned.disk 0).allocatePage).1.page_number = none) ∧
    ((BufMgr.threeFramesPinned.allocPage 0).1 = .error .BufferExceeded ∧
      (BufMgr.threeFramesPinned.allocPage 0).2.trace =
        BufMgr.threeFramesPinned.trace ++ [FileCall.allocatePage 0] ∧
      (BufMgr.threeFramesPinned.allocPage 0).2.hashTable.lookup (some 0)
        ((BufMgr.threeFramesPinned.disk 0).allocatePage).1.page_number = none) :=
  ⟨⟨by decide, by decide, by decide, by decide⟩,
   ⟨(C19_allocPage_exhausted_keeps_allocated_page BufMgr.threeFramesPinned 0 (by decide)
      (by decide)).1,
    (C19_allocPage_exhausted_keeps_allocated_page BufMgr.threeFramesPinned 0 (by decide)
      (by decide)).2.1,
    (C19_allocPage_exhausted_keeps_allocated_page BufMgr.threeFramesPinned 0 (by decide)
      (by decide)).2.2.2.2.1 (by decide)⟩⟩

/-- C20 (joinTuples and shared attributes): `joinTuples` evaluated where the right schema
shares its first attribute with the left schema and has `age INT` of its own, so that
`createResultTableSchema` keeps the left attribute and `age` only.  For a shared `INT` the
result is the left tuple followed by the four bytes of `age`.  For a shared
`VARCHAR` (value "hi") the length byte of the right tuple and one `'0'` of padding stand
between the left tuple and `age`; for a shared `CHAR(3)` one `'0'` of padding does: the
shared attribute does contribute bytes to the result. -/
theorem C20_joinTuples_shared_attribute_bytes :
    (JoinOperator.createResultTableSchema JoinOperator.nameTable
        JoinOperator.nameAgeTable).attrs =
      [⟨"name", .VARCHAR, 10, false, false⟩, ⟨"age", .INT, 4, false, false⟩] ∧
    JoinOperator.joinTuples [2, 104, 105, 0] [2, 104, 105, 0, 0, 0, 0, 7]
        JoinOperator.nameTable JoinOperator.nameAgeTable =
      some [2, 104, 105, 0, 2, 48, 0, 0, 0, 7] ∧
    (JoinOperator.createResultTableSchema JoinOperator.codeTable
        JoinOperator.codeAgeTable).attrs =
      [⟨"code", .CHAR, 3, false, false⟩, ⟨"age", .INT, 4, false, false⟩] ∧
    JoinOperator.joinTuples [97, 98, 99, 0] [97, 98, 99, 0, 0, 0, 0, 7]
        JoinOperator.codeTable JoinOperator.codeAgeTable =
      some [97, 98, 99, 0, 48, 0, 0, 0, 7] ∧
    JoinOperator.joinTuples [0, 0, 0, 5] [0, 0, 0, 5, 0, 0, 0, 7]
        JoinOperator.idTable JoinOperator.idAgeTable =
      some [0, 0, 0, 5, 0, 0, 0, 7] := by
  refine ⟨?_, ?_, ?_, ?_, ?_⟩ <;> decide

/-- C21 (search keys and the join condition): `construct_search_key` evaluated on the
schemas `L = (a INT, b INT)` and `R = (b INT, a INT)`, whose common attributes
`getCommonAttributes(L, R)` are `b, a` in the order of `R`.  The tuples `l = (a 1, b 2)`
and `r = (b 2, a 1)` hold equal values in both common attributes, yet the key of `l` is
the four bytes of `b` alone (`a` stands before `b` in `L` and is passed over), the key of
`r` is the eight bytes of `b` and `a`, and the two keys differ.  With the same schema on
both sides, `(x VARCHAR, y VARCHAR)`, the tuples `("ab", "c")` and `("a", "bc")` get the
same key `"abc"` although they differ in `x` and in `y`. -/
theorem C21_search_key_depends_on_attribute_order :
    JoinOperator.getCommonAttributes JoinOperator.abTable JoinOperator.baTable =
      [⟨"b", .INT, 4, false, false⟩, ⟨"a", .INT, 4, false, false⟩] ∧
    construct_search_key [0, 0, 0, 1, 0, 0, 0, 2]
        (JoinOperator.getCommonAttributes JoinOperator.abTable JoinOperator.baTable)
        JoinOperator.abTable = some [0, 0, 0, 2] ∧
    construct_search_key [0, 0, 0, 2, 0, 0, 0, 1]
        (JoinOperator.getCommonAttributes JoinOperator.abTable JoinOperator.baTable)
        JoinOperator.baTable = some [0, 0, 0, 2, 0, 0, 0, 1] ∧
    construct_search_key [0, 0, 0, 1, 0, 0, 0, 2]
        (JoinOperator.getCommonAttributes JoinOperator.abTable JoinOperator.baTable)
        JoinOperator.abTable ≠
      construct_search_key [0, 0, 0, 2, 0, 0, 0, 1]
        (JoinOperator.getCommonAttributes JoinOperator.abTable JoinOperator.baTable)
        JoinOperator.baTable ∧
    construct_search_key [2, 97, 98, 0, 1, 99, 0, 0]
        (JoinOperator.getCommonAttributes JoinOperator.xyTable JoinOperator.xyTable)
        JoinOperator.xyTable = some [97, 98, 99] ∧
    construct_search_key [1, 97, 0, 0, 2, 98, 99, 0]
        (JoinOperator.getCommonAttributes JoinOperator.xyTable JoinOperator.xyTable)
        JoinOperator.xyTable = some [97, 98, 99] := by
  refine ⟨?_, ?_, ?_, ?_, ?_, ?_⟩ <;> decide

end badgerdb
